import Mathlib

/-!
Shallow embedding of the recursive-descent AST interpreter
(lexer -> parser -> tree-walking interpreter) and proofs about it.

The definitions mirror, function by function, the C++ sources:
`src/lexer.cpp`, `src/parser.cpp`, `src/environment.cpp`,
`src/interpreter.cpp`, `src/builtins.cpp` and the headers under `include/`.
Source text is a `List Char` (the C++ code indexes bytes of a
`std::string`; all inputs of interest are ASCII).  Machine `int` values are
modelled as unbounded `Int` (overflow behaviour is explicitly left open by
the design notes); C++ `/` on `int` truncates toward zero, which is
`Int.tdiv`.
-/

namespace RDAI

set_option maxHeartbeats 4000000 in
set_option maxHeartbeats 4000000 in
set_option maxHeartbeats 4000000 in
/-- 1-based line/column position (token.hpp `SourcePos`). -/
structure SourcePos where
  line : Nat
  col : Nat
  deriving Repr, DecidableEq

/-- Half-open byte span plus the position of its start (token.hpp `Span`).
`stop` is the C++ field `end` (a Lean keyword). -/
structure Span where
  start : Nat
  stop : Nat
  pos : SourcePos
  deriving Repr, DecidableEq

/-- Token kinds (token.hpp `TokenType`). -/
inductive TokenType where
  | LEFT_PAREN | RIGHT_PAREN | LEFT_BRACE | RIGHT_BRACE
  | SEMICOLON | COMMA
  | PLUS | MINUS | STAR | SLASH
  | EQUAL
  | EQUAL_EQUAL | BANG_EQUAL | LESS | LESS_EQUAL | GREATER | GREATER_EQUAL | BANG
  | AND_AND | OR_OR
  | IDENTIFIER | NUMBER
  | LET | IF | ELSE | WHILE | BREAK | CONTINUE | RETURN | FN
  | TRUE | FALSE
  | EOF_
  deriving Repr, DecidableEq

/-- Literal payload carried by a token (token.hpp `Literal`,
a `std::variant<std::monostate, int, bool>`). -/
inductive Literal where
  | none
  | int (i : Int)
  | bool (b : Bool)
  deriving Repr, DecidableEq

/-- A scanned token (token.hpp `Token`). -/
structure Token where
  type : TokenType
  lexeme : String
  literal : Literal
  span : Span
  deriving Repr, DecidableEq

/-! ## Lexer (lexer.cpp)

The C++ lexer walks the source with indices `start_`/`current_` and
line/column counters.  Here the walk is a recursion over the remaining
character list, carrying the absolute offset and position of the next
unread character; each recursive step is one `scan_token` call. -/

namespace Lexer

/-- `Lexer::is_alpha`: ASCII letter or underscore. -/
def is_alpha (c : Char) : Bool := c.isAlpha || c = '_'

/-- `Lexer::is_digit`: ASCII digit. -/
def is_digit (c : Char) : Bool := c.isDigit

/-- `Lexer::is_alnum`. -/
def is_alnum (c : Char) : Bool := is_alpha c || is_digit c

/-- Whitespace characters discarded by `scan_token`. -/
def is_ws (c : Char) : Bool := c = ' ' || c = '\r' || c = '\t' || c = '\n'

/-- The keyword table in `Lexer::scan_token`. -/
def keyword_type (s : String) : Option TokenType :=
  if s = "let" then some .LET
  else if s = "if" then some .IF
  else if s = "else" then some .ELSE
  else if s = "while" then some .WHILE
  else if s = "break" then some .BREAK
  else if s = "continue" then some .CONTINUE
  else if s = "return" then some .RETURN
  else if s = "fn" then some .FN
  else if s = "true" then some .TRUE
  else if s = "false" then some .FALSE
  else none

/-- `Lexer::advance`'s line/column bookkeeping for one consumed char. -/
def advance_pos (p : SourcePos) (c : Char) : SourcePos :=
  if c = '\n' then { line := p.line + 1, col := 1 } else { p with col := p.col + 1 }

/-- Position after consuming a list of characters. -/
def advance_pos_list (p : SourcePos) (cs : List Char) : SourcePos :=
  cs.foldl advance_pos p

/-- `std::stoi` on a nonempty digit string (base 10, no sign). -/
def digits_to_nat (cs : List Char) : Nat :=
  cs.foldl (fun a c => a * 10 + (c.toNat - '0'.toNat)) 0

/-- `Lexer::add_token`: token whose span is `[start_, current_)` with the
position recorded at the start of the lexeme. -/
def mk_token (t : TokenType) (lexeme : List Char) (lit : Literal)
    (start : Nat) (pos : SourcePos) : Token :=
  { type := t, lexeme := String.mk lexeme, literal := lit,
    span := { start := start, stop := start + lexeme.length, pos := pos } }

/-- `Lexer::add_error` formatting. -/
def format_pos_error (pos : SourcePos) (msg : String) : String :=
  "Line " ++ toString pos.line ++ ", col " ++ toString pos.col ++ ": " ++ msg

/-- One-token result of a `scan_token` step: a token, nothing
(whitespace/comment), or an error message. -/
inductive ScanItem where
  | tok (t : Token)
  | skip
  | err (msg : String)
  deriving Repr, DecidableEq

/-- Classification of the leading character, mirroring the `switch` in
`Lexer::scan_token`: single-char punctuation; `! = < >` which become their
two-char forms when followed by `=`; the strictly-paired `&`/`|`; `/`
(slash or comment); whitespace; digits; identifier starters; anything else
is a lexical error. -/
inductive CharKind where
  | simple (t : TokenType)
  | eq_follow (two one : TokenType)
  | pair (two : TokenType) (errMsg : String)
  | slash
  | ws
  | digit
  | alpha
  | other
  deriving Repr, DecidableEq

/-- The `switch (c)` dispatch of `Lexer::scan_token`. -/
def char_kind (c : Char) : CharKind :=
  if c = '(' then .simple .LEFT_PAREN
  else if c = ')' then .simple .RIGHT_PAREN
  else if c = '\x7b' then .simple .LEFT_BRACE
  else if c = '\x7d' then .simple .RIGHT_BRACE
  else if c = ';' then .simple .SEMICOLON
  else if c = ',' then .simple .COMMA
  else if c = '+' then .simple .PLUS
  else if c = '-' then .simple .MINUS
  else if c = '*' then .simple .STAR
  else if c = '!' then .eq_follow .BANG_EQUAL .BANG
  else if c = '=' then .eq_follow .EQUAL_EQUAL .EQUAL
  else if c = '<' then .eq_follow .LESS_EQUAL .LESS
  else if c = '>' then .eq_follow .GREATER_EQUAL .GREATER
  else if c = '&' then .pair .AND_AND "Unexpected \x27&\x27 without pair."
  else if c = '|' then .pair .OR_OR "Unexpected \x27|\x27 without pair."
  else if c = '/' then .slash
  else if is_ws c then .ws
  else if is_digit c then .digit
  else if is_alpha c then .alpha
  else .other

/-- One `Lexer::scan_token` step on nonempty input `c :: rest`, starting at
absolute offset `off` and position `pos`.  Returns the produced item and
the characters consumed *in addition to* `c`. -/
def scan_step (c : Char) (rest : List Char) (off : Nat) (pos : SourcePos) :
    ScanItem × List Char :=
  match char_kind c with
  | .simple t => (.tok (mk_token t [c] .none off pos), [])
  | .eq_follow two one =>
    if rest.head? = some '=' then (.tok (mk_token two [c, '='] .none off pos), ['='])
    else (.tok (mk_token one [c] .none off pos), [])
  | .pair two errMsg =>
    -- `&&` / `||`: the pairing character is `c` itself
    if rest.head? = some c then (.tok (mk_token two [c, c] .none off pos), [c])
    else (.err (format_pos_error pos errMsg), [])
  | .slash =>
    if rest.head? = some '/' then
      -- line comment: discard up to (not including) the next newline
      (.skip, '/' :: (rest.tail.takeWhile (fun ch => ch ≠ '\n')))
    else (.tok (mk_token .SLASH [c] .none off pos), [])
  | .ws => (.skip, [])
  | .digit =>
    let digits := rest.takeWhile is_digit
    let text := c :: digits
    (.tok (mk_token .NUMBER text (.int (Int.ofNat (digits_to_nat text))) off pos), digits)
  | .alpha =>
    let more := rest.takeWhile is_alnum
    let text := c :: more
    let item : ScanItem :=
      match keyword_type (String.mk text) with
      | some .TRUE => .tok (mk_token .TRUE text (.bool true) off pos)
      | some .FALSE => .tok (mk_token .FALSE text (.bool false) off pos)
      | some kw => .tok (mk_token kw text .none off pos)
      | none => .tok (mk_token .IDENTIFIER text .none off pos)
    (item, more)
  | .other => (.err (format_pos_error pos "Unexpected character."), [])

/-- The `while (!is_at_end())` loop of `Lexer::scan_tokens` (without the
trailing EOF token).  Each step consumes at least one character, so the
loop runs at most `source.length` times; the first argument counts the
steps still allowed, keeping the recursion structural (it never reaches 0
when started at the remaining length, by `scan_step_extra_le`). -/
def scan_loop : Nat → List Char → Nat → SourcePos → List Token × List String
  | 0, _, _, _ => ([], [])
  | _ + 1, [], _, _ => ([], [])
  | fuel + 1, c :: rest, off, pos =>
    let step := scan_step c rest off pos
    let consumed := c :: step.2
    let rest2 := rest.drop step.2.length
    let tail := scan_loop fuel rest2 (off + consumed.length) (advance_pos_list pos consumed)
    match step.1 with
    | .tok t => (t :: tail.1, tail.2)
    | .skip => tail
    | .err m => (tail.1, m :: tail.2)

/-- `Lexer::scan_tokens`: scan everything, then append the zero-length
EOF sentinel at the final offset and position. -/
def scan_tokens (source : List Char) : List Token × List String :=
  let r := scan_loop source.length source 0 { line := 1, col := 1 }
  (r.1 ++ [{ type := .EOF_, lexeme := "", literal := .none,
             span := { start := source.length, stop := source.length,
                       pos := advance_pos_list { line := 1, col := 1 } source } }],
   r.2)

end Lexer

/-! ## AST (ast.hpp)

The C++ `Expr`/`Stmt` are wrapper structs holding a `std::variant` node and
a `Span`; here each variant is a constructor carrying the wrapper's span as
its last argument.  `FnStmt.body` is a bare `BlockStmt` (just the statement
list, no span of its own). -/

/-- Raw text plus its span (ast.hpp `TextInfo`). -/
structure TextInfo where
  text : String
  span : Span
  deriving Repr, DecidableEq

/-- Operator token type and span (ast.hpp `Op`). -/
structure Op where
  type : TokenType
  span : Span
  deriving Repr, DecidableEq

/-- Expressions (ast.hpp `ExprVariant` + wrapper `Expr`). -/
inductive Expr where
  | lit (value : Literal) (span : Span)
  | ident (name : TextInfo) (span : Span)
  | group (expression : Expr) (span : Span)
  | unary (op : Op) (right : Expr) (span : Span)
  | binary (left : Expr) (op : Op) (right : Expr) (span : Span)
  | assign (name : TextInfo) (value : Expr) (span : Span)
  | call (callee : Expr) (arguments : List Expr) (parenSpan : Span) (span : Span)
  deriving Repr

/-- The wrapper's `span` field. -/
def Expr.span : Expr → Span
  | .lit _ sp => sp
  | .ident _ sp => sp
  | .group _ sp => sp
  | .unary _ _ sp => sp
  | .binary _ _ _ sp => sp
  | .assign _ _ sp => sp
  | .call _ _ _ sp => sp

/-- Statements (ast.hpp `StmtVariant` + wrapper `Stmt`). -/
inductive Stmt where
  | exprStmt (expression : Expr) (span : Span)
  | letStmt (name : TextInfo) (initializer : Expr) (span : Span)
  | block (statements : List Stmt) (span : Span)
  | ifStmt (condition : Expr) (thenBranch : Stmt) (elseBranch : Option Stmt) (span : Span)
  | whileStmt (condition : Expr) (body : Stmt) (span : Span)
  | breakStmt (span : Span)
  | continueStmt (span : Span)
  | returnStmt (value : Option Expr) (span : Span)
  | fnStmt (name : TextInfo) (params : List TextInfo) (body : List Stmt) (span : Span)
  deriving Repr

/-- The wrapper's `span` field. -/
def Stmt.span : Stmt → Span
  | .exprStmt _ sp => sp
  | .letStmt _ _ sp => sp
  | .block _ sp => sp
  | .ifStmt _ _ _ sp => sp
  | .whileStmt _ _ sp => sp
  | .breakStmt sp => sp
  | .continueStmt sp => sp
  | .returnStmt _ sp => sp
  | .fnStmt _ _ _ sp => sp

/-! ## Parser (parser.cpp)

The C++ parser holds the token vector, a cursor `current_`, and an error
list, and signals `ParseError` by exception.  Here the three fields are a
`PState`, the exception is the `perr` outcome, and the mutual recursion is
made total with a fuel argument (decremented at every call; `fuelOut` marks
exhaustion and has no C++ counterpart).  The precedence ladder
`logic_or/logic_and/equality/comparison/term/factor` consists of six
textually identical left-associative levels; they appear here as
`binary_level lvl` for `lvl = 0..5` with the operator set of each level
given by `level_ops`. -/

namespace Parsing

/-- Fallback token for out-of-range indexing.  The C++ code indexes
`tokens_[current_]` unchecked; the lexer guarantees a trailing EOF token so
the cursor never passes the end.  An EOF fallback makes the model total
with the same behaviour on all lexer-produced inputs. -/
def eof_token : Token :=
  { type := .EOF_, lexeme := "", literal := .none,
    span := { start := 0, stop := 0, pos := { line := 1, col := 1 } } }

/-- Parser state: token vector, cursor, accumulated errors. -/
structure PState where
  tokens : List Token
  current : Nat
  errors : List String
  deriving Repr

/-- `Parser::peek`. -/
def PState.peek (s : PState) : Token := s.tokens.getD s.current eof_token

/-- `Parser::previous`. -/
def PState.previous (s : PState) : Token := s.tokens.getD (s.current - 1) eof_token

/-- `Parser::is_at_end`. -/
def PState.is_at_end (s : PState) : Bool := s.peek.type = .EOF_

/-- `Parser::advance` (cursor movement only; call sites read `previous`). -/
def PState.advance (s : PState) : PState :=
  if s.is_at_end then s else { s with current := s.current + 1 }

/-- `Parser::check`. -/
def PState.check (s : PState) (t : TokenType) : Bool :=
  if s.is_at_end then false else s.peek.type = t

/-- `Parser::match`: test for any of the given types and advance on a hit. -/
def PState.match_types (s : PState) (ts : List TokenType) : Bool × PState :=
  if ts.any (fun t => s.check t) then (true, s.advance) else (false, s)

/-- `Parser::add_error`: formatted like lexer errors, appended in order. -/
def PState.add_error (s : PState) (tok : Token) (msg : String) : PState :=
  { s with errors := s.errors ++ [Lexer.format_pos_error tok.span.pos msg] }

/-- `Parser::span_from`: start/pos from the first span, stop from the last. -/
def span_from (a b : Span) : Span :=
  { start := a.start, stop := b.stop, pos := a.pos }

/-- Outcome of a parsing function: a value, a thrown `ParseError`, or fuel
exhaustion (no C++ counterpart). -/
inductive POut (α : Type) where
  | ok (a : α)
  | perr
  | fuelOut
  deriving Repr

/-- Result of a parsing function: final state and outcome. -/
abbrev PRes (α : Type) := PState × POut α

/-- `Parser::consume`: advance past the expected token type or record an
error and throw. -/
def PState.consume (s : PState) (t : TokenType) (msg : String) : PRes Token :=
  if s.check t then (s.advance, .ok s.peek)
  else (s.add_error s.peek msg, .perr)

/-- Operator sets of the six left-associative binary precedence levels,
lowest first: `logic_or`, `logic_and`, `equality`, `comparison`, `term`,
`factor` in parser.cpp. -/
def level_ops : Nat → List TokenType
  | 0 => [.OR_OR]
  | 1 => [.AND_AND]
  | 2 => [.EQUAL_EQUAL, .BANG_EQUAL]
  | 3 => [.GREATER, .GREATER_EQUAL, .LESS, .LESS_EQUAL]
  | 4 => [.PLUS, .MINUS]
  | _ => [.STAR, .SLASH]

/-- `Parser::synchronize`'s scan loop: advance until just past a `;` or at
the start of a declaration/statement keyword.  Every iteration advances
the cursor, so at most `tokens.length` iterations happen; the fuel
argument keeps the recursion structural and is never exhausted when
started at `tokens.length + 1`. -/
def sync_loop : Nat → PState → PState
  | 0, s => s
  | fuel + 1, s =>
    if s.is_at_end then s
    else if s.previous.type = .SEMICOLON then s
    else
      match s.peek.type with
      | .LET | .IF | .WHILE | .BREAK | .CONTINUE | .RETURN | .FN => s
      | _ => sync_loop fuel s.advance

/-- `Parser::synchronize`. -/
def synchronize (s : PState) : PState :=
  sync_loop (s.tokens.length + 1) s.advance

mutual

/-- `Parser::declaration`: dispatch to `fn`/`let`/statement, catching
`ParseError` by resynchronising and yielding no statement. -/
def parse_declaration : Nat → PState → PRes (Option Stmt)
  | 0, s => (s, .fuelOut)
  | fuel + 1, s =>
    let core : PRes Stmt :=
      let m1 := s.match_types [.FN]
      if m1.1 then fn_declaration fuel m1.2
      else
        let m2 := s.match_types [.LET]
        if m2.1 then let_declaration fuel m2.2
        else parse_statement fuel s
    match core with
    | (s1, .ok st) => (s1, .ok (some st))
    | (s1, .perr) => (synchronize s1, .ok none)
    | (s1, .fuelOut) => (s1, .fuelOut)

/-- `Parser::statement`. -/
def parse_statement : Nat → PState → PRes Stmt
  | 0, s => (s, .fuelOut)
  | fuel + 1, s =>
    let m := s.match_types [.IF]
    if m.1 then if_statement fuel m.2
    else
      let m := s.match_types [.WHILE]
      if m.1 then while_statement fuel m.2
      else
        let m := s.match_types [.BREAK]
        if m.1 then break_statement fuel m.2
        else
          let m := s.match_types [.CONTINUE]
          if m.1 then continue_statement fuel m.2
          else
            let m := s.match_types [.RETURN]
            if m.1 then return_statement fuel m.2
            else
              let m := s.match_types [.LEFT_BRACE]
              if m.1 then block_statement fuel m.2.previous m.2
              else expression_statement fuel s

/-- `Parser::let_declaration` (the `let` keyword has been consumed). -/
def let_declaration : Nat → PState → PRes Stmt
  | 0, s => (s, .fuelOut)
  | fuel + 1, s =>
    let let_token := s.previous
    match s.consume .IDENTIFIER "Expect variable name after \x27let\x27." with
    | (s1, .ok name) =>
      match s1.consume .EQUAL "Expect \x27=\x27 after variable name." with
      | (s2, .ok _) =>
        match parse_expression fuel s2 with
        | (s3, .ok initializer) =>
          match s3.consume .SEMICOLON "Expect \x27;\x27 after variable declaration." with
          | (s4, .ok semi) =>
            (s4, .ok (.letStmt { text := name.lexeme, span := name.span } initializer
              (span_from let_token.span semi.span)))
          | (s4, .perr) => (s4, .perr)
          | (s4, .fuelOut) => (s4, .fuelOut)
        | (s3, .perr) => (s3, .perr)
        | (s3, .fuelOut) => (s3, .fuelOut)
      | (s2, .perr) => (s2, .perr)
      | (s2, .fuelOut) => (s2, .fuelOut)
    | (s1, .perr) => (s1, .perr)
    | (s1, .fuelOut) => (s1, .fuelOut)

/-- `Parser::fn_declaration`'s parameter list tail: `while (match(COMMA))`. -/
def params_loop : Nat → PState → List TextInfo → PRes (List TextInfo)
  | 0, s, _ => (s, .fuelOut)
  | fuel + 1, s, acc =>
    let m := s.match_types [.COMMA]
    if m.1 then
      match m.2.consume .IDENTIFIER "Expect parameter name." with
      | (s1, .ok param) =>
        params_loop fuel s1 (acc ++ [{ text := param.lexeme, span := param.span }])
      | (s1, .perr) => (s1, .perr)
      | (s1, .fuelOut) => (s1, .fuelOut)
    else (s, .ok acc)

/-- The statement-collecting loop shared verbatim by
`Parser::fn_declaration` and `Parser::block_statement`:
`while (!check(RIGHT_BRACE) && !is_at_end())` collect declarations,
skipping null results. -/
def stmt_list_loop : Nat → PState → List Stmt → PRes (List Stmt)
  | 0, s, _ => (s, .fuelOut)
  | fuel + 1, s, acc =>
    if !s.check .RIGHT_BRACE && !s.is_at_end then
      match parse_declaration fuel s with
      | (s1, .ok (some st)) => stmt_list_loop fuel s1 (acc ++ [st])
      | (s1, .ok none) => stmt_list_loop fuel s1 acc
      | (s1, .perr) => (s1, .perr)
      | (s1, .fuelOut) => (s1, .fuelOut)
    else (s, .ok acc)

/-- `Parser::fn_declaration` (the `fn` keyword has been consumed). -/
def fn_declaration : Nat → PState → PRes Stmt
  | 0, s => (s, .fuelOut)
  | fuel + 1, s =>
    let fn_token := s.previous
    match s.consume .IDENTIFIER "Expect function name after \x27fn\x27." with
    | (s1, .ok fn_name) =>
      match s1.consume .LEFT_PAREN "Expect \x27(\x27 after function name." with
      | (s2, .ok _) =>
        let first_params : PRes (List TextInfo) :=
          if !s2.check .RIGHT_PAREN then
            match s2.consume .IDENTIFIER "Expect parameter name." with
            | (s3, .ok param) =>
              params_loop fuel s3 [{ text := param.lexeme, span := param.span }]
            | (s3, .perr) => (s3, .perr)
            | (s3, .fuelOut) => (s3, .fuelOut)
          else (s2, .ok [])
        match first_params with
        | (s4, .ok params) =>
          match s4.consume .RIGHT_PAREN "Expect \x27)\x27 after parameters." with
          | (s5, .ok _) =>
            match s5.consume .LEFT_BRACE "Expect \x27\x7b\x27 before function body." with
            | (s6, .ok _) =>
              match stmt_list_loop fuel s6 [] with
              | (s7, .ok body) =>
                match s7.consume .RIGHT_BRACE "Expect \x27\x7d\x27 after function body." with
                | (s8, .ok right_brace) =>
                  (s8, .ok (.fnStmt { text := fn_name.lexeme, span := fn_name.span } params body
                    (span_from fn_token.span right_brace.span)))
                | (s8, .perr) => (s8, .perr)
                | (s8, .fuelOut) => (s8, .fuelOut)
              | (s7, .perr) => (s7, .perr)
              | (s7, .fuelOut) => (s7, .fuelOut)
            | (s6, .perr) => (s6, .perr)
            | (s6, .fuelOut) => (s6, .fuelOut)
          | (s5, .perr) => (s5, .perr)
          | (s5, .fuelOut) => (s5, .fuelOut)
        | (s4, .perr) => (s4, .perr)
        | (s4, .fuelOut) => (s4, .fuelOut)
      | (s2, .perr) => (s2, .perr)
      | (s2, .fuelOut) => (s2, .fuelOut)
    | (s1, .perr) => (s1, .perr)
    | (s1, .fuelOut) => (s1, .fuelOut)

/-- `Parser::if_statement` (the `if` keyword has been consumed). -/
def if_statement : Nat → PState → PRes Stmt
  | 0, s => (s, .fuelOut)
  | fuel + 1, s =>
    let if_token := s.previous
    match s.consume .LEFT_PAREN "Expect \x27(\x27 after \x27if\x27." with
    | (s1, .ok _) =>
      match parse_expression fuel s1 with
      | (s2, .ok condition) =>
        match s2.consume .RIGHT_PAREN "Expect \x27)\x27 after if condition." with
        | (s3, .ok _) =>
          match parse_statement fuel s3 with
          | (s4, .ok then_branch) =>
            let m := s4.match_types [.ELSE]
            if m.1 then
              match parse_statement fuel m.2 with
              | (s5, .ok else_branch) =>
                (s5, .ok (.ifStmt condition then_branch (some else_branch)
                  (span_from if_token.span else_branch.span)))
              | (s5, .perr) => (s5, .perr)
              | (s5, .fuelOut) => (s5, .fuelOut)
            else
              (s4, .ok (.ifStmt condition then_branch none
                (span_from if_token.span then_branch.span)))
          | (s4, .perr) => (s4, .perr)
          | (s4, .fuelOut) => (s4, .fuelOut)
        | (s3, .perr) => (s3, .perr)
        | (s3, .fuelOut) => (s3, .fuelOut)
      | (s2, .perr) => (s2, .perr)
      | (s2, .fuelOut) => (s2, .fuelOut)
    | (s1, .perr) => (s1, .perr)
    | (s1, .fuelOut) => (s1, .fuelOut)

/-- `Parser::while_statement` (the `while` keyword has been consumed). -/
def while_statement : Nat → PState → PRes Stmt
  | 0, s => (s, .fuelOut)
  | fuel + 1, s =>
    let while_token := s.previous
    match s.consume .LEFT_PAREN "Expect \x27(\x27 after \x27while\x27." with
    | (s1, .ok _) =>
      match parse_expression fuel s1 with
      | (s2, .ok condition) =>
        match s2.consume .RIGHT_PAREN "Expect \x27)\x27 after while condition." with
        | (s3, .ok _) =>
          match parse_statement fuel s3 with
          | (s4, .ok body) =>
            (s4, .ok (.whileStmt condition body (span_from while_token.span body.span)))
          | (s4, .perr) => (s4, .perr)
          | (s4, .fuelOut) => (s4, .fuelOut)
        | (s3, .perr) => (s3, .perr)
        | (s3, .fuelOut) => (s3, .fuelOut)
      | (s2, .perr) => (s2, .perr)
      | (s2, .fuelOut) => (s2, .fuelOut)
    | (s1, .perr) => (s1, .perr)
    | (s1, .fuelOut) => (s1, .fuelOut)

/-- `Parser::break_statement` (the `break` keyword has been consumed). -/
def break_statement : Nat → PState → PRes Stmt
  | 0, s => (s, .fuelOut)
  | _ + 1, s =>
    let break_token := s.previous
    match s.consume .SEMICOLON "Expect \x27;\x27 after \x27break\x27." with
    | (s1, .ok semi) => (s1, .ok (.breakStmt (span_from break_token.span semi.span)))
    | (s1, .perr) => (s1, .perr)
    | (s1, .fuelOut) => (s1, .fuelOut)

/-- `Parser::continue_statement` (the `continue` keyword has been consumed). -/
def continue_statement : Nat → PState → PRes Stmt
  | 0, s => (s, .fuelOut)
  | _ + 1, s =>
    let continue_token := s.previous
    match s.consume .SEMICOLON "Expect \x27;\x27 after \x27continue\x27." with
    | (s1, .ok semi) => (s1, .ok (.continueStmt (span_from continue_token.span semi.span)))
    | (s1, .perr) => (s1, .perr)
    | (s1, .fuelOut) => (s1, .fuelOut)

/-- `Parser::return_statement` (the `return` keyword has been consumed).
With a value, `end_span` is the value expression's span, not the
semicolon's. -/
def return_statement : Nat → PState → PRes Stmt
  | 0, s => (s, .fuelOut)
  | fuel + 1, s =>
    let return_token := s.previous
    let value_res : PRes (Option Expr) :=
      if !s.check .SEMICOLON then
        match parse_expression fuel s with
        | (s1, .ok v) => (s1, .ok (some v))
        | (s1, .perr) => (s1, .perr)
        | (s1, .fuelOut) => (s1, .fuelOut)
      else (s, .ok none)
    match value_res with
    | (s2, .ok value) =>
      match s2.consume .SEMICOLON "Expect \x27;\x27 after return value." with
      | (s3, .ok semi) =>
        let end_span := match value with
          | some v => v.span
          | none => semi.span
        (s3, .ok (.returnStmt value (span_from return_token.span end_span)))
      | (s3, .perr) => (s3, .perr)
      | (s3, .fuelOut) => (s3, .fuelOut)
    | (s2, .perr) => (s2, .perr)
    | (s2, .fuelOut) => (s2, .fuelOut)

/-- `Parser::block_statement` (the `\x7b` has been consumed and passed in). -/
def block_statement : Nat → Token → PState → PRes Stmt
  | 0, _, s => (s, .fuelOut)
  | fuel + 1, left_brace, s =>
    match stmt_list_loop fuel s [] with
    | (s1, .ok statements) =>
      match s1.consume .RIGHT_BRACE "Expect \x27\x7d\x27 after block." with
      | (s2, .ok right_brace) =>
        (s2, .ok (.block statements (span_from left_brace.span right_brace.span)))
      | (s2, .perr) => (s2, .perr)
      | (s2, .fuelOut) => (s2, .fuelOut)
    | (s1, .perr) => (s1, .perr)
    | (s1, .fuelOut) => (s1, .fuelOut)

/-- `Parser::expression_statement`. -/
def expression_statement : Nat → PState → PRes Stmt
  | 0, s => (s, .fuelOut)
  | fuel + 1, s =>
    match parse_expression fuel s with
    | (s1, .ok expr) =>
      match s1.consume .SEMICOLON "Expect \x27;\x27 after expression." with
      | (s2, .ok semi) => (s2, .ok (.exprStmt expr (span_from expr.span semi.span)))
      | (s2, .perr) => (s2, .perr)
      | (s2, .fuelOut) => (s2, .fuelOut)
    | (s1, .perr) => (s1, .perr)
    | (s1, .fuelOut) => (s1, .fuelOut)

/-- `Parser::expression`. -/
def parse_expression : Nat → PState → PRes Expr
  | 0, s => (s, .fuelOut)
  | fuel + 1, s => parse_assignment fuel s

/-- `Parser::assignment`: parse the precedence ladder; on `=`, recurse into
`expression` for the right side; a non-identifier target records
"Invalid assignment target." without throwing and keeps the left
expression. -/
def parse_assignment : Nat → PState → PRes Expr
  | 0, s => (s, .fuelOut)
  | fuel + 1, s =>
    match binary_level fuel 0 s with
    | (s1, .ok expr) =>
      let m := s1.match_types [.EQUAL]
      if m.1 then
        let equals := m.2.previous
        match parse_expression fuel m.2 with
        | (s2, .ok value) =>
          match expr with
          | .ident name _ =>
            (s2, .ok (.assign name value (span_from expr.span value.span)))
          | _ => (s2.add_error equals "Invalid assignment target.", .ok expr)
        | (s2, .perr) => (s2, .perr)
        | (s2, .fuelOut) => (s2, .fuelOut)
      else (s1, .ok expr)
    | (s1, .perr) => (s1, .perr)
    | (s1, .fuelOut) => (s1, .fuelOut)

/-- One left-associative binary precedence level (`logic_or` at 0 down to
`factor` at 5; 6 and beyond falls through to `unary`). -/
def binary_level : Nat → Nat → PState → PRes Expr
  | 0, _, s => (s, .fuelOut)
  | fuel + 1, lvl, s =>
    if lvl ≥ 6 then parse_unary fuel s
    else
      match binary_level fuel (lvl + 1) s with
      | (s1, .ok expr) => binary_loop fuel lvl expr s1
      | (s1, .perr) => (s1, .perr)
      | (s1, .fuelOut) => (s1, .fuelOut)

/-- The `while (match(...))` fold of one binary precedence level. -/
def binary_loop : Nat → Nat → Expr → PState → PRes Expr
  | 0, _, _, s => (s, .fuelOut)
  | fuel + 1, lvl, expr, s =>
    let m := s.match_types (level_ops lvl)
    if m.1 then
      let op := m.2.previous
      match binary_level fuel (lvl + 1) m.2 with
      | (s1, .ok right) =>
        binary_loop fuel lvl
          (.binary expr { type := op.type, span := op.span } right
            (span_from expr.span right.span)) s1
      | (s1, .perr) => (s1, .perr)
      | (s1, .fuelOut) => (s1, .fuelOut)
    else (s, .ok expr)

/-- `Parser::unary`. -/
def parse_unary : Nat → PState → PRes Expr
  | 0, s => (s, .fuelOut)
  | fuel + 1, s =>
    let m := s.match_types [.BANG, .MINUS]
    if m.1 then
      let op := m.2.previous
      match parse_unary fuel m.2 with
      | (s1, .ok right) =>
        (s1, .ok (.unary { type := op.type, span := op.span } right
          (span_from op.span right.span)))
      | (s1, .perr) => (s1, .perr)
      | (s1, .fuelOut) => (s1, .fuelOut)
    else parse_call fuel s

/-- `Parser::call`: a primary followed by chained call suffixes. -/
def parse_call : Nat → PState → PRes Expr
  | 0, s => (s, .fuelOut)
  | fuel + 1, s =>
    match parse_primary fuel s with
    | (s1, .ok expr) => call_loop fuel expr s1
    | (s1, .perr) => (s1, .perr)
    | (s1, .fuelOut) => (s1, .fuelOut)

/-- The `while (match(LEFT_PAREN))` chaining loop of `Parser::call`. -/
def call_loop : Nat → Expr → PState → PRes Expr
  | 0, _, s => (s, .fuelOut)
  | fuel + 1, expr, s =>
    let m := s.match_types [.LEFT_PAREN]
    if m.1 then
      match finish_call fuel expr m.2 with
      | (s1, .ok expr2) => call_loop fuel expr2 s1
      | (s1, .perr) => (s1, .perr)
      | (s1, .fuelOut) => (s1, .fuelOut)
    else (s, .ok expr)

/-- The `while (match(COMMA))` argument tail of `Parser::finish_call`. -/
def args_loop : Nat → PState → List Expr → PRes (List Expr)
  | 0, s, _ => (s, .fuelOut)
  | fuel + 1, s, acc =>
    let m := s.match_types [.COMMA]
    if m.1 then
      match parse_expression fuel m.2 with
      | (s1, .ok arg) => args_loop fuel s1 (acc ++ [arg])
      | (s1, .perr) => (s1, .perr)
      | (s1, .fuelOut) => (s1, .fuelOut)
    else (s, .ok acc)

/-- `Parser::finish_call` (the `(` has been consumed; `previous` is it). -/
def finish_call : Nat → Expr → PState → PRes Expr
  | 0, _, s => (s, .fuelOut)
  | fuel + 1, callee, s =>
    let left_paren := s.previous
    let args_res : PRes (List Expr) :=
      if !s.check .RIGHT_PAREN then
        match parse_expression fuel s with
        | (s1, .ok arg) => args_loop fuel s1 [arg]
        | (s1, .perr) => (s1, .perr)
        | (s1, .fuelOut) => (s1, .fuelOut)
      else (s, .ok [])
    match args_res with
    | (s2, .ok arguments) =>
      match s2.consume .RIGHT_PAREN "Expect \x27)\x27 after arguments." with
      | (s3, .ok right_paren) =>
        (s3, .ok (.call callee arguments (span_from left_paren.span right_paren.span)
          (span_from (Expr.span callee) right_paren.span)))
      | (s3, .perr) => (s3, .perr)
      | (s3, .fuelOut) => (s3, .fuelOut)
    | (s2, .perr) => (s2, .perr)
    | (s2, .fuelOut) => (s2, .fuelOut)

/-- `Parser::primary`. -/
def parse_primary : Nat → PState → PRes Expr
  | 0, s => (s, .fuelOut)
  | fuel + 1, s =>
    let m := s.match_types [.NUMBER, .TRUE, .FALSE]
    if m.1 then
      let lit := m.2.previous
      (m.2, .ok (.lit lit.literal lit.span))
    else
      let m := s.match_types [.IDENTIFIER]
      if m.1 then
        let name := m.2.previous
        (m.2, .ok (.ident { text := name.lexeme, span := name.span } name.span))
      else
        let m := s.match_types [.LEFT_PAREN]
        if m.1 then
          let left := m.2.previous
          match parse_expression fuel m.2 with
          | (s1, .ok expr) =>
            match s1.consume .RIGHT_PAREN "Expect \x27)\x27 after expression." with
            | (s2, .ok right) =>
              (s2, .ok (.group expr (span_from left.span right.span)))
            | (s2, .perr) => (s2, .perr)
            | (s2, .fuelOut) => (s2, .fuelOut)
          | (s1, .perr) => (s1, .perr)
          | (s1, .fuelOut) => (s1, .fuelOut)
        else (s.add_error s.peek "Expect expression.", .perr)

end

/-- The `while (!is_at_end())` driver of `Parser::parse`, skipping null
declarations. -/
def parse_loop : Nat → PState → List Stmt → PRes (List Stmt)
  | 0, s, _ => (s, .fuelOut)
  | fuel + 1, s, acc =>
    if s.is_at_end then (s, .ok acc)
    else
      match parse_declaration fuel s with
      | (s1, .ok (some st)) => parse_loop fuel s1 (acc ++ [st])
      | (s1, .ok none) => parse_loop fuel s1 acc
      | (s1, .perr) => (s1, .perr)
      | (s1, .fuelOut) => (s1, .fuelOut)

/-- `Parser::parse` plus `Parser::errors`: run the driver on a fresh state. -/
def parse (fuel : Nat) (tokens : List Token) : List Stmt × List String :=
  match parse_loop fuel { tokens := tokens, current := 0, errors := [] } [] with
  | (s, .ok stmts) => (stmts, s.errors)
  | (s, _) => ([], s.errors)

end Parsing

/-! ## Runtime values, environments (environment.hpp/.cpp), builtins
(builtins.hpp/.cpp)

C++ `Value` is a variant of monostate / int / bool /
`shared_ptr<Function>` / `shared_ptr<BuiltinFunction>`.  The two pointer
cases compare by identity, so they are modelled as indices: `fn id` is an
index into the interpreter's list of allocated `Function` objects (each
`FnStmt` execution allocates a fresh one), and `builtin` carries the
identity of the sole registered builtin, `print`.  The shared-pointer
graph of environments is a list of frames indexed by allocation order;
an enclosing frame is always allocated before its children, so walks
toward `enclosing` strictly decrease the index. -/

/-- Identity of a registered builtin; builtins.cpp registers exactly one,
the variadic `print`. -/
inductive BuiltinId where
  | print
  deriving Repr, DecidableEq

/-- Runtime value (environment.hpp `Value`). -/
inductive Value where
  | nil
  | int (i : Int)
  | bool (b : Bool)
  | fn (id : Nat)
  | builtin (b : BuiltinId)
  deriving Repr, DecidableEq

/-- One lexical scope (environment.hpp `Environment`): name-to-value map
plus optional enclosing frame index. -/
structure EnvFrame where
  values : List (String × Value)
  enclosing : Option Nat
  deriving Repr

/-- An allocated `Function` object (environment.hpp `Function`): the
`FnStmt` declaration data plus the captured closure frame index. -/
structure FunctionData where
  name : TextInfo
  params : List TextInfo
  body : List Stmt
  closure : Nat
  deriving Repr

/-- `unordered_map::find` on the association list. -/
def lookup_values (vals : List (String × Value)) (name : String) : Option Value :=
  match vals with
  | [] => none
  | (k, v) :: rest => if k = name then some v else lookup_values rest name

/-- In-place update of an existing key (`it->second = value`). -/
def set_value (vals : List (String × Value)) (name : String) (v : Value) :
    List (String × Value) :=
  match vals with
  | [] => []
  | (k, w) :: rest => if k = name then (k, v) :: rest else (k, w) :: set_value rest name v

/-- `Environment::has_local`. -/
def EnvFrame.has_local (f : EnvFrame) (name : String) : Bool :=
  (lookup_values f.values name).isSome

/-- `Environment::define`: `none` means "already bound in this scope"
(C++ returns `false` and leaves the map untouched). -/
def EnvFrame.define (f : EnvFrame) (name : String) (v : Value) : Option EnvFrame :=
  if f.has_local name then none
  else some { f with values := f.values ++ [(name, v)] }

/-- `Environment::get`: search this frame, then the enclosing chain.  The
`p < i` guard is the allocation-order invariant (an enclosing frame always
has a smaller index), so the chain from frame `i` visits at most `i + 1`
frames; the fuel argument makes the recursion structural and is never
exhausted when started at `i + 1`. -/
def env_get_aux : Nat → List EnvFrame → Nat → String → Option Value
  | 0, _, _, _ => none
  | fuel + 1, envs, i, name =>
    match envs[i]? with
    | none => none
    | some f =>
      match lookup_values f.values name with
      | some v => some v
      | none =>
        match f.enclosing with
        | some p => if p < i then env_get_aux fuel envs p name else none
        | none => none

/-- `Environment::get` from frame `i`. -/
def env_get (envs : List EnvFrame) (i : Nat) (name : String) : Option Value :=
  env_get_aux (i + 1) envs i name

/-- `Environment::assign`: update in the nearest frame that binds the
name, searching outward; `none` if unbound everywhere.  Fuel as in
`env_get_aux`. -/
def env_assign_aux : Nat → List EnvFrame → Nat → String → Value → Option (List EnvFrame)
  | 0, _, _, _, _ => none
  | fuel + 1, envs, i, name, v =>
    match envs[i]? with
    | none => none
    | some f =>
      if f.has_local name then
        some (envs.set i { f with values := set_value f.values name v })
      else
        match f.enclosing with
        | some p => if p < i then env_assign_aux fuel envs p name v else none
        | none => none

/-- `Environment::assign` from frame `i`. -/
def env_assign (envs : List EnvFrame) (i : Nat) (name : String) (v : Value) :
    Option (List EnvFrame) :=
  env_assign_aux (i + 1) envs i name v

/-! ## Interpreter (interpreter.cpp) -/

/-- The interpreter's mutable state: collected errors, the environment
heap, the current/global frame indices, the loop- and function-nesting
counters, the allocated `Function` objects, and the text printed so far
(`std::cout`). -/
structure Interp where
  errors : List String
  envs : List EnvFrame
  globalsId : Nat
  envId : Nat
  loopDepth : Nat
  fnDepth : Nat
  fns : List FunctionData
  out : String
  deriving Repr

/-- Unwind signals: `BreakSignal`, `ContinueSignal`, `ReturnSignal`, and
the `RuntimeError` exception. -/
inductive Signal where
  | brk
  | cont
  | ret (value : Value)
  | rterr (span : Span) (msg : String)
  deriving Repr, DecidableEq

/-- Outcome of executing/evaluating: a value, a propagating signal, or
fuel exhaustion (no C++ counterpart; the C++ recursion is unbounded). -/
inductive EOut (α : Type) where
  | ok (a : α)
  | sig (s : Signal)
  | timeout
  deriving Repr

/-- `Interpreter::value_from_literal`. -/
def value_from_literal : Literal → Value
  | .none => .nil
  | .int i => .int i
  | .bool b => .bool b

/-- `Interpreter::value_type_name`. -/
def value_type_name : Value → String
  | .nil => "nil"
  | .int _ => "number"
  | .bool _ => "boolean"
  | .fn _ => "function"
  | .builtin _ => "builtin"

/-- `value_to_string` (util/value_format.hpp). -/
def value_to_string : Value → String
  | .nil => "nil"
  | .int i => toString i
  | .bool b => if b then "true" else "false"
  | .fn _ => "function"
  | .builtin _ => "builtin"

/-- `Interpreter::values_equal`: different kinds are unequal; ints/bools
by value; functions/builtins by identity. -/
def values_equal : Value → Value → Bool
  | .nil, .nil => true
  | .int a, .int b => a = b
  | .bool a, .bool b => a = b
  | .fn a, .fn b => a = b
  | .builtin a, .builtin b => a = b
  | _, _ => false

/-- `Interpreter::expect_bool`: the boolean payload or a type-mismatch
`RuntimeError`. -/
def expect_bool (v : Value) (span : Span) (context : String) : Except Signal Bool :=
  match v with
  | .bool b => .ok b
  | _ => .error (.rterr span
      ("Expected boolean in " ++ context ++ ", got " ++ value_type_name v ++ "."))

/-- `Interpreter::expect_number`. -/
def expect_number (v : Value) (span : Span) (context : String) : Except Signal Int :=
  match v with
  | .int i => .ok i
  | _ => .error (.rterr span
      ("Expected number in " ++ context ++ ", got " ++ value_type_name v ++ "."))

/-- `Interpreter::format_error`. -/
def format_error (span : Span) (msg : String) : String :=
  "Line " ++ toString span.pos.line ++ ", col " ++ toString span.pos.col ++ ": " ++ msg

/-- The non-short-circuit arm of binary evaluation: the `switch` over the
operator after both operands are evaluated.  In the `SLASH` case the C++
first type-checks the *right* operand, then tests it for zero, and only
then type-checks the left operand; `int` division truncates toward zero
(`Int.tdiv`). -/
def apply_binary (left : Value) (op : Op) (right : Value) : Except Signal Value :=
  match op.type with
  | .PLUS =>
    match expect_number left op.span "addition" with
    | .error x => .error x
    | .ok a =>
      match expect_number right op.span "addition" with
      | .error x => .error x
      | .ok b => .ok (.int (a + b))
  | .MINUS =>
    match expect_number left op.span "subtraction" with
    | .error x => .error x
    | .ok a =>
      match expect_number right op.span "subtraction" with
      | .error x => .error x
      | .ok b => .ok (.int (a - b))
  | .STAR =>
    match expect_number left op.span "multiplication" with
    | .error x => .error x
    | .ok a =>
      match expect_number right op.span "multiplication" with
      | .error x => .error x
      | .ok b => .ok (.int (a * b))
  | .SLASH =>
    match expect_number right op.span "division" with
    | .error x => .error x
    | .ok denominator =>
      if denominator = 0 then .error (.rterr op.span "Division by zero.")
      else
        match expect_number left op.span "division" with
        | .error x => .error x
        | .ok numerator => .ok (.int (numerator.tdiv denominator))
  | .GREATER =>
    match expect_number left op.span "comparison" with
    | .error x => .error x
    | .ok a =>
      match expect_number right op.span "comparison" with
      | .error x => .error x
      | .ok b => .ok (.bool (a > b))
  | .GREATER_EQUAL =>
    match expect_number left op.span "comparison" with
    | .error x => .error x
    | .ok a =>
      match expect_number right op.span "comparison" with
      | .error x => .error x
      | .ok b => .ok (.bool (a ≥ b))
  | .LESS =>
    match expect_number left op.span "comparison" with
    | .error x => .error x
    | .ok a =>
      match expect_number right op.span "comparison" with
      | .error x => .error x
      | .ok b => .ok (.bool (a < b))
  | .LESS_EQUAL =>
    match expect_number left op.span "comparison" with
    | .error x => .error x
    | .ok a =>
      match expect_number right op.span "comparison" with
      | .error x => .error x
      | .ok b => .ok (.bool (a ≤ b))
  | .EQUAL_EQUAL => .ok (.bool (values_equal left right))
  | .BANG_EQUAL => .ok (.bool (!values_equal left right))
  | _ => .error (.rterr op.span "Unsupported binary operator.")

/-- Allocate a fresh environment frame; returns its index. -/
def new_env (st : Interp) (enclosing : Option Nat) : Interp × Nat :=
  ({ st with envs := st.envs ++ [{ values := [], enclosing := enclosing }] },
   st.envs.length)

/-- `environment_->define(...)` on a given frame of the heap. -/
def define_in_env (st : Interp) (envid : Nat) (name : String) (v : Value) :
    Option Interp :=
  match st.envs[envid]? with
  | none => none
  | some f =>
    match f.define name v with
    | some f2 => some { st with envs := st.envs.set envid f2 }
    | none => none

/-- `environment_->define(...)` on the current frame. -/
def define_in (st : Interp) (name : String) (v : Value) : Option Interp :=
  define_in_env st st.envId name v

/-- The `print` implementation (builtins.cpp `make_print_builtin`):
arguments rendered space-separated, a newline, result nil. -/
def builtin_call (b : BuiltinId) (args : List Value) (out : String) :
    Value × String :=
  match b with
  | .print => (.nil, out ++ String.intercalate " " (args.map value_to_string) ++ "\n")

/-- Parameter binding loop of `Interpreter::evaluate_call`: `define` each
parameter in the fresh call environment; a repeated name is a
"Duplicate parameter name" error. -/
def bind_params (st : Interp) (envid : Nat) :
    List TextInfo → List Value → Except Signal Interp
  | [], _ => .ok st
  | p :: ps, v :: vs =>
    match define_in_env st envid p.text v with
    | some st2 => bind_params st2 envid ps vs
    | none => .error (.rterr p.span ("Duplicate parameter name \x27" ++ p.text ++ "\x27."))
  | _ :: _, [] => .ok st

mutual

/-- `Interpreter::execute`. -/
def execute : Nat → Interp → Stmt → Interp × EOut Unit
  | 0, st, _ => (st, .timeout)
  | fuel + 1, st, stmt =>
    match stmt with
    | .exprStmt e _ =>
      match evaluate fuel st e with
      | (st1, .ok _) => (st1, .ok ())
      | (st1, .sig x) => (st1, .sig x)
      | (st1, .timeout) => (st1, .timeout)
    | .letStmt name init _ =>
      match evaluate fuel st init with
      | (st1, .ok v) =>
        match define_in st1 name.text v with
        | some st2 => (st2, .ok ())
        | none => (st1, .sig (.rterr name.span
            ("Variable already declared in this scope: \x27" ++ name.text ++ "\x27.")))
      | (st1, .sig x) => (st1, .sig x)
      | (st1, .timeout) => (st1, .timeout)
    | .block stmts _ =>
      let alloc := new_env st (some st.envId)
      execute_block fuel alloc.1 stmts alloc.2
    | .ifStmt cond then_branch else_branch _ =>
      match evaluate fuel st cond with
      | (st1, .ok v) =>
        match expect_bool v cond.span "if condition" with
        | .error x => (st1, .sig x)
        | .ok b =>
          if b then execute fuel st1 then_branch
          else
            match else_branch with
            | some e => execute fuel st1 e
            | none => (st1, .ok ())
      | (st1, .sig x) => (st1, .sig x)
      | (st1, .timeout) => (st1, .timeout)
    | .whileStmt cond body _ =>
      -- `++loop_depth_`, run the loop, `--loop_depth_` on every exit path
      let r := while_loop fuel { st with loopDepth := st.loopDepth + 1 } cond body
      ({ r.1 with loopDepth := r.1.loopDepth - 1 }, r.2)
    | .breakStmt sp =>
      if st.loopDepth = 0 then (st, .sig (.rterr sp "Break used outside of a loop."))
      else (st, .sig .brk)
    | .continueStmt sp =>
      if st.loopDepth = 0 then (st, .sig (.rterr sp "Continue used outside of a loop."))
      else (st, .sig .cont)
    | .returnStmt value sp =>
      if st.fnDepth = 0 then (st, .sig (.rterr sp "Return used outside of a function."))
      else
        match value with
        | some e =>
          match evaluate fuel st e with
          | (st1, .ok v) => (st1, .sig (.ret v))
          | (st1, .sig x) => (st1, .sig x)
          | (st1, .timeout) => (st1, .timeout)
        | none => (st, .sig (.ret .nil))
    | .fnStmt name params body _ =>
      let fnId := st.fns.length
      let st1 := { st with
        fns := st.fns ++ [{ name := name, params := params, body := body,
                            closure := st.envId }] }
      match define_in st1 name.text (.fn fnId) with
      | some st2 => (st2, .ok ())
      | none => (st1, .sig (.rterr name.span
          ("Function already declared in this scope: \x27" ++ name.text ++ "\x27.")))

/-- The `while (expect_bool(...))` loop of the `WhileStmt` case, with the
inner try/catch for `ContinueSignal`/`BreakSignal`. -/
def while_loop : Nat → Interp → Expr → Stmt → Interp × EOut Unit
  | 0, st, _, _ => (st, .timeout)
  | fuel + 1, st, cond, body =>
    match evaluate fuel st cond with
    | (st1, .ok v) =>
      match expect_bool v cond.span "while condition" with
      | .error x => (st1, .sig x)
      | .ok false => (st1, .ok ())
      | .ok true =>
        match execute fuel st1 body with
        | (st2, .ok _) => while_loop fuel st2 cond body
        | (st2, .sig .cont) => while_loop fuel st2 cond body
        | (st2, .sig .brk) => (st2, .ok ())
        | (st2, .sig x) => (st2, .sig x)
        | (st2, .timeout) => (st2, .timeout)
    | (st1, .sig x) => (st1, .sig x)
    | (st1, .timeout) => (st1, .timeout)

/-- The statement sequence loop shared by `Interpreter::interpret` and
`Interpreter::execute_block`: execute in order, stopping at the first
signal. -/
def exec_stmts : Nat → Interp → List Stmt → Interp × EOut Unit
  | 0, st, _ => (st, .timeout)
  | _ + 1, st, [] => (st, .ok ())
  | fuel + 1, st, stmt :: rest =>
    match execute fuel st stmt with
    | (st1, .ok _) => exec_stmts fuel st1 rest
    | (st1, .sig x) => (st1, .sig x)
    | (st1, .timeout) => (st1, .timeout)

/-- `Interpreter::execute_block`: swap in the new environment, run the
statements, and restore the previous environment on *every* exit path
(the C++ restores both after the `try` and in the catch-all handler). -/
def execute_block : Nat → Interp → List Stmt → Nat → Interp × EOut Unit
  | 0, st, _, _ => (st, .timeout)
  | fuel + 1, st, stmts, envid =>
    let previous := st.envId
    let r := exec_stmts fuel { st with envId := envid } stmts
    ({ r.1 with envId := previous }, r.2)

/-- `Interpreter::evaluate`. -/
def evaluate : Nat → Interp → Expr → Interp × EOut Value
  | 0, st, _ => (st, .timeout)
  | fuel + 1, st, expr =>
    match expr with
    | .lit v _ => (st, .ok (value_from_literal v))
    | .ident name _ =>
      match env_get st.envs st.envId name.text with
      | some v => (st, .ok v)
      | none => (st, .sig (.rterr name.span
          ("Undefined identifier \x27" ++ name.text ++ "\x27.")))
    | .group inner _ => evaluate fuel st inner
    | .unary op right _ =>
      match evaluate fuel st right with
      | (st1, .ok v) =>
        match op.type with
        | .MINUS =>
          match expect_number v op.span "unary minus" with
          | .ok n => (st1, .ok (.int (-n)))
          | .error x => (st1, .sig x)
        | .BANG =>
          match expect_bool v op.span "logical not" with
          | .ok b => (st1, .ok (.bool (!b)))
          | .error x => (st1, .sig x)
        | _ => (st1, .sig (.rterr op.span "Unsupported unary operator."))
      | (st1, .sig x) => (st1, .sig x)
      | (st1, .timeout) => (st1, .timeout)
    | .binary l op r _ =>
      if op.type = .AND_AND then
        match evaluate fuel st l with
        | (st1, .ok lv) =>
          match expect_bool lv l.span "logical and" with
          | .error x => (st1, .sig x)
          | .ok false => (st1, .ok (.bool false))
          | .ok true =>
            match evaluate fuel st1 r with
            | (st2, .ok rv) =>
              match expect_bool rv r.span "logical and" with
              | .ok b => (st2, .ok (.bool b))
              | .error x => (st2, .sig x)
            | (st2, .sig x) => (st2, .sig x)
            | (st2, .timeout) => (st2, .timeout)
        | (st1, .sig x) => (st1, .sig x)
        | (st1, .timeout) => (st1, .timeout)
      else if op.type = .OR_OR then
        match evaluate fuel st l with
        | (st1, .ok lv) =>
          match expect_bool lv l.span "logical or" with
          | .error x => (st1, .sig x)
          | .ok true => (st1, .ok (.bool true))
          | .ok false =>
            match evaluate fuel st1 r with
            | (st2, .ok rv) =>
              match expect_bool rv r.span "logical or" with
              | .ok b => (st2, .ok (.bool b))
              | .error x => (st2, .sig x)
            | (st2, .sig x) => (st2, .sig x)
            | (st2, .timeout) => (st2, .timeout)
        | (st1, .sig x) => (st1, .sig x)
        | (st1, .timeout) => (st1, .timeout)
      else
        match evaluate fuel st l with
        | (st1, .ok lv) =>
          match evaluate fuel st1 r with
          | (st2, .ok rv) =>
            match apply_binary lv op rv with
            | .ok v => (st2, .ok v)
            | .error x => (st2, .sig x)
          | (st2, .sig x) => (st2, .sig x)
          | (st2, .timeout) => (st2, .timeout)
        | (st1, .sig x) => (st1, .sig x)
        | (st1, .timeout) => (st1, .timeout)
    | .assign name value _ =>
      match evaluate fuel st value with
      | (st1, .ok v) =>
        match env_assign st1.envs st1.envId name.text v with
        | some envs2 => ({ st1 with envs := envs2 }, .ok v)
        | none => (st1, .sig (.rterr name.span
            ("Undefined variable \x27" ++ name.text ++ "\x27.")))
      | (st1, .sig x) => (st1, .sig x)
      | (st1, .timeout) => (st1, .timeout)
    | .call callee args paren_span sp => evaluate_call fuel st callee args paren_span sp

/-- Argument evaluation loop of `Interpreter::evaluate_call`: strictly
left to right. -/
def eval_args : Nat → Interp → List Expr → Interp × EOut (List Value)
  | 0, st, _ => (st, .timeout)
  | _ + 1, st, [] => (st, .ok [])
  | fuel + 1, st, e :: rest =>
    match evaluate fuel st e with
    | (st1, .ok v) =>
      match eval_args fuel st1 rest with
      | (st2, .ok vs) => (st2, .ok (v :: vs))
      | (st2, .sig x) => (st2, .sig x)
      | (st2, .timeout) => (st2, .timeout)
    | (st1, .sig x) => (st1, .sig x)
    | (st1, .timeout) => (st1, .timeout)

/-- `Interpreter::evaluate_call` on a `CallExpr`'s components:
builtin dispatch (the sole builtin `print` is variadic, so no arity
check), then user functions (arity check at the parenthesis span *before*
argument evaluation, parameter binding in a fresh environment chained to
the function's captured closure, `++function_depth_`, body execution,
`--function_depth_` on every exit path; a caught `ReturnSignal` yields the
call's value, falling off the end yields nil). -/
def evaluate_call : Nat → Interp → Expr → List Expr → Span → Span → Interp × EOut Value
  | 0, st, _, _, _, _ => (st, .timeout)
  | fuel + 1, st, callee, args, paren_span, span =>
    match evaluate fuel st callee with
    | (st1, .ok calleeV) =>
      match calleeV with
      | .builtin b =>
        match eval_args fuel st1 args with
        | (st2, .ok argVals) =>
          let r := builtin_call b argVals st2.out
          ({ st2 with out := r.2 }, .ok r.1)
        | (st2, .sig x) => (st2, .sig x)
        | (st2, .timeout) => (st2, .timeout)
      | .fn fnId =>
        match st1.fns[fnId]? with
        | none => (st1, .sig (.rterr span "Attempted to call an invalid function."))
        | some fd =>
          if args.length ≠ fd.params.length then
            (st1, .sig (.rterr paren_span
              ("Expected " ++ toString fd.params.length ++ " arguments but got " ++
               toString args.length ++ ".")))
          else
            match eval_args fuel st1 args with
            | (st2, .ok argVals) =>
              let alloc := new_env st2 (some fd.closure)
              match bind_params alloc.1 alloc.2 fd.params argVals with
              | .error x => (alloc.1, .sig x)
              | .ok st3 =>
                let r := execute_block fuel { st3 with fnDepth := st3.fnDepth + 1 }
                  fd.body alloc.2
                match r.2 with
                | .sig (.ret v) => ({ r.1 with fnDepth := r.1.fnDepth - 1 }, .ok v)
                | .ok _ => ({ r.1 with fnDepth := r.1.fnDepth - 1 }, .ok .nil)
                | .sig x => ({ r.1 with fnDepth := r.1.fnDepth - 1 }, .sig x)
                | .timeout => ({ r.1 with fnDepth := r.1.fnDepth - 1 }, .timeout)
            | (st2, .sig x) => (st2, .sig x)
            | (st2, .timeout) => (st2, .timeout)
      | _ => (st1, .sig (.rterr span "Can only call functions or builtins."))
    | (st1, .sig x) => (st1, .sig x)
    | (st1, .timeout) => (st1, .timeout)

end

/-- `Interpreter::Interpreter()`: a fresh global scope (frame 0) with the
builtins registered (`print`), current environment = globals. -/
def initial_interp : Interp :=
  { errors := [], envs := [{ values := [("print", .builtin .print)], enclosing := none }],
    globalsId := 0, envId := 0, loopDepth := 0, fnDepth := 0, fns := [], out := "" }

/-- `Interpreter::interpret`: clear the error list, execute the top-level
statements in order, and on the first `RuntimeError` record exactly one
formatted message.  (Break/continue/return signals reaching this level
would escape the C++ `catch (const RuntimeError &)` entirely; the outcome
is returned so theorems can distinguish the cases.) -/
def interpret (fuel : Nat) (st : Interp) (statements : List Stmt) :
    Interp × EOut Unit :=
  let st0 := { st with errors := [] }
  let r := exec_stmts fuel st0 statements
  match r.2 with
  | .sig (.rterr sp msg) =>
    ({ r.1 with errors := r.1.errors ++ [format_error sp msg] }, r.2)
  | _ => r

/-- The whole pipeline on one source string, as the external contract in
the spec composes the stages: lex, parse, interpret in a fresh
interpreter.  Returns (lexical errors, syntax errors, runtime errors,
printed output). -/
def run_program (fuel : Nat) (source : String) :
    List String × List String × List String × String :=
  let lexed := Lexer.scan_tokens source.data
  let parsed := Parsing.parse fuel lexed.1
  let r := interpret fuel initial_interp parsed.1
  (lexed.2, parsed.2, (r.1).errors, (r.1).out)

/-- Concrete source used to instantiate the lexer coverage theorem. -/
def c10_source : List Char := "let x = 1; // hi\nx = x + 2;".data

/-- The pieces of interpreter state that statement execution and
expression evaluation never change in net effect: current environment id,
loop-nesting counter, function-nesting counter, and the collected error
list (only `interpret` itself appends to `errors_`).  `Ctr a b` says they
agree between states `a` and `b`. -/
def Ctr (a b : Interp) : Prop :=
  a.envId = b.envId ∧ a.loopDepth = b.loopDepth ∧ a.fnDepth = b.fnDepth ∧
    a.errors = b.errors

/-! ## Specification helpers for the lexer coverage property (C10) -/

/-- The byte slice `[a, b)` of the source. -/
def slice (src : List Char) (a b : Nat) : List Char := (src.drop a).take (b - a)

/-- Decides whether a byte string consists solely of whitespace and `//`
line comments (a comment runs to the next newline or the end).  The flag
is true while inside a comment. -/
def is_discard_mode : Bool → List Char → Bool
  | _, [] => true
  | true, c :: rest =>
    if c = '\n' then is_discard_mode false rest else is_discard_mode true rest
  | false, c :: rest =>
    if Lexer.is_ws c then is_discard_mode false rest
    else if c = '/' then
      match rest with
      | d :: rest2 => if d = '/' then is_discard_mode true rest2 else false
      | [] => false
    else false

/-- A byte string made only of discarded whitespace and comments. -/
def is_discard (l : List Char) : Bool := is_discard_mode false l

/-- Interleave the gap slices and the token lexemes from position `pos`
onward: the reconstruction the claim says equals the original source. -/
def rebuild (src : List Char) : Nat → List Token → List Char
  | pos, [] => src.drop pos
  | pos, t :: ts => slice src pos t.span.start ++ t.lexeme.data ++ rebuild src t.span.stop ts

/-- The token list tiles the source from `pos` on: spans are in increasing
order and disjoint, each within bounds with `start ≤ stop`, each lexeme is
exactly its span's slice, and every uncovered gap (including the trailing
one) is discarded whitespace/comments. -/
def spans_ok (src : List Char) : Nat → List Token → Bool
  | pos, [] => is_discard (src.drop pos)
  | pos, t :: ts =>
    decide (pos ≤ t.span.start) && decide (t.span.start ≤ t.span.stop) &&
    decide (t.span.stop ≤ src.length) &&
    is_discard (slice src pos t.span.start) &&
    decide (t.lexeme.data = slice src t.span.start t.span.stop) &&
    spans_ok src t.span.stop ts

/-- The shape of one discarded `scan_token` step starting at `off` and
ending at `off2`: a single whitespace byte, or a `//` comment whose body
has no newline and which stops at a newline or at the end of the source. -/
def DiscardChunk (src : List Char) (off off2 : Nat) : Prop :=
  (∃ c, slice src off off2 = [c] ∧ Lexer.is_ws c = true) ∨
  (∃ t, slice src off off2 = '/' :: '/' :: t ∧ (∀ x ∈ t, x ≠ '\n') ∧
    (src.drop off2 = [] ∨ (src.drop off2).head? = some '\n'))

/-! ## Specification helpers for the parser span property (C9) -/

namespace Parsing

/-- Token at index `i` (the C++ `tokens_[i]`, with the EOF fallback). -/
def tok_at (s : PState) (i : Nat) : Token := s.tokens.getD i eof_token

/-- Statements whose span construction ends at a return value rather than
at the last consumed token: a value-carrying `return`, or an `if`/`while`
whose trailing branch is such a statement. -/
def ends_in_return_value : Stmt → Bool
  | .returnStmt (some _) _ => true
  | .ifStmt _ t none _ => ends_in_return_value t
  | .ifStmt _ _ (some e) _ => ends_in_return_value e
  | .whileStmt _ b _ => ends_in_return_value b
  | _ => false

/-- Parsing only appends to the error list. -/
def ErrExt (s s' : PState) : Prop := ∃ l, s'.errors = s.errors ++ l

/-- The span starts exactly at token `t`: same start offset and position. -/
def StartsTok (sp : Span) (t : Token) : Prop :=
  sp.start = t.span.start ∧ sp.pos = t.span.pos

/-- Where a parsed statement's span stops, relative to the exit state: at
the last consumed token's end, except when the statement ends in a
value-carrying `return`, where it stops at the end of the token before the
final `;` (the value's last token) while the last consumed token is that
`;`, which the span excludes. -/
def StmtStops (st : Stmt) (s' : PState) : Prop :=
  if ends_in_return_value st then
    st.span.stop = (tok_at s' (s'.current - 2)).span.stop ∧
      s'.previous.type = .SEMICOLON
  else st.span.stop = s'.previous.span.stop

/-- Span contract of a statement parser entered with first token `kw`:
errors only accumulate, the produced statement starts at `kw`, and — when
the parse recorded no error — it stops as `StmtStops` describes. -/
def StmtProp (kw : Token) (s : PState) (r : PRes Stmt) : Prop :=
  ErrExt s r.1 ∧ ∀ st, r.2 = .ok st →
    StartsTok st.span kw ∧ (r.1.errors = s.errors → StmtStops st r.1)

/-- Span contract of `declaration` (which may swallow an erroring
statement and yield nothing). -/
def DeclProp (s : PState) (r : PRes (Option Stmt)) : Prop :=
  ErrExt s r.1 ∧ ∀ st, r.2 = .ok (some st) →
    StartsTok st.span s.peek ∧ (r.1.errors = s.errors → StmtStops st r.1)

/-- Span contract of an expression parser: the result starts at the token
under the cursor at entry and, when no error was recorded, stops at the
last consumed token. -/
def ExprProp (s : PState) (r : PRes Expr) : Prop :=
  ErrExt s r.1 ∧ ∀ e, r.2 = .ok e →
    StartsTok e.span s.peek ∧
      (r.1.errors = s.errors → e.span.stop = r.1.previous.span.stop)

/-- Span contract of the binary/call folds: they extend `expr` on the
right, keeping its start, and end at the last consumed token given that
`expr` itself ended at the last token consumed before entry. -/
def GrowProp (expr : Expr) (s : PState) (r : PRes Expr) : Prop :=
  ErrExt s r.1 ∧ ∀ e, r.2 = .ok e →
    (e.span.start = expr.span.start ∧ e.span.pos = expr.span.pos) ∧
      (r.1.errors = s.errors → expr.span.stop = s.previous.span.stop →
        e.span.stop = r.1.previous.span.stop)

/-- Span contract of `finish_call`: the call expression starts where the
callee starts and stops at the consumed `)`. -/
def CallProp (callee : Expr) (s : PState) (r : PRes Expr) : Prop :=
  ErrExt s r.1 ∧ ∀ e, r.2 = .ok e →
    (e.span.start = callee.span.start ∧ e.span.pos = callee.span.pos) ∧
      (r.1.errors = s.errors → e.span.stop = r.1.previous.span.stop)

end Parsing

/-- Token stream of the source `return 5;`. -/
def c9_tokens : List Token := (Lexer.scan_tokens "return 5;".data).1

/-- Parser state just after `statement` consumed the `return` keyword. -/
def c9_state : Parsing.PState := { tokens := c9_tokens, current := 1, errors := [] }

/-- The statement `return_statement` produces from that state. -/
def c9_stmt : Stmt :=
  match (Parsing.return_statement 20 c9_state).2 with
  | .ok st => st
  | _ => .breakStmt { start := 0, stop := 0, pos := { line := 1, col := 1 } }

/-! ## Theorems about the claims -/

theorem ctr_rfl (a : Interp) : Ctr a a := ⟨rfl, rfl, rfl, rfl⟩

theorem ctr_trans {a b c : Interp} (h1 : Ctr a b) (h2 : Ctr b c) : Ctr a c := by
  obtain ⟨x1, x2, x3, x4⟩ := h1
  obtain ⟨y1, y2, y3, y4⟩ := h2
  exact ⟨x1.trans y1, x2.trans y2, x3.trans y3, x4.trans y4⟩

theorem ctr_eq {α : Type} {f : Interp × EOut α} {st b : Interp} {o : EOut α}
    (hC : Ctr f.1 st) (he : f = (b, o)) : Ctr b st := by
  rw [he] at hC
  exact hC

theorem define_in_env_ctr {st : Interp} {i : Nat} {n : String} {v : Value}
    {st2 : Interp} (h : define_in_env st i n v = some st2) : Ctr st2 st := by
  unfold define_in_env at h
  cases henv : st.envs[i]? with
  | none => rw [henv] at h; simp at h
  | some f =>
    rw [henv] at h
    dsimp only at h
    cases hd : f.define n v with
    | none => rw [hd] at h; simp at h
    | some f2 =>
      rw [hd] at h
      injection h with h
      subst h
      exact ⟨rfl, rfl, rfl, rfl⟩

theorem define_in_ctr {st : Interp} {n : String} {v : Value} {st2 : Interp}
    (h : define_in st n v = some st2) : Ctr st2 st :=
  define_in_env_ctr h

theorem new_env_ctr (st : Interp) (e : Option Nat) : Ctr (new_env st e).1 st :=
  ⟨rfl, rfl, rfl, rfl⟩

theorem bind_params_ctr :
    ∀ (ps : List TextInfo) (vs : List Value) (st : Interp) (i : Nat) (st2 : Interp),
      bind_params st i ps vs = .ok st2 → Ctr st2 st := by
  intro ps
  induction ps with
  | nil =>
    intro vs st i st2 h
    simp only [bind_params] at h
    injection h with h
    subst h
    exact ctr_rfl _
  | cons p ps ih =>
    intro vs st i st2 h
    cases vs with
    | nil =>
      simp only [bind_params] at h
      injection h with h
      subst h
      exact ctr_rfl _
    | cons v vs =>
      simp only [bind_params] at h
      cases hd : define_in_env st i p.text v with
      | none => rw [hd] at h; simp at h
      | some st1 =>
        rw [hd] at h
        exact ctr_trans (ih vs st1 i st2 h) (define_in_env_ctr hd)


theorem length_takeWhile_le (p : Char → Bool) (l : List Char) :
    (l.takeWhile p).length ≤ l.length := by
  induction l with
  | nil => simp [List.takeWhile]
  | cons c cs ih =>
    by_cases h : p c
    · simp [List.takeWhile, h]
      omega
    · simp [List.takeWhile, h]

theorem head_some_length {rest : List Char} {ch : Char} (h : rest.head? = some ch) :
    1 ≤ rest.length := by
  cases rest <;> simp_all

theorem scan_step_extra_le (c : Char) (rest : List Char) (off : Nat) (pos : SourcePos) :
    (Lexer.scan_step c rest off pos).2.length ≤ rest.length := by
  rw [Lexer.scan_step.eq_def]
  repeat' split
  all_goals
    first
    | exact length_takeWhile_le _ _
    | (simp; done)
    | (rename_i h
       first
       | (have hlen := head_some_length h
          simp only [List.length_cons, List.length_nil]
          omega)
       | (cases rest with
          | nil => simp at h
          | cons r rs =>
            have hlen2 := length_takeWhile_le (fun ch => ch ≠ '\n') rs
            simp only [List.tail_cons, List.length_cons, List.length_nil]
            omega))

theorem is_at_end_false_lt {s : Parsing.PState} (h : s.is_at_end = false) :
    s.current < s.tokens.length := by
  by_contra hc
  have : s.peek = Parsing.eof_token := by
    unfold Parsing.PState.peek
    rw [List.getD_eq_default]
    omega
  unfold Parsing.PState.is_at_end at h
  rw [this] at h
  simp [Parsing.eof_token] at h


/-- A throwaway span for hand-built AST nodes in witnesses. -/
def span0 : Span := { start := 0, stop := 0, pos := { line := 1, col := 1 } }

/-- Every interpreter operation restores the current-environment pointer,
the loop-nesting counter, and the function-nesting counter on every exit
path (normal value, break/continue/return signal, runtime error, or fuel
exhaustion).  Proved for all seven mutually recursive operations at once
by induction on fuel. -/
theorem preserve_ctr : ∀ fuel : Nat,
    (∀ st e, Ctr (evaluate fuel st e).1 st) ∧
    (∀ st s, Ctr (execute fuel st s).1 st) ∧
    (∀ st c b, Ctr (while_loop fuel st c b).1 st) ∧
    (∀ st l, Ctr (exec_stmts fuel st l).1 st) ∧
    (∀ st l i, Ctr (execute_block fuel st l i).1 st) ∧
    (∀ st l, Ctr (eval_args fuel st l).1 st) ∧
    (∀ st c a p q, Ctr (evaluate_call fuel st c a p q).1 st) := by
  intro fuel
  induction fuel with
  | zero =>
    refine ⟨?_, ?_, ?_, ?_, ?_, ?_, ?_⟩ <;> intros <;> exact ctr_rfl _
  | succ fuel ih =>
    obtain ⟨ihE, ihS, ihW, ihL, ihB, ihA, ihC⟩ := ih
    have hexec_block : ∀ st l i, Ctr (execute_block (fuel + 1) st l i).1 st := by
      intro st l i
      simp only [execute_block]
      obtain ⟨h1, h2, h3, h4⟩ := ihL { st with envId := i } l
      exact ⟨rfl, h2, h3, h4⟩
    have heval_call : ∀ st c a p q, Ctr (evaluate_call (fuel + 1) st c a p q).1 st := by
      intro st callee args p q
      simp only [evaluate_call]
      rcases h : evaluate fuel st callee with ⟨st1, o⟩
      have hc1 : Ctr st1 st := ctr_eq (ihE st callee) h
      cases o with
      | sig x => exact hc1
      | timeout => exact hc1
      | ok v =>
        cases v with
        | nil => exact hc1
        | int n => exact hc1
        | bool b => exact hc1
        | builtin b =>
          dsimp only
          rcases ha : eval_args fuel st1 args with ⟨st2, o2⟩
          have hc2 : Ctr st2 st := ctr_trans (ctr_eq (ihA st1 args) ha) hc1
          cases o2 with
          | ok vs => exact hc2
          | sig x => exact hc2
          | timeout => exact hc2
        | fn fnId =>
          dsimp only
          cases hfd : st1.fns[fnId]? with
          | none => exact hc1
          | some fd =>
            dsimp only
            by_cases harity : args.length = fd.params.length
            · simp only [harity, ne_eq, not_true_eq_false, if_false]
              rcases ha : eval_args fuel st1 args with ⟨st2, o2⟩
              have hc2 : Ctr st2 st := ctr_trans (ctr_eq (ihA st1 args) ha) hc1
              cases o2 with
              | sig x => exact hc2
              | timeout => exact hc2
              | ok argVals =>
                dsimp only
                cases hb : bind_params (new_env st2 (some fd.closure)).1
                    (new_env st2 (some fd.closure)).2 fd.params argVals with
                | error x =>
                  exact ctr_trans (new_env_ctr st2 (some fd.closure)) hc2
                | ok st3 =>
                  dsimp only
                  have hc3 : Ctr st3 st :=
                    ctr_trans (ctr_trans (bind_params_ctr _ _ _ _ _ hb)
                      (new_env_ctr st2 (some fd.closure))) hc2
                  rcases hr : execute_block fuel
                      { st3 with fnDepth := st3.fnDepth + 1 } fd.body
                      (new_env st2 (some fd.closure)).2 with ⟨st5, o5⟩
                  have hc5 : Ctr st5 { st3 with fnDepth := st3.fnDepth + 1 } :=
                    ctr_eq (ihB _ fd.body _) hr
                  have hfinal : Ctr { st5 with fnDepth := st5.fnDepth - 1 } st := by
                    obtain ⟨a1, a2, a3, a4⟩ := hc5
                    obtain ⟨b1, b2, b3, b4⟩ := hc3
                    dsimp only at a1 a2 a3 a4
                    refine ⟨a1.trans b1, a2.trans b2, ?_, a4.trans b4⟩
                    dsimp only
                    omega
                  cases o5 with
                  | ok u => exact hfinal
                  | timeout => exact hfinal
                  | sig s => cases s <;> exact hfinal
            · simp only [harity, ne_eq, not_false_eq_true, if_true]
              exact hc1
    refine ⟨?_, ?_, ?_, ?_, hexec_block, ?_, heval_call⟩
    · -- evaluate
      intro st e
      cases e with
      | lit v sp => exact ctr_rfl _
      | ident name sp =>
        simp only [evaluate]
        cases env_get st.envs st.envId name.text <;> exact ctr_rfl _
      | group inner sp =>
        simpa only [evaluate] using ihE st inner
      | unary op right sp =>
        simp only [evaluate]
        rcases h : evaluate fuel st right with ⟨st1, o⟩
        have hc1 : Ctr st1 st := ctr_eq (ihE st right) h
        cases o with
        | sig x => exact hc1
        | timeout => exact hc1
        | ok v =>
          dsimp only
          rcases hop : op.type <;> dsimp only <;>
            first
            | exact hc1
            | (cases expect_number v op.span "unary minus" <;> exact hc1)
            | (cases expect_bool v op.span "logical not" <;> exact hc1)
      | binary l op r sp =>
        simp only [evaluate]
        by_cases hand : op.type = TokenType.AND_AND
        · simp only [hand, if_true]
          rcases h : evaluate fuel st l with ⟨st1, o⟩
          have hc1 : Ctr st1 st := ctr_eq (ihE st l) h
          cases o with
          | sig x => exact hc1
          | timeout => exact hc1
          | ok lv =>
            dsimp only
            cases hbl : expect_bool lv l.span "logical and" with
            | error x => exact hc1
            | ok b =>
              cases b
              · exact hc1
              · dsimp only
                rcases h2 : evaluate fuel st1 r with ⟨st2, o2⟩
                have hc2 : Ctr st2 st := ctr_trans (ctr_eq (ihE st1 r) h2) hc1
                cases o2 with
                | sig x => exact hc2
                | timeout => exact hc2
                | ok rv =>
                  dsimp only
                  cases expect_bool rv r.span "logical and" <;> exact hc2
        · simp only [hand, if_false]
          by_cases hor : op.type = TokenType.OR_OR
          · simp only [hor, if_true]
            rcases h : evaluate fuel st l with ⟨st1, o⟩
            have hc1 : Ctr st1 st := ctr_eq (ihE st l) h
            cases o with
            | sig x => exact hc1
            | timeout => exact hc1
            | ok lv =>
              dsimp only
              cases hbl : expect_bool lv l.span "logical or" with
              | error x => exact hc1
              | ok b =>
                cases b
                · dsimp only
                  rcases h2 : evaluate fuel st1 r with ⟨st2, o2⟩
                  have hc2 : Ctr st2 st := ctr_trans (ctr_eq (ihE st1 r) h2) hc1
                  cases o2 with
                  | sig x => exact hc2
                  | timeout => exact hc2
                  | ok rv =>
                    dsimp only
                    cases expect_bool rv r.span "logical or" <;> exact hc2
                · exact hc1
          · simp only [hor, if_false]
            rcases h : evaluate fuel st l with ⟨st1, o⟩
            have hc1 : Ctr st1 st := ctr_eq (ihE st l) h
            cases o with
            | sig x => exact hc1
            | timeout => exact hc1
            | ok lv =>
              dsimp only
              rcases h2 : evaluate fuel st1 r with ⟨st2, o2⟩
              have hc2 : Ctr st2 st := ctr_trans (ctr_eq (ihE st1 r) h2) hc1
              cases o2 with
              | sig x => exact hc2
              | timeout => exact hc2
              | ok rv =>
                dsimp only
                cases apply_binary lv op rv <;> exact hc2
      | assign name value sp =>
        simp only [evaluate]
        rcases h : evaluate fuel st value with ⟨st1, o⟩
        have hc1 : Ctr st1 st := ctr_eq (ihE st value) h
        cases o with
        | sig x => exact hc1
        | timeout => exact hc1
        | ok v =>
          dsimp only
          cases env_assign st1.envs st1.envId name.text v with
          | none => exact hc1
          | some envs2 => exact ctr_trans ⟨rfl, rfl, rfl, rfl⟩ hc1
      | call callee arguments ps sp =>
        simpa only [evaluate] using ihC st callee arguments ps sp
    · -- execute
      intro st s
      cases s with
      | exprStmt e sp =>
        simp only [execute]
        rcases h : evaluate fuel st e with ⟨st1, o⟩
        have hc1 : Ctr st1 st := ctr_eq (ihE st e) h
        cases o <;> exact hc1
      | letStmt name init sp =>
        simp only [execute]
        rcases h : evaluate fuel st init with ⟨st1, o⟩
        have hc1 : Ctr st1 st := ctr_eq (ihE st init) h
        cases o with
        | sig x => exact hc1
        | timeout => exact hc1
        | ok v =>
          dsimp only
          cases hd : define_in st1 name.text v with
          | none => exact hc1
          | some st2 => exact ctr_trans (define_in_ctr hd) hc1
      | block stmts sp =>
        simp only [execute]
        exact ctr_trans (ihB _ stmts _) (new_env_ctr st (some st.envId))
      | ifStmt cond then_branch else_branch sp =>
        simp only [execute]
        rcases h : evaluate fuel st cond with ⟨st1, o⟩
        have hc1 : Ctr st1 st := ctr_eq (ihE st cond) h
        cases o with
        | sig x => exact hc1
        | timeout => exact hc1
        | ok v =>
          dsimp only
          cases hb : expect_bool v cond.span "if condition" with
          | error x => exact hc1
          | ok b =>
            cases b
            · dsimp only
              cases else_branch with
              | none => exact hc1
              | some e => exact ctr_trans (ihS st1 e) hc1
            · exact ctr_trans (ihS st1 then_branch) hc1
      | whileStmt cond body sp =>
        simp only [execute]
        obtain ⟨h1, h2, h3, h4⟩ := ihW { st with loopDepth := st.loopDepth + 1 } cond body
        dsimp only at h1 h2 h3 h4
        refine ⟨h1, ?_, h3, h4⟩
        dsimp only
        omega
      | breakStmt sp =>
        simp only [execute]
        by_cases h : st.loopDepth = 0 <;> simp only [h, if_true, if_false] <;> exact ctr_rfl _
      | continueStmt sp =>
        simp only [execute]
        by_cases h : st.loopDepth = 0 <;> simp only [h, if_true, if_false] <;> exact ctr_rfl _
      | returnStmt value sp =>
        simp only [execute]
        by_cases h : st.fnDepth = 0
        · simp only [h, if_true]
          exact ctr_rfl _
        · simp only [h, if_false]
          cases value with
          | none => exact ctr_rfl _
          | some e =>
            dsimp only
            rcases h2 : evaluate fuel st e with ⟨st1, o⟩
            have hc1 : Ctr st1 st := ctr_eq (ihE st e) h2
            cases o <;> exact hc1
      | fnStmt name params body sp =>
        simp only [execute]
        cases hd : define_in
            { st with fns := st.fns ++ [{ name := name, params := params, body := body,
                                          closure := st.envId }] }
            name.text (.fn st.fns.length) with
        | none => exact ctr_rfl _
        | some st2 => exact ctr_trans (define_in_ctr hd) (ctr_rfl _)
    · -- while_loop
      intro st cond body
      simp only [while_loop]
      rcases h : evaluate fuel st cond with ⟨st1, o⟩
      have hc1 : Ctr st1 st := ctr_eq (ihE st cond) h
      cases o with
      | sig x => exact hc1
      | timeout => exact hc1
      | ok v =>
        dsimp only
        cases hb : expect_bool v cond.span "while condition" with
        | error x => exact hc1
        | ok b =>
          cases b
          · exact hc1
          · dsimp only
            rcases h2 : execute fuel st1 body with ⟨st2, o2⟩
            have hc2 : Ctr st2 st := ctr_trans (ctr_eq (ihS st1 body) h2) hc1
            cases o2 with
            | ok u => exact ctr_trans (ihW st2 cond body) hc2
            | timeout => exact hc2
            | sig s =>
              cases s with
              | brk => exact hc2
              | cont => exact ctr_trans (ihW st2 cond body) hc2
              | ret v2 => exact hc2
              | rterr sp m => exact hc2
    · -- exec_stmts
      intro st l
      cases l with
      | nil => exact ctr_rfl _
      | cons s0 rest =>
        simp only [exec_stmts]
        rcases h : execute fuel st s0 with ⟨st1, o⟩
        have hc1 : Ctr st1 st := ctr_eq (ihS st s0) h
        cases o with
        | ok u => exact ctr_trans (ihL st1 rest) hc1
        | sig x => exact hc1
        | timeout => exact hc1
    · -- eval_args
      intro st l
      cases l with
      | nil => exact ctr_rfl _
      | cons e rest =>
        simp only [eval_args]
        rcases h : evaluate fuel st e with ⟨st1, o⟩
        have hc1 : Ctr st1 st := ctr_eq (ihE st e) h
        cases o with
        | sig x => exact hc1
        | timeout => exact hc1
        | ok v =>
          dsimp only
          rcases h2 : eval_args fuel st1 rest with ⟨st2, o2⟩
          have hc2 : Ctr st2 st := ctr_trans (ctr_eq (ihA st1 rest) h2) hc1
          cases o2 <;> exact hc2

set_option maxHeartbeats 4000000 in
/-- C1, counterexample.  The claim says a non-numeric operand of `/` always
produces the type-mismatch error and never "Division by zero.", even when
the right operand is 0.  But on `true / 0;` the code checks the *right*
operand, sees 0, and raises "Division by zero." before ever type-checking
the boolean left operand; the reported error is not the type-mismatch
message the claim requires. -/
theorem claim_C1_counterexample :
    run_program 200 "true / 0;" =
      ([], [], ["Line 1, col 6: Division by zero."], "") ∧
    "Line 1, col 6: Division by zero." ≠
      "Line 1, col 6: Expected number in division, got boolean." := by
  constructor
  · rfl
  · decide

/-- C1, amended: for a binary `/` whose operands evaluate to values `lv`
and `rv`, the right operand is type-checked first; if it is the integer 0
the error is "Division by zero." (even when the left operand is
non-numeric); only then is the left operand type-checked; when both are
integers and the right is nonzero the result is the quotient truncated
toward zero. -/
theorem claim_C1_amended (fuel : Nat) (st st1 st2 : Interp) (l r : Expr) (op : Op)
    (sp : Span) (lv rv : Value)
    (hop : op.type = .SLASH)
    (hl : evaluate fuel st l = (st1, .ok lv))
    (hr : evaluate fuel st1 r = (st2, .ok rv)) :
    evaluate (fuel + 1) st (.binary l op r sp) =
      (st2,
        match rv with
        | .int d =>
          if d = 0 then .sig (.rterr op.span "Division by zero.")
          else
            match lv with
            | .int n => .ok (.int (n.tdiv d))
            | _ => .sig (.rterr op.span
                ("Expected number in division, got " ++ value_type_name lv ++ "."))
        | _ => .sig (.rterr op.span
            ("Expected number in division, got " ++ value_type_name rv ++ "."))) := by
  have hne1 : op.type ≠ TokenType.AND_AND := by rw [hop]; decide
  have hne2 : op.type ≠ TokenType.OR_OR := by rw [hop]; decide
  simp only [evaluate, hne1, hne2, if_false, hl, hr, apply_binary, hop]
  cases rv with
  | int d =>
    by_cases hd : d = 0
    · simp [hd, expect_number]
    · cases lv <;> simp [hd, expect_number, value_type_name]
  | nil => cases lv <;> simp [expect_number, value_type_name]
  | bool b => cases lv <;> simp [expect_number, value_type_name]
  | fn i => cases lv <;> simp [expect_number, value_type_name]
  | builtin b => cases lv <;> simp [expect_number, value_type_name]

/-- C1 witness: `7 / 2` evaluates to the truncated quotient 3. -/
theorem claim_C1_amended_witness :
    evaluate 2 initial_interp
      (.binary (.lit (.int 7) span0) { type := .SLASH, span := span0 }
        (.lit (.int 2) span0) span0) =
      (initial_interp, .ok (.int 3)) := by
  have h := claim_C1_amended 1 initial_interp initial_interp initial_interp
    (.lit (.int 7) span0) (.lit (.int 2) span0) { type := .SLASH, span := span0 }
    span0 (.int 7) (.int 2) rfl rfl rfl
  simpa using h

set_option maxHeartbeats 4000000 in
/-- C2.  First conjunct: the spec's program prints "2" followed by a
newline with no error of any stage (a by-value capture at the `fn`
declaration would print "1").  Second conjunct: a call to a zero-parameter
function value runs the body in a fresh environment frame allocated with
`enclosing := some fd.closure` — the closure captured at the `fn`
declaration — and not in the caller's current environment, so later
assignments to captured variables are visible inside the closure. -/
theorem claim_C2 :
    (run_program 200 "let x = 1; fn f() \x7b return x; \x7d x = 2; print(f());" =
      ([], [], [], "2\n")) ∧
    (∀ (fuel : Nat) (st st1 : Interp) (callee : Expr) (fnId : Nat)
        (fd : FunctionData) (ps sp : Span),
      evaluate (fuel + 1) st callee = (st1, .ok (.fn fnId)) →
      st1.fns[fnId]? = some fd →
      fd.params = [] →
      evaluate_call (fuel + 2) st callee [] ps sp =
        (let alloc := new_env st1 (some fd.closure)
         let r := execute_block (fuel + 1)
           { alloc.1 with fnDepth := alloc.1.fnDepth + 1 } fd.body alloc.2
         match r.2 with
         | .sig (.ret v) => ({ r.1 with fnDepth := r.1.fnDepth - 1 }, .ok v)
         | .ok _ => ({ r.1 with fnDepth := r.1.fnDepth - 1 }, .ok Value.nil)
         | .sig x => ({ r.1 with fnDepth := r.1.fnDepth - 1 }, .sig x)
         | .timeout => ({ r.1 with fnDepth := r.1.fnDepth - 1 }, .timeout))) := by
  constructor
  · rfl
  · intro fuel st st1 callee fnId fd ps sp hc hfd hparams
    simp only [evaluate_call, hc, hfd, hparams, List.length_nil, ne_eq,
      not_true_eq_false, if_false, eval_args, bind_params]

/-- C2 witness state: one global frame binding `f` to function 0, whose
declaration has no parameters and an empty body. -/
def c2_state : Interp :=
  { errors := [],
    envs := [{ values := [("f", .fn 0)], enclosing := none }],
    globalsId := 0, envId := 0, loopDepth := 0, fnDepth := 0,
    fns := [{ name := { text := "f", span := span0 }, params := [], body := [],
              closure := 0 }],
    out := "" }

/-- C2 witness: calling `f` on the witness state returns nil through the
closure-chained call environment. -/
theorem claim_C2_witness :
    evaluate_call 3 c2_state (.ident { text := "f", span := span0 } span0) [] span0 span0 =
      ({ c2_state with
          envs := c2_state.envs ++ [{ values := [], enclosing := some 0 }] },
        .ok Value.nil) := by
  have h := claim_C2.2 1 c2_state c2_state (.ident { text := "f", span := span0 } span0)
    0 { name := { text := "f", span := span0 }, params := [], body := [], closure := 0 }
    span0 span0 rfl rfl rfl
  simpa [new_env, execute_block, exec_stmts, c2_state] using h

/-- C5.  `Environment::define` fails exactly when the name is already
bound in this same scope (enclosing scopes are not consulted — `define`
only reads the frame it is given), and on success appends the binding;
`let x = 1; let x = 2;` yields exactly one runtime error citing
redeclaration and leaves the global `x` bound to 1, while shadowing in a
nested block is legal. -/
theorem claim_C5 :
    (∀ (f : EnvFrame) (name : String) (v : Value),
      (EnvFrame.define f name v = none ↔ f.has_local name = true) ∧
      (f.has_local name = false →
        EnvFrame.define f name v = some { f with values := f.values ++ [(name, v)] })) ∧
    (run_program 200 "let x = 1; let x = 2;" =
      ([], [], ["Line 1, col 16: Variable already declared in this scope: \x27x\x27."], "")) ∧
    (env_get (interpret 200 initial_interp
        (Parsing.parse 200 (Lexer.scan_tokens "let x = 1; let x = 2;".data).1).1).1.envs 0 "x" =
      some (.int 1)) ∧
    (run_program 200 "let x = 1; \x7b let x = 2; \x7d" = ([], [], [], "")) := by
  refine ⟨?_, by rfl, by rfl, by rfl⟩
  intro f name v
  constructor
  · unfold EnvFrame.define
    by_cases h : f.has_local name <;> simp [h]
  · intro h
    unfold EnvFrame.define
    simp [h]

/-- C5 witness: defining a fresh name in an empty frame succeeds and
appends the binding. -/
theorem claim_C5_witness :
    EnvFrame.define { values := [], enclosing := none } "x" (.int 5) =
      some { values := [("x", .int 5)], enclosing := none } :=
  (claim_C5.1 { values := [], enclosing := none } "x" (.int 5)).2 rfl

/-- C6.  Every frame that installs a new current environment restores the
previous one on every exit path: after `execute_block` (used by both block
execution and call-body execution), and after any statement execution,
expression evaluation, or call evaluation, the interpreter's
current-environment pointer equals its value from before — for every
outcome (normal, break/continue/return signal, runtime error, or fuel
exhaustion), since the stated equality holds unconditionally on the
returned state. -/
theorem claim_C6 (fuel : Nat) (st : Interp) :
    (∀ (stmts : List Stmt) (envid : Nat),
      ((execute_block fuel st stmts envid).1).envId = st.envId) ∧
    (∀ s, ((execute fuel st s).1).envId = st.envId) ∧
    (∀ e, ((evaluate fuel st e).1).envId = st.envId) ∧
    (∀ c args ps sp, ((evaluate_call fuel st c args ps sp).1).envId = st.envId) := by
  obtain ⟨hE, hS, _hW, _hL, hB, _hA, hC⟩ := preserve_ctr fuel
  exact ⟨fun stmts envid => (hB st stmts envid).1, fun s => (hS st s).1,
    fun e => (hE st e).1, fun c a p q => (hC st c a p q).1⟩

/-- C7.  Break/continue with a zero loop-nesting counter raise the
"used outside of a loop" runtime error; with a positive counter they raise
the corresponding unwind signal; inside a while loop a `brk` signal from
the body exits the loop normally and a `cont` signal re-enters at the
condition check; `while (true) \x7b break; \x7d print(1);` prints "1" with
no error and a bare `break;` reports the runtime error. -/
theorem claim_C7 :
    (∀ (fuel : Nat) (st : Interp) (sp : Span),
      st.loopDepth = 0 →
      execute (fuel + 1) st (.breakStmt sp) =
        (st, .sig (.rterr sp "Break used outside of a loop.")) ∧
      execute (fuel + 1) st (.continueStmt sp) =
        (st, .sig (.rterr sp "Continue used outside of a loop."))) ∧
    (∀ (fuel : Nat) (st : Interp) (sp : Span),
      st.loopDepth ≠ 0 →
      execute (fuel + 1) st (.breakStmt sp) = (st, .sig .brk) ∧
      execute (fuel + 1) st (.continueStmt sp) = (st, .sig .cont)) ∧
    (∀ (fuel : Nat) (st st1 st2 : Interp) (cond : Expr) (body : Stmt),
      evaluate fuel st cond = (st1, .ok (.bool true)) →
      (execute fuel st1 body = (st2, .sig .brk) →
        while_loop (fuel + 1) st cond body = (st2, .ok ())) ∧
      (execute fuel st1 body = (st2, .sig .cont) →
        while_loop (fuel + 1) st cond body = while_loop fuel st2 cond body)) ∧
    (run_program 200 "while (true) \x7b break; \x7d print(1);" = ([], [], [], "1\n")) ∧
    (run_program 200 "break;" =
      ([], [], ["Line 1, col 1: Break used outside of a loop."], "")) := by
  refine ⟨?_, ?_, ?_, by rfl, by rfl⟩
  · intro fuel st sp h
    constructor <;> simp [execute, h]
  · intro fuel st sp h
    constructor <;> simp [execute, h]
  · intro fuel st st1 st2 cond body hcond
    constructor
    · intro hbody
      simp [while_loop, hcond, expect_bool, hbody]
    · intro hbody
      simp [while_loop, hcond, expect_bool, hbody]

/-- C7 witness: a bare break at loop depth zero errors; at depth one it
raises the break signal. -/
theorem claim_C7_witness :
    execute 1 initial_interp (.breakStmt span0) =
      (initial_interp, .sig (.rterr span0 "Break used outside of a loop.")) ∧
    execute 1 { initial_interp with loopDepth := 1 } (.breakStmt span0) =
      ({ initial_interp with loopDepth := 1 }, .sig .brk) :=
  ⟨(claim_C7.1 0 initial_interp span0 rfl).1,
   (claim_C7.2.1 0 { initial_interp with loopDepth := 1 } span0 (by decide)).1⟩

/-- C8 witness state: loop depth 1, `f` bound to function 0 whose body is
a bare `break;`. -/
def c8_state : Interp :=
  { errors := [],
    envs := [{ values := [("f", .fn 0)], enclosing := none }],
    globalsId := 0, envId := 0, loopDepth := 1, fnDepth := 0,
    fns := [{ name := { text := "f", span := span0 }, params := [],
              body := [.breakStmt span0], closure := 0 }],
    out := "" }

/-- C8.  The loop-nesting counter is dynamic across call boundaries:
`evaluate_call` leaves it untouched (only the function-nesting counter is
incremented and restored), a break signal raised inside a called function
body propagates out of the call with the function counter restored, and
`fn f() \x7b break; \x7d while (true) \x7b f(); \x7d print(1);` prints "1"
with no runtime error because the break terminates the caller's loop. -/
theorem claim_C8 :
    (∀ (fuel : Nat) (st : Interp) (c : Expr) (a : List Expr) (p q : Span),
      ((evaluate_call fuel st c a p q).1).loopDepth = st.loopDepth ∧
      ((evaluate_call fuel st c a p q).1).fnDepth = st.fnDepth) ∧
    (∀ (fuel : Nat) (st st1 st5 : Interp) (callee : Expr) (fnId : Nat)
        (fd : FunctionData) (ps sp : Span),
      evaluate (fuel + 1) st callee = (st1, .ok (.fn fnId)) →
      st1.fns[fnId]? = some fd →
      fd.params = [] →
      execute_block (fuel + 1)
        { (new_env st1 (some fd.closure)).1 with
            fnDepth := (new_env st1 (some fd.closure)).1.fnDepth + 1 }
        fd.body (new_env st1 (some fd.closure)).2 = (st5, .sig .brk) →
      evaluate_call (fuel + 2) st callee [] ps sp =
        ({ st5 with fnDepth := st5.fnDepth - 1 }, .sig .brk)) ∧
    (run_program 200 "fn f() \x7b break; \x7d while (true) \x7b f(); \x7d print(1);" =
      ([], [], [], "1\n")) := by
  refine ⟨?_, ?_, by rfl⟩
  · intro fuel st c a p q
    obtain ⟨_hE, _hS, _hW, _hL, _hB, _hA, hC⟩ := preserve_ctr fuel
    obtain ⟨_, h2, h3, _⟩ := hC st c a p q
    exact ⟨h2, h3⟩
  · intro fuel st st1 st5 callee fnId fd ps sp hc hfd hparams hbody
    simp only [evaluate_call, hc, hfd, hparams, List.length_nil, ne_eq,
      not_true_eq_false, if_false, eval_args, bind_params, hbody]

/-- C8 witness: calling `f` (body `break;`) at loop depth 1 propagates the
break signal out of the call. -/
theorem claim_C8_witness :
    evaluate_call 4 c8_state (.ident { text := "f", span := span0 } span0) [] span0 span0 =
      ({ c8_state with
          envs := c8_state.envs ++ [{ values := [], enclosing := some 0 }] },
        .sig .brk) := by
  have h := claim_C8.2.1 2 c8_state c8_state
    { c8_state with
        envs := c8_state.envs ++ [{ values := [], enclosing := some 0 }],
        fnDepth := 1 }
    (.ident { text := "f", span := span0 } span0) 0
    { name := { text := "f", span := span0 }, params := [], body := [.breakStmt span0],
      closure := 0 }
    span0 span0 rfl rfl rfl (by rfl)
  simpa [c8_state] using h

/-- C3.  `interpret` stops at the first runtime error: (1) a run whose
outcome is normal leaves the errors list empty; (2) a run that ends in a
`RuntimeError` signal records exactly one error, formatted from the
error's span; (3) once a statement of the list raises a runtime error the
remaining statements contribute nothing — the sequence's result is the
failing statement's result; and execution is in order: after a normal
first statement the sequence continues with the rest from its state. -/
theorem claim_C3 :
    (∀ (fuel : Nat) (st : Interp) (stmts : List Stmt) (r : Interp × EOut Unit),
      interpret fuel st stmts = r →
      (r.2 = .ok () → r.1.errors = []) ∧
      (∀ sp m, r.2 = .sig (.rterr sp m) → r.1.errors = [format_error sp m])) ∧
    (∀ (fuel : Nat) (st st1 : Interp) (s0 : Stmt) (rest : List Stmt) (sp : Span)
        (m : String),
      execute fuel st s0 = (st1, .sig (.rterr sp m)) →
      exec_stmts (fuel + 1) st (s0 :: rest) = (st1, .sig (.rterr sp m))) ∧
    (∀ (fuel : Nat) (st st1 : Interp) (s0 : Stmt) (rest : List Stmt),
      execute fuel st s0 = (st1, .ok ()) →
      exec_stmts (fuel + 1) st (s0 :: rest) = exec_stmts fuel st1 rest) := by
  refine ⟨?_, ?_, ?_⟩
  · intro fuel st stmts r h
    obtain ⟨_, _, _, hL, _, _, _⟩ := preserve_ctr fuel
    rcases he : exec_stmts fuel { st with errors := [] } stmts with ⟨stX, o⟩
    have herr : stX.errors = [] := by
      have h2 := (hL { st with errors := [] } stmts).2.2.2
      rw [he] at h2
      simpa using h2
    simp only [interpret, he] at h
    cases o with
    | ok u =>
      dsimp only at h
      subst h
      constructor
      · intro _
        exact herr
      · intro sp m hm
        simp at hm
    | timeout =>
      dsimp only at h
      subst h
      constructor
      · intro hm
        simp at hm
      · intro sp m hm
        simp at hm
    | sig x =>
      cases x with
      | rterr sp0 m0 =>
        dsimp only at h
        subst h
        constructor
        · intro hm
          simp at hm
        · intro sp m hm
          dsimp only at hm
          injection hm with hm
          injection hm with hm1 hm2
          subst hm1
          subst hm2
          simp [herr]
      | brk =>
        dsimp only at h
        subst h
        exact ⟨fun hm => by simp at hm, fun sp m hm => by simp at hm⟩
      | cont =>
        dsimp only at h
        subst h
        exact ⟨fun hm => by simp at hm, fun sp m hm => by simp at hm⟩
      | ret v =>
        dsimp only at h
        subst h
        exact ⟨fun hm => by simp at hm, fun sp m hm => by simp at hm⟩
  · intro fuel st st1 s0 rest sp m hexec
    simp [exec_stmts, hexec]
  · intro fuel st st1 s0 rest hexec
    simp [exec_stmts, hexec]

/-- C3 witness: a top-level bare `break;` makes `interpret` record exactly
the one formatted error. -/
theorem claim_C3_witness :
    (interpret 2 initial_interp [.breakStmt span0]).1.errors =
      [format_error span0 "Break used outside of a loop."] :=
  (claim_C3.1 2 initial_interp [.breakStmt span0]
    (interpret 2 initial_interp [.breakStmt span0]) rfl).2
    span0 "Break used outside of a loop." (by rfl)

set_option maxHeartbeats 4000000 in
/-- C4.  `&&` and `||` short-circuit.  For `&&`: a false left operand
yields false with the right operand never evaluated (the result does not
depend on `r` at all); a true left operand yields the boolean check of the
right operand; a non-boolean left operand is a type error naming the
expected and actual type.  For `||` symmetrically, a true left operand
yields true without evaluating `r`.  Hence `false && (1/0 == 1);` and
`true || (1/0 == 1);` raise no division-by-zero error. -/
theorem claim_C4 :
    (∀ (fuel : Nat) (st st1 : Interp) (l r : Expr) (op : Op) (sp : Span),
      op.type = .AND_AND →
      evaluate fuel st l = (st1, .ok (.bool false)) →
      evaluate (fuel + 1) st (.binary l op r sp) = (st1, .ok (.bool false))) ∧
    (∀ (fuel : Nat) (st st1 : Interp) (l r : Expr) (op : Op) (sp : Span),
      op.type = .AND_AND →
      evaluate fuel st l = (st1, .ok (.bool true)) →
      evaluate (fuel + 1) st (.binary l op r sp) =
        (match evaluate fuel st1 r with
         | (st2, .ok rv) =>
           (match expect_bool rv r.span "logical and" with
            | .ok b => (st2, .ok (.bool b))
            | .error x => (st2, .sig x))
         | (st2, .sig x) => (st2, .sig x)
         | (st2, .timeout) => (st2, .timeout))) ∧
    (∀ (fuel : Nat) (st st1 : Interp) (l r : Expr) (op : Op) (sp : Span) (lv : Value),
      op.type = .AND_AND →
      evaluate fuel st l = (st1, .ok lv) →
      (∀ b, lv ≠ .bool b) →
      evaluate (fuel + 1) st (.binary l op r sp) =
        (st1, .sig (.rterr l.span
          ("Expected boolean in logical and, got " ++ value_type_name lv ++ ".")))) ∧
    (∀ (fuel : Nat) (st st1 : Interp) (l r : Expr) (op : Op) (sp : Span),
      op.type = .OR_OR →
      evaluate fuel st l = (st1, .ok (.bool true)) →
      evaluate (fuel + 1) st (.binary l op r sp) = (st1, .ok (.bool true))) ∧
    (∀ (fuel : Nat) (st st1 : Interp) (l r : Expr) (op : Op) (sp : Span),
      op.type = .OR_OR →
      evaluate fuel st l = (st1, .ok (.bool false)) →
      evaluate (fuel + 1) st (.binary l op r sp) =
        (match evaluate fuel st1 r with
         | (st2, .ok rv) =>
           (match expect_bool rv r.span "logical or" with
            | .ok b => (st2, .ok (.bool b))
            | .error x => (st2, .sig x))
         | (st2, .sig x) => (st2, .sig x)
         | (st2, .timeout) => (st2, .timeout))) ∧
    (run_program 200 "false && (1/0 == 1);" = ([], [], [], "")) ∧
    (run_program 200 "true || (1/0 == 1);" = ([], [], [], "")) := by
  refine ⟨?_, ?_, ?_, ?_, ?_, by rfl, by rfl⟩
  · intro fuel st st1 l r op sp hop hl
    simp [evaluate, hop, hl, expect_bool]
  · intro fuel st st1 l r op sp hop hl
    simp only [evaluate, hop, if_true, hl, expect_bool]
  · intro fuel st st1 l r op sp lv hop hl hnb
    have : expect_bool lv l.span "logical and" =
        .error (.rterr l.span
          ("Expected boolean in logical and, got " ++ value_type_name lv ++ ".")) := by
      cases lv with
      | bool b => exact absurd rfl (hnb b)
      | nil => rfl
      | int i => rfl
      | fn i => rfl
      | builtin b => rfl
    simp [evaluate, hop, hl, this]
  · intro fuel st st1 l r op sp hop hl
    have hne : op.type ≠ TokenType.AND_AND := by rw [hop]; decide
    simp [evaluate, hop, hne, hl, expect_bool]
  · intro fuel st st1 l r op sp hop hl
    have hne : op.type ≠ TokenType.AND_AND := by rw [hop]; decide
    simp only [evaluate, hne, if_false, hop, if_true, hl, expect_bool]
    rw [if_neg (by decide)]

/-- C4 witness: with a false literal on the left of `&&`, the result is
false even when the right operand would divide by zero. -/
theorem claim_C4_witness :
    evaluate 2 initial_interp
      (.binary (.lit (.bool false) span0) { type := .AND_AND, span := span0 }
        (.binary (.lit (.int 1) span0) { type := .SLASH, span := span0 }
          (.lit (.int 0) span0) span0)
        span0) =
      (initial_interp, .ok (.bool false)) :=
  claim_C4.1 1 initial_interp initial_interp (.lit (.bool false) span0)
    (.binary (.lit (.int 1) span0) { type := .SLASH, span := span0 }
      (.lit (.int 0) span0) span0)
    { type := .AND_AND, span := span0 } span0 rfl rfl

theorem scan_step_extra_prefix (c : Char) (rest : List Char) (off : Nat) (pos : SourcePos) :
    (Lexer.scan_step c rest off pos).2 <+: rest := by
  rw [Lexer.scan_step.eq_def]
  repeat' split
  all_goals dsimp only
  all_goals
    first
    | exact List.nil_prefix
    | exact List.takeWhile_prefix _
    | (rename_i h
       cases rest with
       | nil => simp at h
       | cons r rs =>
         simp only [List.head?_cons, Option.some.injEq] at h
         subst h
         simp [List.cons_prefix_cons, List.takeWhile_prefix, List.nil_prefix])

theorem char_kind_ws {c : Char} (h : Lexer.char_kind c = .ws) : Lexer.is_ws c = true := by
  unfold Lexer.char_kind at h
  by_cases h1 : c = '('
  · rw [if_pos h1] at h; simp at h
  rw [if_neg h1] at h
  by_cases h2 : c = ')'
  · rw [if_pos h2] at h; simp at h
  rw [if_neg h2] at h
  by_cases h3 : c = '\x7b'
  · rw [if_pos h3] at h; simp at h
  rw [if_neg h3] at h
  by_cases h4 : c = '\x7d'
  · rw [if_pos h4] at h; simp at h
  rw [if_neg h4] at h
  by_cases h5 : c = ';'
  · rw [if_pos h5] at h; simp at h
  rw [if_neg h5] at h
  by_cases h6 : c = ','
  · rw [if_pos h6] at h; simp at h
  rw [if_neg h6] at h
  by_cases h7 : c = '+'
  · rw [if_pos h7] at h; simp at h
  rw [if_neg h7] at h
  by_cases h8 : c = '-'
  · rw [if_pos h8] at h; simp at h
  rw [if_neg h8] at h
  by_cases h9 : c = '*'
  · rw [if_pos h9] at h; simp at h
  rw [if_neg h9] at h
  by_cases h10 : c = '!'
  · rw [if_pos h10] at h; simp at h
  rw [if_neg h10] at h
  by_cases h11 : c = '='
  · rw [if_pos h11] at h; simp at h
  rw [if_neg h11] at h
  by_cases h12 : c = '<'
  · rw [if_pos h12] at h; simp at h
  rw [if_neg h12] at h
  by_cases h13 : c = '>'
  · rw [if_pos h13] at h; simp at h
  rw [if_neg h13] at h
  by_cases h14 : c = '&'
  · rw [if_pos h14] at h; simp at h
  rw [if_neg h14] at h
  by_cases h15 : c = '|'
  · rw [if_pos h15] at h; simp at h
  rw [if_neg h15] at h
  by_cases h16 : c = '/'
  · rw [if_pos h16] at h; simp at h
  rw [if_neg h16] at h
  by_cases h17 : Lexer.is_ws c
  · exact h17
  rw [if_neg (by simpa using h17)] at h
  by_cases h18 : Lexer.is_digit c
  · rw [if_pos (by simpa using h18)] at h; simp at h
  rw [if_neg (by simpa using h18)] at h
  by_cases h19 : Lexer.is_alpha c
  · rw [if_pos (by simpa using h19)] at h; simp at h
  rw [if_neg (by simpa using h19)] at h
  simp at h

theorem char_kind_slash {c : Char} (h : Lexer.char_kind c = .slash) : c = '/' := by
  unfold Lexer.char_kind at h
  by_cases h1 : c = '('
  · rw [if_pos h1] at h; simp at h
  rw [if_neg h1] at h
  by_cases h2 : c = ')'
  · rw [if_pos h2] at h; simp at h
  rw [if_neg h2] at h
  by_cases h3 : c = '\x7b'
  · rw [if_pos h3] at h; simp at h
  rw [if_neg h3] at h
  by_cases h4 : c = '\x7d'
  · rw [if_pos h4] at h; simp at h
  rw [if_neg h4] at h
  by_cases h5 : c = ';'
  · rw [if_pos h5] at h; simp at h
  rw [if_neg h5] at h
  by_cases h6 : c = ','
  · rw [if_pos h6] at h; simp at h
  rw [if_neg h6] at h
  by_cases h7 : c = '+'
  · rw [if_pos h7] at h; simp at h
  rw [if_neg h7] at h
  by_cases h8 : c = '-'
  · rw [if_pos h8] at h; simp at h
  rw [if_neg h8] at h
  by_cases h9 : c = '*'
  · rw [if_pos h9] at h; simp at h
  rw [if_neg h9] at h
  by_cases h10 : c = '!'
  · rw [if_pos h10] at h; simp at h
  rw [if_neg h10] at h
  by_cases h11 : c = '='
  · rw [if_pos h11] at h; simp at h
  rw [if_neg h11] at h
  by_cases h12 : c = '<'
  · rw [if_pos h12] at h; simp at h
  rw [if_neg h12] at h
  by_cases h13 : c = '>'
  · rw [if_pos h13] at h; simp at h
  rw [if_neg h13] at h
  by_cases h14 : c = '&'
  · rw [if_pos h14] at h; simp at h
  rw [if_neg h14] at h
  by_cases h15 : c = '|'
  · rw [if_pos h15] at h; simp at h
  rw [if_neg h15] at h
  by_cases h16 : c = '/'
  · exact h16
  rw [if_neg h16] at h
  by_cases h17 : Lexer.is_ws c
  · rw [if_pos (by simpa using h17)] at h; simp at h
  rw [if_neg (by simpa using h17)] at h
  by_cases h18 : Lexer.is_digit c
  · rw [if_pos (by simpa using h18)] at h; simp at h
  rw [if_neg (by simpa using h18)] at h
  by_cases h19 : Lexer.is_alpha c
  · rw [if_pos (by simpa using h19)] at h; simp at h
  rw [if_neg (by simpa using h19)] at h
  simp at h

theorem prefix_take_eq {l1 l2 : List Char} (h : l1 <+: l2) :
    l2.take l1.length = l1 := by
  obtain ⟨t, ht⟩ := h
  subst ht
  simp

theorem scan_step_tok_shape (c : Char) (rest : List Char) (off : Nat) (pos : SourcePos) :
    ∀ t, (Lexer.scan_step c rest off pos).1 = .tok t →
      t.span.start = off ∧
      t.span.stop = off + 1 + (Lexer.scan_step c rest off pos).2.length ∧
      t.lexeme.data = c :: (Lexer.scan_step c rest off pos).2 := by
  rw [Lexer.scan_step.eq_def]
  repeat' split
  all_goals dsimp only
  all_goals intro t ht
  all_goals
    first
    | (simp at ht
       done)
    | (injection ht with ht
       subst ht
       refine ⟨rfl, ?_, rfl⟩
       simp [Lexer.mk_token]
       try omega
       done)
    | (split at ht <;>
        (injection ht with ht
         subst ht
         refine ⟨rfl, ?_, rfl⟩
         simp [Lexer.mk_token]
         try omega)
       done)

theorem scan_step_skip_shape (c : Char) (rest : List Char) (off : Nat) (pos : SourcePos) :
    (Lexer.scan_step c rest off pos).1 = .skip →
      (Lexer.is_ws c = true ∧ (Lexer.scan_step c rest off pos).2 = []) ∨
      (c = '/' ∧ rest.head? = some '/' ∧
        (Lexer.scan_step c rest off pos).2 =
          '/' :: rest.tail.takeWhile (fun ch => ch ≠ '\n')) := by
  rw [Lexer.scan_step.eq_def]
  repeat' split
  all_goals dsimp only
  all_goals intro ht
  all_goals
    first
    | (simp at ht
       done)
    | ((split at ht <;> simp at ht)
       done)
    | (rename_i hck h2
       exact Or.inr ⟨char_kind_slash hck, h2, rfl⟩)
    | (rename_i hck
       exact Or.inl ⟨char_kind_ws hck, rfl⟩)

theorem slice_self (src : List Char) (a : Nat) : slice src a a = [] := by
  simp [slice]

theorem slice_drop (src : List Char) (a : Nat) :
    slice src a src.length = src.drop a := by
  have h : (src.drop a).length = src.length - a := by simp
  simp only [slice]
  rw [← h]
  exact List.take_length _

theorem slice_append (src : List Char) {a b c : Nat} (hab : a ≤ b) (hbc : b ≤ c) :
    slice src a b ++ slice src b c = slice src a c := by
  simp only [slice]
  have h1 : c - a = (b - a) + (c - b) := by omega
  rw [h1, List.take_add]
  congr 2
  rw [List.drop_drop]
  congr 1
  omega

theorem slice_head {src : List Char} {a X : Nat} (h : a < X) :
    (slice src a X).head? = (src.drop a).head? := by
  simp only [slice]
  cases hd : src.drop a with
  | nil => simp
  | cons x xs =>
    have h2 : X - a = (X - a - 1) + 1 := by omega
    rw [h2]
    simp [List.take_succ_cons]

theorem is_discard_mode_false_cons (c : Char) (B : List Char) :
    is_discard_mode false (c :: B) =
      if Lexer.is_ws c then is_discard_mode false B
      else if c = '/' then
        (match B with
         | d :: rest2 => if d = '/' then is_discard_mode true rest2 else false
         | [] => false)
      else false := by
  conv_lhs => rw [is_discard_mode.eq_def]

theorem is_discard_mode_true_cons (c : Char) (B : List Char) :
    is_discard_mode true (c :: B) =
      if c = '\n' then is_discard_mode false B else is_discard_mode true B := by
  conv_lhs => rw [is_discard_mode.eq_def]

theorem is_discard_ws_cons {c : Char} (hc : Lexer.is_ws c = true) (B : List Char) :
    is_discard (c :: B) = is_discard B := by
  simp only [is_discard, is_discard_mode_false_cons]
  rw [if_pos hc]

theorem is_discard_mode_true_append {t B : List Char}
    (ht : ∀ x ∈ t, x ≠ '\n') (hB : B = [] ∨ B.head? = some '\n')
    (hd : is_discard B = true) :
    is_discard_mode true (t ++ B) = true := by
  induction t with
  | nil =>
    simp only [List.nil_append]
    rcases hB with hB | hB
    · subst hB; rfl
    · cases B with
      | nil => rfl
      | cons b B2 =>
        simp only [List.head?_cons, Option.some.injEq] at hB
        subst hB
        rw [is_discard_mode_true_cons, if_pos rfl]
        rw [is_discard, is_discard_mode_false_cons, if_pos (by decide)] at hd
        exact hd
  | cons x xs ih =>
    have hx : x ≠ '\n' := ht x (by simp)
    rw [List.cons_append, is_discard_mode_true_cons, if_neg hx]
    exact ih (fun y hy => ht y (by simp [hy]))

theorem is_discard_comment {t B : List Char}
    (ht : ∀ x ∈ t, x ≠ '\n') (hB : B = [] ∨ B.head? = some '\n')
    (hd : is_discard B = true) :
    is_discard ('/' :: '/' :: (t ++ B)) = true := by
  rw [is_discard, is_discard_mode_false_cons, if_neg (by decide), if_pos rfl]
  exact is_discard_mode_true_append ht hB hd

theorem dropWhile_head_shape (p : Char → Bool) (l : List Char) :
    l.dropWhile p = [] ∨ ∃ x xs, l.dropWhile p = x :: xs ∧ p x = false := by
  induction l with
  | nil => simp
  | cons c cs ih =>
    by_cases h : p c
    · simpa [List.dropWhile, h] using ih
    · right
      exact ⟨c, cs, by simp [List.dropWhile, h], by simp [h]⟩

theorem is_discard_chunk_append {src : List Char} {off off2 : Nat}
    (hchunk : DiscardChunk src off off2) (Y : List Char)
    (hY : (src.drop off2 = [] ∨ (src.drop off2).head? = some '\n') →
      Y = [] ∨ Y.head? = some '\n')
    (hdY : is_discard Y = true) :
    is_discard (slice src off off2 ++ Y) = true := by
  rcases hchunk with ⟨c, hsl, hws⟩ | ⟨t, hsl, ht, hnext⟩
  · rw [hsl]
    have h2 : [c] ++ Y = c :: Y := rfl
    rw [h2, is_discard_ws_cons hws]
    exact hdY
  · rw [hsl]
    have h2 : ('/' :: '/' :: t) ++ Y = '/' :: '/' :: (t ++ Y) := rfl
    rw [h2]
    exact is_discard_comment ht (hY hnext) hdY

theorem discard_prepend (src : List Char) (off off2 : Nat) (toks : List Token)
    (h1 : off ≤ off2) (h2 : off2 ≤ src.length)
    (hchunk : DiscardChunk src off off2)
    (hsp : spans_ok src off2 toks = true)
    (hrb : rebuild src off2 toks = src.drop off2) :
    spans_ok src off toks = true ∧ rebuild src off toks = src.drop off := by
  have hsplit : slice src off off2 ++ src.drop off2 = src.drop off := by
    have h3 := slice_append src h1 h2
    rw [slice_drop, slice_drop] at h3
    exact h3
  cases toks with
  | nil =>
    constructor
    · simp only [spans_ok]
      rw [← hsplit]
      apply is_discard_chunk_append hchunk
      · exact fun h => h
      · simpa only [spans_ok] using hsp
    · simp only [rebuild]
  | cons t ts =>
    simp only [spans_ok, Bool.and_eq_true, decide_eq_true_eq] at hsp
    obtain ⟨⟨⟨⟨⟨hp1, hp2⟩, hp3⟩, hp4⟩, hp5⟩, hp6⟩ := hsp
    constructor
    · simp only [spans_ok, Bool.and_eq_true, decide_eq_true_eq]
      refine ⟨⟨⟨⟨⟨by omega, hp2⟩, hp3⟩, ?_⟩, hp5⟩, hp6⟩
      have h4 : slice src off off2 ++ slice src off2 t.span.start =
          slice src off t.span.start := slice_append src h1 hp1
      rw [← h4]
      apply is_discard_chunk_append hchunk
      · intro hnext
        by_cases hoe : off2 < t.span.start
        · right
          rw [slice_head hoe]
          rcases hnext with h | h
          · exfalso
            have h5 := List.length_drop off2 src
            rw [h] at h5
            simp at h5
            omega
          · exact h
        · left
          have heq : off2 = t.span.start := by omega
          rw [← heq, slice_self]
      · exact hp4
    · simp only [rebuild] at hrb ⊢
      have h4 := slice_append src h1 hp1
      rw [← h4]
      simp only [List.append_assoc] at hrb ⊢
      rw [hrb]
      exact hsplit

set_option maxHeartbeats 1000000 in
/-- The scan loop, run with enough fuel on the rest of the source from
offset `off` and producing no errors, yields tokens that tile
`src.drop off`: ordered disjoint in-bounds spans whose lexemes are the
exact slices, with only whitespace/comments in the gaps, and interleaving
gaps with lexemes rebuilds the dropped suffix. -/
theorem scan_loop_covers (src : List Char) :
    ∀ (fuel off : Nat) (pos : SourcePos),
      src.length - off ≤ fuel →
      (Lexer.scan_loop fuel (src.drop off) off pos).2 = [] →
      spans_ok src off (Lexer.scan_loop fuel (src.drop off) off pos).1 = true ∧
      rebuild src off (Lexer.scan_loop fuel (src.drop off) off pos).1 = src.drop off := by
  intro fuel
  induction fuel with
  | zero =>
    intro off pos hf _herr
    have hlen := List.length_drop off src
    have hnil : src.drop off = [] := List.eq_nil_of_length_eq_zero (by omega)
    rw [hnil]
    constructor
    · simp only [Lexer.scan_loop, spans_ok]
      rw [hnil]
      rfl
    · simp only [Lexer.scan_loop, rebuild]
      rw [hnil]
  | succ fuel ih =>
    intro off pos hf herr
    rcases hdrop : src.drop off with _ | ⟨c, rest2⟩
    · rw [hdrop] at herr
      constructor
      · simp only [Lexer.scan_loop, spans_ok]
        rw [hdrop]
        rfl
      · simp only [Lexer.scan_loop, rebuild]
        rw [hdrop]
    · -- facts about the shapes involved
      have hrest2 : rest2 = src.drop (off + 1) := by
        have h0 := List.tail_drop src off
        rw [hdrop] at h0
        simpa using h0
      have hlensrc := List.length_drop off src
      have hlen : rest2.length + 1 = src.length - off := by
        have h0 := congrArg List.length hdrop
        simp only [List.length_cons] at h0
        omega
      rcases hstep : Lexer.scan_step c rest2 off pos with ⟨item, extra⟩
      have hpre : extra <+: rest2 := by
        have hp := scan_step_extra_prefix c rest2 off pos
        rw [hstep] at hp
        exact hp
      have htake : rest2.take extra.length = extra := prefix_take_eq hpre
      have hlext : extra.length ≤ rest2.length := hpre.length_le
      have hdrop2 : rest2.drop extra.length = src.drop (off + 1 + extra.length) := by
        rw [hrest2, List.drop_drop]
      have hbound : off + 1 + extra.length ≤ src.length := by omega
      have hfuel2 : src.length - (off + 1 + extra.length) ≤ fuel := by omega
      have hconsumed : slice src off (off + 1 + extra.length) = c :: extra := by
        simp only [slice]
        have h5 : off + 1 + extra.length - off = extra.length + 1 := by omega
        rw [h5, hdrop, List.take_succ_cons, htake]
      have happend : c :: extra ++ src.drop (off + 1 + extra.length) = src.drop off := by
        have h3 := List.take_append_drop extra.length rest2
        rw [htake] at h3
        rw [← hdrop2, hdrop]
        simpa using h3
      -- unfold one loop step
      rw [hdrop] at herr
      simp only [Lexer.scan_loop, hstep] at herr ⊢
      have hoffeq : off + (c :: extra).length = off + 1 + extra.length := by
        simp only [List.length_cons]
        omega
      rw [hoffeq, hdrop2] at herr ⊢
      rw [← hdrop]
      cases item with
      | err m =>
        simp at herr
      | tok t =>
        obtain ⟨hsp2, hrb2⟩ := ih (off + 1 + extra.length)
          (Lexer.advance_pos_list pos (c :: extra)) hfuel2 herr
        have hsh := scan_step_tok_shape c rest2 off pos t (by rw [hstep])
        rw [hstep] at hsh
        obtain ⟨hs1, hs2, hs3⟩ := hsh
        have hs2b : t.span.stop = off + 1 + extra.length := hs2
        have hs3b : t.lexeme.data = c :: extra := hs3
        constructor
        · simp only [spans_ok, Bool.and_eq_true, decide_eq_true_eq]
          refine ⟨⟨⟨⟨⟨?_, ?_⟩, ?_⟩, ?_⟩, ?_⟩, ?_⟩
          · omega
          · omega
          · omega
          · rw [hs1, slice_self]
            rfl
          · rw [hs3b, hs1, hs2b, hconsumed]
          · rw [hs2b]
            exact hsp2
        · simp only [rebuild]
          rw [hs1, hs3b, hs2b, slice_self, hrb2]
          simpa using happend
      | skip =>
        obtain ⟨hsp2, hrb2⟩ := ih (off + 1 + extra.length)
          (Lexer.advance_pos_list pos (c :: extra)) hfuel2 herr
        have hsh := scan_step_skip_shape c rest2 off pos (by rw [hstep])
        rw [hstep] at hsh
        have h2b : off + 1 + extra.length ≤ src.length := hbound
        rcases hsh with ⟨hws, hex⟩ | ⟨hc, hhead, hex⟩
        · -- single whitespace byte
          have hexb : extra = [] := hex
          refine discard_prepend src off (off + 1 + extra.length) _ (by omega) h2b ?_ hsp2 hrb2
          refine Or.inl ⟨c, ?_, hws⟩
          rw [hconsumed, hexb]
        · -- line comment
          have hexb : extra = '/' :: List.takeWhile (fun ch => ch ≠ '\n') rest2.tail := hex
          subst hc
          cases rest2 with
          | nil => simp at hhead
          | cons r rs =>
            simp only [List.head?_cons, Option.some.injEq] at hhead
            subst hhead
            refine discard_prepend src off (off + 1 + extra.length) _ (by omega) h2b ?_ hsp2 hrb2
            refine Or.inr ⟨List.takeWhile (fun ch => ch ≠ '\n') rs, ?_, ?_, ?_⟩
            · rw [hconsumed, hexb]
              rfl
            · intro x hx
              have hx2 := List.mem_takeWhile_imp hx
              simpa using hx2
            · -- the byte after the comment is a newline (or the end)
              rw [← hdrop2, hexb]
              have hsplitrs := List.takeWhile_append_dropWhile (fun ch => ch ≠ '\n') rs
              have hdl : rs.drop (List.takeWhile (fun ch => ch ≠ '\n') rs).length =
                  List.dropWhile (fun ch => ch ≠ '\n') rs := by
                nth_rewrite 2 [← hsplitrs]
                rw [List.drop_left]
              have hstep2 : ('/' :: rs).drop ('/' :: List.takeWhile (fun ch => ch ≠ '\n') ('/' :: rs).tail).length =
                  rs.drop (List.takeWhile (fun ch => ch ≠ '\n') rs).length := by
                simp
              rw [hstep2, hdl]
              rcases dropWhile_head_shape (fun ch => ch ≠ '\n') rs with h | ⟨x, xs, hx1, hx2⟩
              · exact Or.inl h
              · right
                rw [hx1]
                simp only [List.head?_cons, Option.some.injEq]
                simpa using hx2

/-- C10: for every source that scans with no lexical errors, the token
spans (excluding the zero-length EOF sentinel) are in increasing order,
disjoint, in bounds, each lexeme equals its span's slice, every gap
between consecutive spans (and before the first / after the last) consists
solely of whitespace and `//` comments, and interleaving those gap bytes
with the lexemes in source order reconstructs the source exactly. -/
theorem claim_C10 (source : List Char)
    (h : (Lexer.scan_tokens source).2 = []) :
    spans_ok source 0 ((Lexer.scan_tokens source).1.dropLast) = true ∧
    rebuild source 0 ((Lexer.scan_tokens source).1.dropLast) = source := by
  have h2 : (Lexer.scan_loop source.length (source.drop 0) 0 { line := 1, col := 1 }).2 = [] := h
  have hmain := scan_loop_covers source source.length 0 { line := 1, col := 1 } (by omega) h2
  simp only [Lexer.scan_tokens, List.dropLast_concat]
  simpa using hmain

theorem claim_C10_witness :
    spans_ok c10_source 0 ((Lexer.scan_tokens c10_source).1.dropLast) = true ∧
    rebuild c10_source 0 ((Lexer.scan_tokens c10_source).1.dropLast) = c10_source :=
  claim_C10 c10_source (by rfl)

namespace Parsing

theorem advance_errors (s : PState) : s.advance.errors = s.errors := by
  simp only [PState.advance]
  split <;> rfl

theorem advance_tokens (s : PState) : s.advance.tokens = s.tokens := by
  simp only [PState.advance]
  split <;> rfl

theorem advance_current {s : PState} (h : s.is_at_end = false) :
    s.advance.current = s.current + 1 := by
  simp only [PState.advance, h]
  rfl

theorem advance_previous {s : PState} (h : s.is_at_end = false) :
    s.advance.previous = s.peek := by
  simp only [PState.advance, h, Bool.false_eq_true, if_false, PState.previous, PState.peek]
  simp

theorem check_facts {s : PState} {t : TokenType} (h : s.check t = true) :
    s.is_at_end = false ∧ s.peek.type = t := by
  simp only [PState.check] at h
  cases he : s.is_at_end with
  | true => rw [he] at h; simp at h
  | false =>
    rw [he] at h
    simp only [Bool.false_eq_true, if_false, decide_eq_true_eq] at h
    exact ⟨rfl, h⟩

theorem match_true {s : PState} {ts : List TokenType}
    (h : (s.match_types ts).1 = true) :
    (s.match_types ts).2 = s.advance ∧ s.is_at_end = false := by
  simp only [PState.match_types] at h ⊢
  cases ha : ts.any (fun t => s.check t) with
  | false => rw [ha] at h; simp at h
  | true =>
    rw [if_pos rfl]
    refine ⟨rfl, ?_⟩
    rw [List.any_eq_true] at ha
    obtain ⟨t, _, ht⟩ := ha
    exact (check_facts ht).1

theorem match_false {s : PState} {ts : List TokenType}
    (h : (s.match_types ts).1 = false) : (s.match_types ts).2 = s := by
  simp only [PState.match_types] at h ⊢
  cases ha : ts.any (fun t => s.check t) with
  | true => rw [ha] at h; simp at h
  | false => simp

theorem consume_ok {s : PState} {t : TokenType} {msg : String} {s' : PState} {tk : Token}
    (h : s.consume t msg = (s', .ok tk)) :
    tk = s.peek ∧ s.peek.type = t ∧ s' = s.advance ∧ s.is_at_end = false := by
  simp only [PState.consume] at h
  by_cases hc : s.check t = true
  · rw [if_pos hc] at h
    obtain ⟨he, hp⟩ := check_facts hc
    injection h with h1 h2
    injection h2 with h2
    exact ⟨h2.symm, hp, h1.symm, he⟩
  · rw [if_neg hc] at h
    injection h with h1 h2
    exact absurd h2 (by simp)

theorem consume_ext (s : PState) (t : TokenType) (msg : String) :
    ErrExt s (s.consume t msg).1 := by
  simp only [PState.consume]
  by_cases hc : s.check t = true
  · rw [if_pos hc]
    exact ⟨[], by simp [advance_errors]⟩
  · rw [if_neg hc]
    exact ⟨[Lexer.format_pos_error s.peek.span.pos msg], by simp [PState.add_error]⟩

theorem sync_loop_errors : ∀ (fuel : Nat) (s : PState),
    (sync_loop fuel s).errors = s.errors := by
  intro fuel
  induction fuel with
  | zero => intro s; rfl
  | succ fuel ih =>
    intro s
    simp only [sync_loop]
    split
    · rfl
    · split
      · rfl
      · split <;> first | rfl | (rw [ih, advance_errors])

theorem synchronize_errors (s : PState) : (synchronize s).errors = s.errors := by
  simp only [synchronize, sync_loop_errors, advance_errors]

theorem ext_rfl (s : PState) : ErrExt s s := ⟨[], by simp⟩

theorem ext_of_eq {a b : PState} (h : b.errors = a.errors) : ErrExt a b :=
  ⟨[], by simp [h]⟩

theorem ext_trans {a b c : PState} (h1 : ErrExt a b) (h2 : ErrExt b c) : ErrExt a c := by
  obtain ⟨l1, h1⟩ := h1
  obtain ⟨l2, h2⟩ := h2
  exact ⟨l1 ++ l2, by rw [h2, h1, List.append_assoc]⟩

theorem ext_squeeze {a b c : PState} (h1 : ErrExt a b) (h2 : ErrExt b c)
    (hg : c.errors = a.errors) : b.errors = a.errors := by
  obtain ⟨l1, h1⟩ := h1
  obtain ⟨l2, h2⟩ := h2
  rw [h1] at h2 ⊢
  rw [h2] at hg
  have hlen := congrArg List.length hg
  simp only [List.length_append] at hlen
  have h0 : l1 = [] := List.eq_nil_of_length_eq_zero (by omega)
  simp [h0]

theorem tok_at_advance (s : PState) (i : Nat) : tok_at s.advance i = tok_at s i := by
  simp [tok_at, advance_tokens]

@[simp] theorem ends_exprStmt (e : Expr) (sp : Span) :
    ends_in_return_value (.exprStmt e sp) = false := rfl

@[simp] theorem ends_letStmt (n : TextInfo) (e : Expr) (sp : Span) :
    ends_in_return_value (.letStmt n e sp) = false := rfl

@[simp] theorem ends_block (l : List Stmt) (sp : Span) :
    ends_in_return_value (.block l sp) = false := rfl

@[simp] theorem ends_if_none (c : Expr) (t : Stmt) (sp : Span) :
    ends_in_return_value (.ifStmt c t none sp) = ends_in_return_value t := rfl

@[simp] theorem ends_if_some (c : Expr) (t e : Stmt) (sp : Span) :
    ends_in_return_value (.ifStmt c t (some e) sp) = ends_in_return_value e := rfl

@[simp] theorem ends_while (c : Expr) (b : Stmt) (sp : Span) :
    ends_in_return_value (.whileStmt c b sp) = true → ends_in_return_value b = true := by
  intro h
  simpa [ends_in_return_value] using h

@[simp] theorem ends_while_eq (c : Expr) (b : Stmt) (sp : Span) :
    ends_in_return_value (.whileStmt c b sp) = ends_in_return_value b := rfl

@[simp] theorem ends_breakStmt (sp : Span) :
    ends_in_return_value (.breakStmt sp) = false := rfl

@[simp] theorem ends_continueStmt (sp : Span) :
    ends_in_return_value (.continueStmt sp) = false := rfl

@[simp] theorem ends_return_none (sp : Span) :
    ends_in_return_value (.returnStmt none sp) = false := rfl

@[simp] theorem ends_return_some (v : Expr) (sp : Span) :
    ends_in_return_value (.returnStmt (some v) sp) = true := rfl

@[simp] theorem ends_fnStmt (n : TextInfo) (ps : List TextInfo) (b : List Stmt) (sp : Span) :
    ends_in_return_value (.fnStmt n ps b sp) = false := rfl

theorem params_step (fuel : Nat)
    (ihParams : ∀ s acc, ErrExt s (params_loop fuel s acc).1) :
    ∀ s acc, ErrExt s (params_loop (fuel + 1) s acc).1 := by
  intro s acc
  simp only [params_loop]
  by_cases hm : (s.match_types [.COMMA]).1 = true
  · rw [if_pos hm]
    obtain ⟨hadv, hend⟩ := match_true hm
    rw [hadv]
    rcases hc : s.advance.consume .IDENTIFIER "Expect parameter name." with ⟨s1, o1⟩
    have hE1 : ErrExt s.advance s1 := by
      have h := consume_ext s.advance .IDENTIFIER "Expect parameter name."
      rw [hc] at h
      exact h
    have hE0 : ErrExt s s.advance := ext_of_eq (advance_errors s)
    cases o1 with
    | ok param => exact ext_trans (ext_trans hE0 hE1) (ihParams s1 _)
    | perr => exact ext_trans hE0 hE1
    | fuelOut => exact ext_trans hE0 hE1
  · rw [if_neg hm]
    exact ext_rfl s

theorem args_step (fuel : Nat)
    (ihExpr : ∀ s, ExprProp s (parse_expression fuel s))
    (ihArgs : ∀ s acc, ErrExt s (args_loop fuel s acc).1) :
    ∀ s acc, ErrExt s (args_loop (fuel + 1) s acc).1 := by
  intro s acc
  simp only [args_loop]
  by_cases hm : (s.match_types [.COMMA]).1 = true
  · rw [if_pos hm]
    obtain ⟨hadv, hend⟩ := match_true hm
    rw [hadv]
    rcases hx : parse_expression fuel s.advance with ⟨s1, o1⟩
    have hE1 : ErrExt s.advance s1 := by
      have h := (ihExpr s.advance).1
      rw [hx] at h
      exact h
    have hE0 : ErrExt s s.advance := ext_of_eq (advance_errors s)
    cases o1 with
    | ok arg => exact ext_trans (ext_trans hE0 hE1) (ihArgs s1 _)
    | perr => exact ext_trans hE0 hE1
    | fuelOut => exact ext_trans hE0 hE1
  · rw [if_neg hm]
    exact ext_rfl s

theorem slist_step (fuel : Nat)
    (ihDecl : ∀ s, DeclProp s (parse_declaration fuel s))
    (ihSList : ∀ s acc, ErrExt s (stmt_list_loop fuel s acc).1) :
    ∀ s acc, ErrExt s (stmt_list_loop (fuel + 1) s acc).1 := by
  intro s acc
  simp only [stmt_list_loop]
  by_cases hcnd : (!s.check .RIGHT_BRACE && !s.is_at_end) = true
  · rw [if_pos hcnd]
    rcases hd : parse_declaration fuel s with ⟨s1, o1⟩
    have hE1 : ErrExt s s1 := by
      have h := (ihDecl s).1
      rw [hd] at h
      exact h
    cases o1 with
    | ok ost =>
      cases ost with
      | some st => exact ext_trans hE1 (ihSList s1 _)
      | none => exact ext_trans hE1 (ihSList s1 _)
    | perr => exact hE1
    | fuelOut => exact hE1
  · rw [if_neg hcnd]
    exact ext_rfl s

theorem break_step (fuel : Nat) :
    ∀ s, StmtProp s.previous s (break_statement (fuel + 1) s) := by
  intro s
  simp only [StmtProp, break_statement]
  rcases hc : s.consume .SEMICOLON "Expect \x27;\x27 after \x27break\x27." with ⟨s1, o1⟩
  have hE1 : ErrExt s s1 := by
    have h := consume_ext s .SEMICOLON "Expect \x27;\x27 after \x27break\x27."
    rw [hc] at h
    exact h
  cases o1 with
  | ok semi =>
    obtain ⟨htk, hty, hs1, hend⟩ := consume_ok hc
    dsimp only
    refine ⟨hE1, ?_⟩
    intro st hst
    injection hst with hst
    subst hst
    refine ⟨⟨rfl, rfl⟩, ?_⟩
    intro _
    simp only [StmtStops, ends_breakStmt, Bool.false_eq_true, if_false]
    rw [hs1, advance_previous hend, ← htk]
    rfl
  | perr =>
    refine ⟨hE1, ?_⟩
    intro st hst
    simp at hst
  | fuelOut =>
    refine ⟨hE1, ?_⟩
    intro st hst
    simp at hst

theorem continue_step (fuel : Nat) :
    ∀ s, StmtProp s.previous s (continue_statement (fuel + 1) s) := by
  intro s
  simp only [StmtProp, continue_statement]
  rcases hc : s.consume .SEMICOLON "Expect \x27;\x27 after \x27continue\x27." with ⟨s1, o1⟩
  have hE1 : ErrExt s s1 := by
    have h := consume_ext s .SEMICOLON "Expect \x27;\x27 after \x27continue\x27."
    rw [hc] at h
    exact h
  cases o1 with
  | ok semi =>
    obtain ⟨htk, hty, hs1, hend⟩ := consume_ok hc
    dsimp only
    refine ⟨hE1, ?_⟩
    intro st hst
    injection hst with hst
    subst hst
    refine ⟨⟨rfl, rfl⟩, ?_⟩
    intro _
    simp only [StmtStops, ends_continueStmt, Bool.false_eq_true, if_false]
    rw [hs1, advance_previous hend, ← htk]
    rfl
  | perr =>
    refine ⟨hE1, ?_⟩
    intro st hst
    simp at hst
  | fuelOut =>
    refine ⟨hE1, ?_⟩
    intro st hst
    simp at hst

theorem primary_step (fuel : Nat)
    (ihExpr : ∀ s, ExprProp s (parse_expression fuel s)) :
    ∀ s, ExprProp s (parse_primary (fuel + 1) s) := by
  intro s
  simp only [ExprProp, parse_primary]
  by_cases hm1 : (s.match_types [.NUMBER, .TRUE, .FALSE]).1 = true
  · rw [if_pos hm1]
    obtain ⟨hadv, hend⟩ := match_true hm1
    rw [hadv]
    dsimp only
    rw [advance_previous hend]
    refine ⟨ext_of_eq (advance_errors s), ?_⟩
    intro e he
    injection he with he
    subst he
    exact ⟨⟨rfl, rfl⟩, fun _ => rfl⟩
  · rw [if_neg hm1]
    by_cases hm2 : (s.match_types [.IDENTIFIER]).1 = true
    · rw [if_pos hm2]
      obtain ⟨hadv, hend⟩ := match_true hm2
      rw [hadv]
      dsimp only
      rw [advance_previous hend]
      refine ⟨ext_of_eq (advance_errors s), ?_⟩
      intro e he
      injection he with he
      subst he
      exact ⟨⟨rfl, rfl⟩, fun _ => rfl⟩
    · rw [if_neg hm2]
      by_cases hm3 : (s.match_types [.LEFT_PAREN]).1 = true
      · rw [if_pos hm3]
        obtain ⟨hadv, hend⟩ := match_true hm3
        rw [hadv]
        rcases hx : parse_expression fuel s.advance with ⟨s1, o1⟩
        have hE1 : ErrExt s.advance s1 := by
          have h := (ihExpr s.advance).1
          rw [hx] at h
          exact h
        have hE0 : ErrExt s s.advance := ext_of_eq (advance_errors s)
        cases o1 with
        | ok expr =>
          dsimp only
          rcases hcr : s1.consume .RIGHT_PAREN "Expect \x27)\x27 after expression." with ⟨s2, o2⟩
          have hE2 : ErrExt s1 s2 := by
            have h := consume_ext s1 .RIGHT_PAREN "Expect \x27)\x27 after expression."
            rw [hcr] at h
            exact h
          cases o2 with
          | ok right =>
            obtain ⟨htk, hty, hs2, hend2⟩ := consume_ok hcr
            dsimp only
            rw [advance_previous hend]
            refine ⟨ext_trans hE0 (ext_trans hE1 hE2), ?_⟩
            intro e he
            injection he with he
            subst he
            refine ⟨⟨rfl, rfl⟩, ?_⟩
            intro _
            rw [hs2, advance_previous hend2, ← htk]
            rfl
          | perr =>
            refine ⟨ext_trans hE0 (ext_trans hE1 hE2), ?_⟩
            intro e he
            simp at he
          | fuelOut =>
            refine ⟨ext_trans hE0 (ext_trans hE1 hE2), ?_⟩
            intro e he
            simp at he
        | perr =>
          refine ⟨ext_trans hE0 hE1, ?_⟩
          intro e he
          simp at he
        | fuelOut =>
          refine ⟨ext_trans hE0 hE1, ?_⟩
          intro e he
          simp at he
      · rw [if_neg hm3]
        refine ⟨⟨[Lexer.format_pos_error s.peek.span.pos "Expect expression."],
          by simp [PState.add_error]⟩, ?_⟩
        intro e he
        simp at he

theorem let_step (fuel : Nat)
    (ihExpr : ∀ s, ExprProp s (parse_expression fuel s)) :
    ∀ s, StmtProp s.previous s (let_declaration (fuel + 1) s) := by
  intro s
  simp only [StmtProp, let_declaration]
  rcases hc1 : s.consume .IDENTIFIER "Expect variable name after \x27let\x27." with ⟨s1, o1⟩
  have hE1 : ErrExt s s1 := by
    have h := consume_ext s .IDENTIFIER "Expect variable name after \x27let\x27."
    rw [hc1] at h
    exact h
  cases o1 with
  | perr => exact ⟨hE1, by intro st hst; simp at hst⟩
  | fuelOut => exact ⟨hE1, by intro st hst; simp at hst⟩
  | ok name =>
    dsimp only
    rcases hc2 : s1.consume .EQUAL "Expect \x27=\x27 after variable name." with ⟨s2, o2⟩
    have hE2 : ErrExt s1 s2 := by
      have h := consume_ext s1 .EQUAL "Expect \x27=\x27 after variable name."
      rw [hc2] at h
      exact h
    cases o2 with
    | perr => exact ⟨ext_trans hE1 hE2, by intro st hst; simp at hst⟩
    | fuelOut => exact ⟨ext_trans hE1 hE2, by intro st hst; simp at hst⟩
    | ok eqtk =>
      dsimp only
      rcases hx : parse_expression fuel s2 with ⟨s3, o3⟩
      have hE3 : ErrExt s2 s3 := by
        have h := (ihExpr s2).1
        rw [hx] at h
        exact h
      cases o3 with
      | perr => exact ⟨ext_trans (ext_trans hE1 hE2) hE3, by intro st hst; simp at hst⟩
      | fuelOut => exact ⟨ext_trans (ext_trans hE1 hE2) hE3, by intro st hst; simp at hst⟩
      | ok initializer =>
        dsimp only
        rcases hc4 : s3.consume .SEMICOLON "Expect \x27;\x27 after variable declaration." with ⟨s4, o4⟩
        have hE4 : ErrExt s3 s4 := by
          have h := consume_ext s3 .SEMICOLON "Expect \x27;\x27 after variable declaration."
          rw [hc4] at h
          exact h
        have hEall : ErrExt s s4 := ext_trans (ext_trans (ext_trans hE1 hE2) hE3) hE4
        cases o4 with
        | perr => exact ⟨hEall, by intro st hst; simp at hst⟩
        | fuelOut => exact ⟨hEall, by intro st hst; simp at hst⟩
        | ok semi =>
          obtain ⟨htk, hty, hs4, hend4⟩ := consume_ok hc4
          dsimp only
          refine ⟨hEall, ?_⟩
          intro st hst
          injection hst with hst
          subst hst
          refine ⟨⟨rfl, rfl⟩, ?_⟩
          intro _
          simp only [StmtStops, ends_letStmt, Bool.false_eq_true, if_false]
          rw [hs4, advance_previous hend4, ← htk]
          rfl

theorem exprstmt_step (fuel : Nat)
    (ihExpr : ∀ s, ExprProp s (parse_expression fuel s)) :
    ∀ s, StmtProp s.peek s (expression_statement (fuel + 1) s) := by
  intro s
  simp only [StmtProp, expression_statement]
  rcases hx : parse_expression fuel s with ⟨s1, o1⟩
  have hE1 : ErrExt s s1 := by
    have h := (ihExpr s).1
    rw [hx] at h
    exact h
  cases o1 with
  | perr => exact ⟨hE1, by intro st hst; simp at hst⟩
  | fuelOut => exact ⟨hE1, by intro st hst; simp at hst⟩
  | ok expr =>
    dsimp only
    have hstart := ((ihExpr s).2 expr (by rw [hx])).1
    rcases hc2 : s1.consume .SEMICOLON "Expect \x27;\x27 after expression." with ⟨s2, o2⟩
    have hE2 : ErrExt s1 s2 := by
      have h := consume_ext s1 .SEMICOLON "Expect \x27;\x27 after expression."
      rw [hc2] at h
      exact h
    cases o2 with
    | perr => exact ⟨ext_trans hE1 hE2, by intro st hst; simp at hst⟩
    | fuelOut => exact ⟨ext_trans hE1 hE2, by intro st hst; simp at hst⟩
    | ok semi =>
      obtain ⟨htk, hty, hs2, hend2⟩ := consume_ok hc2
      dsimp only
      refine ⟨ext_trans hE1 hE2, ?_⟩
      intro st hst
      injection hst with hst
      subst hst
      refine ⟨⟨hstart.1, hstart.2⟩, ?_⟩
      intro _
      simp only [StmtStops, ends_exprStmt, Bool.false_eq_true, if_false]
      rw [hs2, advance_previous hend2, ← htk]
      rfl

theorem block_step (fuel : Nat)
    (ihSList : ∀ s acc, ErrExt s (stmt_list_loop fuel s acc).1) :
    ∀ lb s, StmtProp lb s (block_statement (fuel + 1) lb s) := by
  intro lb s
  simp only [StmtProp, block_statement]
  rcases hl : stmt_list_loop fuel s [] with ⟨s1, o1⟩
  have hE1 : ErrExt s s1 := by
    have h := ihSList s []
    rw [hl] at h
    exact h
  cases o1 with
  | perr => exact ⟨hE1, by intro st hst; simp at hst⟩
  | fuelOut => exact ⟨hE1, by intro st hst; simp at hst⟩
  | ok statements =>
    dsimp only
    rcases hc2 : s1.consume .RIGHT_BRACE "Expect \x27\x7d\x27 after block." with ⟨s2, o2⟩
    have hE2 : ErrExt s1 s2 := by
      have h := consume_ext s1 .RIGHT_BRACE "Expect \x27\x7d\x27 after block."
      rw [hc2] at h
      exact h
    cases o2 with
    | perr => exact ⟨ext_trans hE1 hE2, by intro st hst; simp at hst⟩
    | fuelOut => exact ⟨ext_trans hE1 hE2, by intro st hst; simp at hst⟩
    | ok right_brace =>
      obtain ⟨htk, hty, hs2, hend2⟩ := consume_ok hc2
      dsimp only
      refine ⟨ext_trans hE1 hE2, ?_⟩
      intro st hst
      injection hst with hst
      subst hst
      refine ⟨⟨rfl, rfl⟩, ?_⟩
      intro _
      simp only [StmtStops, ends_block, Bool.false_eq_true, if_false]
      rw [hs2, advance_previous hend2, ← htk]
      rfl

theorem expr_step (fuel : Nat)
    (ihAssign : ∀ s, ExprProp s (parse_assignment fuel s)) :
    ∀ s, ExprProp s (parse_expression (fuel + 1) s) := by
  intro s
  simp only [parse_expression]
  exact ihAssign s

theorem binloop_step (fuel : Nat)
    (ihBinLvl : ∀ lvl s, ExprProp s (binary_level fuel lvl s))
    (ihBinLoop : ∀ lvl expr s, GrowProp expr s (binary_loop fuel lvl expr s)) :
    ∀ lvl expr s, GrowProp expr s (binary_loop (fuel + 1) lvl expr s) := by
  intro lvl expr s
  simp only [GrowProp, binary_loop]
  by_cases hm : (s.match_types (level_ops lvl)).1 = true
  · rw [if_pos hm]
    obtain ⟨hadv, hend⟩ := match_true hm
    rw [hadv]
    rcases hb : binary_level fuel (lvl + 1) s.advance with ⟨s1, o1⟩
    have hE1 : ErrExt s s1 := by
      have h := (ihBinLvl (lvl + 1) s.advance).1
      rw [hb] at h
      exact ext_trans (ext_of_eq (advance_errors s)) h
    cases o1 with
    | perr => exact ⟨hE1, by intro e he; simp at he⟩
    | fuelOut => exact ⟨hE1, by intro e he; simp at he⟩
    | ok right =>
      dsimp only
      rw [advance_previous hend]
      rcases hlp : binary_loop fuel lvl
          (.binary expr { type := s.peek.type, span := s.peek.span } right
            (span_from expr.span right.span)) s1 with ⟨s2, o2⟩
      have hGrow := ihBinLoop lvl
        (.binary expr { type := s.peek.type, span := s.peek.span } right
          (span_from expr.span right.span)) s1
      rw [hlp] at hGrow
      obtain ⟨hE2, hG⟩ := hGrow
      refine ⟨ext_trans hE1 hE2, ?_⟩
      intro e he
      have hg := hG e he
      refine ⟨⟨hg.1.1, hg.1.2⟩, ?_⟩
      intro hgu hinput
      have hg1 : s1.errors = s.errors := ext_squeeze hE1 hE2 hgu
      have hgseg : s2.errors = s1.errors := by rw [hgu, hg1]
      have hgadv : s1.errors = s.advance.errors := by rw [hg1, advance_errors]
      have hrstop := ((ihBinLvl (lvl + 1) s.advance).2 right (by rw [hb])).2
      rw [hb] at hrstop
      have hr := hrstop hgadv
      have hinput2 : (Expr.span (.binary expr { type := s.peek.type, span := s.peek.span } right
          (span_from expr.span right.span))).stop = s1.previous.span.stop := hr
      exact hg.2 hgseg hinput2
  · rw [if_neg hm]
    refine ⟨ext_rfl s, ?_⟩
    intro e he
    injection he with he
    subst he
    exact ⟨⟨rfl, rfl⟩, fun _ hinput => hinput⟩

theorem binlvl_step (fuel : Nat)
    (ihBinLvl : ∀ lvl s, ExprProp s (binary_level fuel lvl s))
    (ihBinLoop : ∀ lvl expr s, GrowProp expr s (binary_loop fuel lvl expr s))
    (ihUnary : ∀ s, ExprProp s (parse_unary fuel s)) :
    ∀ lvl s, ExprProp s (binary_level (fuel + 1) lvl s) := by
  intro lvl s
  simp only [binary_level]
  by_cases hl : lvl ≥ 6
  · rw [if_pos hl]
    exact ihUnary s
  · rw [if_neg hl]
    rcases hb : binary_level fuel (lvl + 1) s with ⟨s1, o1⟩
    have hE1 : ErrExt s s1 := by
      have h := (ihBinLvl (lvl + 1) s).1
      rw [hb] at h
      exact h
    cases o1 with
    | perr => exact ⟨hE1, by intro e he; simp at he⟩
    | fuelOut => exact ⟨hE1, by intro e he; simp at he⟩
    | ok expr =>
      dsimp only
      have hstart := ((ihBinLvl (lvl + 1) s).2 expr (by rw [hb])).1
      have hstop := ((ihBinLvl (lvl + 1) s).2 expr (by rw [hb])).2
      rw [hb] at hstop
      rcases hlp : binary_loop fuel lvl expr s1 with ⟨s2, o2⟩
      have hGrow := ihBinLoop lvl expr s1
      rw [hlp] at hGrow
      obtain ⟨hE2, hG⟩ := hGrow
      refine ⟨ext_trans hE1 hE2, ?_⟩
      intro e he
      have hg := hG e he
      refine ⟨⟨hg.1.1.trans hstart.1, hg.1.2.trans hstart.2⟩, ?_⟩
      intro hgu
      have hg1 : s1.errors = s.errors := ext_squeeze hE1 hE2 hgu
      have hgseg : s2.errors = s1.errors := by rw [hgu, hg1]
      exact hg.2 hgseg (hstop hg1)

theorem unary_step (fuel : Nat)
    (ihUnary : ∀ s, ExprProp s (parse_unary fuel s))
    (ihCall : ∀ s, ExprProp s (parse_call fuel s)) :
    ∀ s, ExprProp s (parse_unary (fuel + 1) s) := by
  intro s
  simp only [ExprProp, parse_unary]
  by_cases hm : (s.match_types [.BANG, .MINUS]).1 = true
  · rw [if_pos hm]
    obtain ⟨hadv, hend⟩ := match_true hm
    rw [hadv, advance_previous hend]
    rcases hu : parse_unary fuel s.advance with ⟨s1, o1⟩
    have hU := ihUnary s.advance
    rw [hu] at hU
    obtain ⟨hE1, hUo⟩ := hU
    have hE : ErrExt s s1 := ext_trans (ext_of_eq (advance_errors s)) hE1
    cases o1 with
    | perr => exact ⟨hE, by intro e he; simp at he⟩
    | fuelOut => exact ⟨hE, by intro e he; simp at he⟩
    | ok right =>
      dsimp only
      refine ⟨hE, ?_⟩
      intro e he
      injection he with he
      subst he
      have hRf := hUo right rfl
      refine ⟨⟨rfl, rfl⟩, ?_⟩
      intro hg
      have hgseg : s1.errors = s.advance.errors := by rw [hg, advance_errors]
      exact hRf.2 hgseg
  · rw [if_neg hm]
    exact ihCall s

theorem call_step (fuel : Nat)
    (ihPrimary : ∀ s, ExprProp s (parse_primary fuel s))
    (ihCallLoop : ∀ expr s, GrowProp expr s (call_loop fuel expr s)) :
    ∀ s, ExprProp s (parse_call (fuel + 1) s) := by
  intro s
  simp only [ExprProp, parse_call]
  rcases hp : parse_primary fuel s with ⟨s1, o1⟩
  have hPrim := ihPrimary s
  rw [hp] at hPrim
  obtain ⟨hE1, hP⟩ := hPrim
  cases o1 with
  | perr => exact ⟨hE1, by intro e he; simp at he⟩
  | fuelOut => exact ⟨hE1, by intro e he; simp at he⟩
  | ok expr =>
    dsimp only
    rcases hlp : call_loop fuel expr s1 with ⟨s2, o2⟩
    have hGrow := ihCallLoop expr s1
    rw [hlp] at hGrow
    obtain ⟨hE2, hG⟩ := hGrow
    have hPf := hP expr rfl
    refine ⟨ext_trans hE1 hE2, ?_⟩
    intro e he
    have hg := hG e he
    refine ⟨⟨hg.1.1.trans hPf.1.1, hg.1.2.trans hPf.1.2⟩, ?_⟩
    intro hgu
    have hg1 : s1.errors = s.errors := ext_squeeze hE1 hE2 hgu
    have hgseg : s2.errors = s1.errors := by rw [hgu, hg1]
    exact hg.2 hgseg (hPf.2 hg1)

theorem callloop_step (fuel : Nat)
    (ihFinish : ∀ callee s, CallProp callee s (finish_call fuel callee s))
    (ihCallLoop : ∀ expr s, GrowProp expr s (call_loop fuel expr s)) :
    ∀ expr s, GrowProp expr s (call_loop (fuel + 1) expr s) := by
  intro expr s
  simp only [GrowProp, call_loop]
  by_cases hm : (s.match_types [.LEFT_PAREN]).1 = true
  · rw [if_pos hm]
    obtain ⟨hadv, hend⟩ := match_true hm
    rw [hadv]
    rcases hf : finish_call fuel expr s.advance with ⟨s1, o1⟩
    have hCall := ihFinish expr s.advance
    rw [hf] at hCall
    obtain ⟨hEf, hCf⟩ := hCall
    have hE1 : ErrExt s s1 := ext_trans (ext_of_eq (advance_errors s)) hEf
    cases o1 with
    | perr => exact ⟨hE1, by intro e he; simp at he⟩
    | fuelOut => exact ⟨hE1, by intro e he; simp at he⟩
    | ok expr2 =>
      dsimp only
      rcases hlp : call_loop fuel expr2 s1 with ⟨s2, o2⟩
      have hGrow := ihCallLoop expr2 s1
      rw [hlp] at hGrow
      obtain ⟨hE2, hG⟩ := hGrow
      have hCfacts := hCf expr2 rfl
      refine ⟨ext_trans hE1 hE2, ?_⟩
      intro e he
      have hg := hG e he
      refine ⟨⟨hg.1.1.trans hCfacts.1.1, hg.1.2.trans hCfacts.1.2⟩, ?_⟩
      intro hgu hinput
      have hg1 : s1.errors = s.errors := ext_squeeze hE1 hE2 hgu
      have hgseg : s2.errors = s1.errors := by rw [hgu, hg1]
      have hgf : s1.errors = s.advance.errors := by rw [hg1, advance_errors]
      exact hg.2 hgseg (hCfacts.2 hgf)
  · rw [if_neg hm]
    refine ⟨ext_rfl s, ?_⟩
    intro e he
    injection he with he
    subst he
    exact ⟨⟨rfl, rfl⟩, fun _ hinput => hinput⟩

theorem finish_step (fuel : Nat)
    (ihExpr : ∀ s, ExprProp s (parse_expression fuel s))
    (ihArgs : ∀ s acc, ErrExt s (args_loop fuel s acc).1) :
    ∀ callee s, CallProp callee s (finish_call (fuel + 1) callee s) := by
  intro callee s
  simp only [CallProp, finish_call]
  by_cases hck : (!s.check .RIGHT_PAREN) = true
  · rw [if_pos hck]
    rcases hx : parse_expression fuel s with ⟨s1, o1⟩
    have hE1 : ErrExt s s1 := by
      have h := (ihExpr s).1
      rw [hx] at h
      exact h
    cases o1 with
    | perr => exact ⟨hE1, by intro e he; simp at he⟩
    | fuelOut => exact ⟨hE1, by intro e he; simp at he⟩
    | ok arg =>
      dsimp only
      rcases ha : args_loop fuel s1 [arg] with ⟨s2, o2⟩
      have hE2 : ErrExt s1 s2 := by
        have h := ihArgs s1 [arg]
        rw [ha] at h
        exact h
      cases o2 with
      | perr => exact ⟨ext_trans hE1 hE2, by intro e he; simp at he⟩
      | fuelOut => exact ⟨ext_trans hE1 hE2, by intro e he; simp at he⟩
      | ok arguments =>
        dsimp only
        rcases hcr : s2.consume .RIGHT_PAREN "Expect \x27)\x27 after arguments." with ⟨s3, o3⟩
        have hE3 : ErrExt s2 s3 := by
          have h := consume_ext s2 .RIGHT_PAREN "Expect \x27)\x27 after arguments."
          rw [hcr] at h
          exact h
        cases o3 with
        | perr => exact ⟨ext_trans (ext_trans hE1 hE2) hE3, by intro e he; simp at he⟩
        | fuelOut => exact ⟨ext_trans (ext_trans hE1 hE2) hE3, by intro e he; simp at he⟩
        | ok right_paren =>
          obtain ⟨htk, hty, hs3, hend3⟩ := consume_ok hcr
          dsimp only
          refine ⟨ext_trans (ext_trans hE1 hE2) hE3, ?_⟩
          intro e he
          injection he with he
          subst he
          refine ⟨⟨rfl, rfl⟩, ?_⟩
          intro _
          rw [hs3, advance_previous hend3, ← htk]
          rfl
  · rw [if_neg hck]
    dsimp only
    rcases hcr : s.consume .RIGHT_PAREN "Expect \x27)\x27 after arguments." with ⟨s3, o3⟩
    have hE3 : ErrExt s s3 := by
      have h := consume_ext s .RIGHT_PAREN "Expect \x27)\x27 after arguments."
      rw [hcr] at h
      exact h
    cases o3 with
    | perr => exact ⟨ext_trans (ext_rfl s) hE3, by intro e he; simp at he⟩
    | fuelOut => exact ⟨ext_trans (ext_rfl s) hE3, by intro e he; simp at he⟩
    | ok right_paren =>
      obtain ⟨htk, hty, hs3, hend3⟩ := consume_ok hcr
      dsimp only
      refine ⟨ext_trans (ext_rfl s) hE3, ?_⟩
      intro e he
      injection he with he
      subst he
      refine ⟨⟨rfl, rfl⟩, ?_⟩
      intro _
      rw [hs3, advance_previous hend3, ← htk]
      rfl

theorem assign_step (fuel : Nat)
    (ihBinLvl : ∀ lvl s, ExprProp s (binary_level fuel lvl s))
    (ihExpr : ∀ s, ExprProp s (parse_expression fuel s)) :
    ∀ s, ExprProp s (parse_assignment (fuel + 1) s) := by
  intro s
  simp only [ExprProp, parse_assignment]
  rcases hb : binary_level fuel 0 s with ⟨s1, o1⟩
  have hE1 : ErrExt s s1 := by
    have h := (ihBinLvl 0 s).1
    rw [hb] at h
    exact h
  cases o1 with
  | perr => exact ⟨hE1, by intro e he; simp at he⟩
  | fuelOut => exact ⟨hE1, by intro e he; simp at he⟩
  | ok expr =>
    dsimp only
    have hstart := ((ihBinLvl 0 s).2 expr (by rw [hb])).1
    have hstop0 := ((ihBinLvl 0 s).2 expr (by rw [hb])).2
    rw [hb] at hstop0
    by_cases hm : (s1.match_types [.EQUAL]).1 = true
    · rw [if_pos hm]
      obtain ⟨hadv, hend⟩ := match_true hm
      rw [hadv]
      rcases hx : parse_expression fuel s1.advance with ⟨s2, o2⟩
      have hE2 : ErrExt s1.advance s2 := by
        have h := (ihExpr s1.advance).1
        rw [hx] at h
        exact h
      have hEall : ErrExt s s2 :=
        ext_trans hE1 (ext_trans (ext_of_eq (advance_errors s1)) hE2)
      cases o2 with
      | perr => exact ⟨hEall, by intro e he; simp at he⟩
      | fuelOut => exact ⟨hEall, by intro e he; simp at he⟩
      | ok value =>
        dsimp only
        split
        · -- assignment target is an identifier
          rename_i name isp
          refine ⟨hEall, ?_⟩
          intro e he
          injection he with he
          subst he
          refine ⟨⟨hstart.1, hstart.2⟩, ?_⟩
          intro hg
          have hg1adv : s1.advance.errors = s.errors :=
            ext_squeeze (ext_trans hE1 (ext_of_eq (advance_errors s1))) hE2 hg
          have hgv : s2.errors = s1.advance.errors := by rw [hg, hg1adv]
          have hvstop := ((ihExpr s1.advance).2 value (by rw [hx])).2
          rw [hx] at hvstop
          exact hvstop hgv
        · -- invalid assignment target: the error is recorded, expr kept
          refine ⟨ext_trans hEall ⟨[Lexer.format_pos_error s1.advance.previous.span.pos
            "Invalid assignment target."], by simp [PState.add_error]⟩, ?_⟩
          intro e he
          injection he with he
          subst he
          refine ⟨⟨hstart.1, hstart.2⟩, ?_⟩
          intro hg
          exfalso
          obtain ⟨l, hl⟩ := hEall
          simp only [PState.add_error] at hg
          rw [hl] at hg
          have hlen := congrArg List.length hg
          simp at hlen
    · rw [if_neg hm]
      refine ⟨hE1, ?_⟩
      intro e he
      injection he with he
      subst he
      exact ⟨⟨hstart.1, hstart.2⟩, fun hg => hstop0 hg⟩

theorem while_step (fuel : Nat)
    (ihExpr : ∀ s, ExprProp s (parse_expression fuel s))
    (ihStmt : ∀ s, StmtProp s.peek s (parse_statement fuel s)) :
    ∀ s, StmtProp s.previous s (while_statement (fuel + 1) s) := by
  intro s
  simp only [StmtProp, while_statement]
  rcases hc1 : s.consume .LEFT_PAREN "Expect \x27(\x27 after \x27while\x27." with ⟨s1, o1⟩
  have hE1 : ErrExt s s1 := by
    have h := consume_ext s .LEFT_PAREN "Expect \x27(\x27 after \x27while\x27."
    rw [hc1] at h
    exact h
  cases o1 with
  | perr => exact ⟨hE1, by intro st hst; simp at hst⟩
  | fuelOut => exact ⟨hE1, by intro st hst; simp at hst⟩
  | ok lp =>
    dsimp only
    rcases hx : parse_expression fuel s1 with ⟨s2, o2⟩
    have hE2 : ErrExt s1 s2 := by
      have h := (ihExpr s1).1
      rw [hx] at h
      exact h
    cases o2 with
    | perr => exact ⟨ext_trans hE1 hE2, by intro st hst; simp at hst⟩
    | fuelOut => exact ⟨ext_trans hE1 hE2, by intro st hst; simp at hst⟩
    | ok condition =>
      dsimp only
      rcases hc3 : s2.consume .RIGHT_PAREN "Expect \x27)\x27 after while condition." with ⟨s3, o3⟩
      have hE3 : ErrExt s2 s3 := by
        have h := consume_ext s2 .RIGHT_PAREN "Expect \x27)\x27 after while condition."
        rw [hc3] at h
        exact h
      have hEs3 : ErrExt s s3 := ext_trans (ext_trans hE1 hE2) hE3
      cases o3 with
      | perr => exact ⟨hEs3, by intro st hst; simp at hst⟩
      | fuelOut => exact ⟨hEs3, by intro st hst; simp at hst⟩
      | ok rp =>
        dsimp only
        rcases hbd : parse_statement fuel s3 with ⟨s4, o4⟩
        have hE4 : ErrExt s3 s4 := by
          have h := (ihStmt s3).1
          rw [hbd] at h
          exact h
        cases o4 with
        | perr => exact ⟨ext_trans hEs3 hE4, by intro st hst; simp at hst⟩
        | fuelOut => exact ⟨ext_trans hEs3 hE4, by intro st hst; simp at hst⟩
        | ok body =>
          dsimp only
          refine ⟨ext_trans hEs3 hE4, ?_⟩
          intro st hst
          injection hst with hst
          subst hst
          refine ⟨⟨rfl, rfl⟩, ?_⟩
          intro hg
          have hg3 : s3.errors = s.errors := ext_squeeze hEs3 hE4 hg
          have hgbody : s4.errors = s3.errors := by rw [hg, hg3]
          have hbodyStops := ((ihStmt s3).2 body (by rw [hbd])).2
          rw [hbd] at hbodyStops
          have hbs := hbodyStops hgbody
          simp only [StmtStops, ends_while_eq] at hbs ⊢
          by_cases he : ends_in_return_value body = true
          · rw [if_pos he] at hbs ⊢
            exact hbs
          · rw [if_neg he] at hbs ⊢
            exact hbs

theorem if_step (fuel : Nat)
    (ihExpr : ∀ s, ExprProp s (parse_expression fuel s))
    (ihStmt : ∀ s, StmtProp s.peek s (parse_statement fuel s)) :
    ∀ s, StmtProp s.previous s (if_statement (fuel + 1) s) := by
  intro s
  simp only [StmtProp, if_statement]
  rcases hc1 : s.consume .LEFT_PAREN "Expect \x27(\x27 after \x27if\x27." with ⟨s1, o1⟩
  have hE1 : ErrExt s s1 := by
    have h := consume_ext s .LEFT_PAREN "Expect \x27(\x27 after \x27if\x27."
    rw [hc1] at h
    exact h
  cases o1 with
  | perr => exact ⟨hE1, by intro st hst; simp at hst⟩
  | fuelOut => exact ⟨hE1, by intro st hst; simp at hst⟩
  | ok lp =>
    dsimp only
    rcases hx : parse_expression fuel s1 with ⟨s2, o2⟩
    have hE2 : ErrExt s1 s2 := by
      have h := (ihExpr s1).1
      rw [hx] at h
      exact h
    cases o2 with
    | perr => exact ⟨ext_trans hE1 hE2, by intro st hst; simp at hst⟩
    | fuelOut => exact ⟨ext_trans hE1 hE2, by intro st hst; simp at hst⟩
    | ok condition =>
      dsimp only
      rcases hc3 : s2.consume .RIGHT_PAREN "Expect \x27)\x27 after if condition." with ⟨s3, o3⟩
      have hE3 : ErrExt s2 s3 := by
        have h := consume_ext s2 .RIGHT_PAREN "Expect \x27)\x27 after if condition."
        rw [hc3] at h
        exact h
      have hEs3 : ErrExt s s3 := ext_trans (ext_trans hE1 hE2) hE3
      cases o3 with
      | perr => exact ⟨hEs3, by intro st hst; simp at hst⟩
      | fuelOut => exact ⟨hEs3, by intro st hst; simp at hst⟩
      | ok rp =>
        dsimp only
        rcases hbd : parse_statement fuel s3 with ⟨s4, o4⟩
        have hE4 : ErrExt s3 s4 := by
          have h := (ihStmt s3).1
          rw [hbd] at h
          exact h
        have hEs4 : ErrExt s s4 := ext_trans hEs3 hE4
        cases o4 with
        | perr => exact ⟨hEs4, by intro st hst; simp at hst⟩
        | fuelOut => exact ⟨hEs4, by intro st hst; simp at hst⟩
        | ok then_branch =>
          dsimp only
          by_cases hm : (s4.match_types [.ELSE]).1 = true
          · rw [if_pos hm]
            obtain ⟨hadv, hend⟩ := match_true hm
            rw [hadv]
            rcases hel : parse_statement fuel s4.advance with ⟨s5, o5⟩
            have hE5 : ErrExt s4.advance s5 := by
              have h := (ihStmt s4.advance).1
              rw [hel] at h
              exact h
            have hEadv : ErrExt s s4.advance :=
              ext_trans hEs4 (ext_of_eq (advance_errors s4))
            cases o5 with
            | perr => exact ⟨ext_trans hEadv hE5, by intro st hst; simp at hst⟩
            | fuelOut => exact ⟨ext_trans hEadv hE5, by intro st hst; simp at hst⟩
            | ok else_branch =>
              dsimp only
              refine ⟨ext_trans hEadv hE5, ?_⟩
              intro st hst
              injection hst with hst
              subst hst
              refine ⟨⟨rfl, rfl⟩, ?_⟩
              intro hg
              have hgadv : s4.advance.errors = s.errors := ext_squeeze hEadv hE5 hg
              have hgelse : s5.errors = s4.advance.errors := by rw [hg, hgadv]
              have helseStops := ((ihStmt s4.advance).2 else_branch (by rw [hel])).2
              rw [hel] at helseStops
              have hbs := helseStops hgelse
              simp only [StmtStops, ends_if_some] at hbs ⊢
              by_cases hee : ends_in_return_value else_branch = true
              · rw [if_pos hee] at hbs ⊢
                exact hbs
              · rw [if_neg hee] at hbs ⊢
                exact hbs
          · rw [if_neg hm]
            refine ⟨hEs4, ?_⟩
            intro st hst
            injection hst with hst
            subst hst
            refine ⟨⟨rfl, rfl⟩, ?_⟩
            intro hg
            have hg3 : s3.errors = s.errors := ext_squeeze hEs3 hE4 hg
            have hgthen : s4.errors = s3.errors := by rw [hg, hg3]
            have hthenStops := ((ihStmt s3).2 then_branch (by rw [hbd])).2
            rw [hbd] at hthenStops
            have hbs := hthenStops hgthen
            simp only [StmtStops, ends_if_none] at hbs ⊢
            by_cases hte : ends_in_return_value then_branch = true
            · rw [if_pos hte] at hbs ⊢
              exact hbs
            · rw [if_neg hte] at hbs ⊢
              exact hbs

theorem return_step (fuel : Nat)
    (ihExpr : ∀ s, ExprProp s (parse_expression fuel s)) :
    ∀ s, StmtProp s.previous s (return_statement (fuel + 1) s) := by
  intro s
  simp only [StmtProp, return_statement]
  by_cases hck : (!s.check .SEMICOLON) = true
  · rw [if_pos hck]
    rcases hx : parse_expression fuel s with ⟨s1, o1⟩
    have hE1 : ErrExt s s1 := by
      have h := (ihExpr s).1
      rw [hx] at h
      exact h
    cases o1 with
    | perr => exact ⟨hE1, by intro st hst; simp at hst⟩
    | fuelOut => exact ⟨hE1, by intro st hst; simp at hst⟩
    | ok v =>
      dsimp only
      rcases hc2 : s1.consume .SEMICOLON "Expect \x27;\x27 after return value." with ⟨s3, o3⟩
      have hE2 : ErrExt s1 s3 := by
        have h := consume_ext s1 .SEMICOLON "Expect \x27;\x27 after return value."
        rw [hc2] at h
        exact h
      cases o3 with
      | perr => exact ⟨ext_trans hE1 hE2, by intro st hst; simp at hst⟩
      | fuelOut => exact ⟨ext_trans hE1 hE2, by intro st hst; simp at hst⟩
      | ok semi =>
        obtain ⟨htk, hty, hs3, hend3⟩ := consume_ok hc2
        dsimp only
        refine ⟨ext_trans hE1 hE2, ?_⟩
        intro st hst
        injection hst with hst
        subst hst
        refine ⟨⟨rfl, rfl⟩, ?_⟩
        intro hg
        have hg1 : s1.errors = s.errors := ext_squeeze hE1 hE2 hg
        have hvstop := ((ihExpr s).2 v (by rw [hx])).2
        rw [hx] at hvstop
        have hv := hvstop hg1
        simp only [StmtStops, ends_return_some, eq_self_iff_true, if_true]
        constructor
        · show v.span.stop = (tok_at s3 (s3.current - 2)).span.stop
          rw [hv, hs3, advance_current hend3, tok_at_advance]
          have hidx : s1.current + 1 - 2 = s1.current - 1 := by omega
          rw [hidx]
          rfl
        · rw [hs3, advance_previous hend3]
          exact hty
  · rw [if_neg hck]
    dsimp only
    rcases hc2 : s.consume .SEMICOLON "Expect \x27;\x27 after return value." with ⟨s3, o3⟩
    have hE2 : ErrExt s s3 := by
      have h := consume_ext s .SEMICOLON "Expect \x27;\x27 after return value."
      rw [hc2] at h
      exact h
    cases o3 with
    | perr => exact ⟨hE2, by intro st hst; simp at hst⟩
    | fuelOut => exact ⟨hE2, by intro st hst; simp at hst⟩
    | ok semi =>
      obtain ⟨htk, hty, hs3, hend3⟩ := consume_ok hc2
      dsimp only
      refine ⟨hE2, ?_⟩
      intro st hst
      injection hst with hst
      subst hst
      refine ⟨⟨rfl, rfl⟩, ?_⟩
      intro _
      simp only [StmtStops, ends_return_none, Bool.false_eq_true, if_false]
      rw [hs3, advance_previous hend3, ← htk]
      rfl

theorem fn_step (fuel : Nat)
    (ihParams : ∀ s acc, ErrExt s (params_loop fuel s acc).1)
    (ihSList : ∀ s acc, ErrExt s (stmt_list_loop fuel s acc).1) :
    ∀ s, StmtProp s.previous s (fn_declaration (fuel + 1) s) := by
  intro s
  simp only [StmtProp, fn_declaration]
  rcases hc1 : s.consume .IDENTIFIER "Expect function name after \x27fn\x27." with ⟨s1, o1⟩
  have hE1 : ErrExt s s1 := by
    have h := consume_ext s .IDENTIFIER "Expect function name after \x27fn\x27."
    rw [hc1] at h
    exact h
  cases o1 with
  | perr => exact ⟨hE1, by intro st hst; simp at hst⟩
  | fuelOut => exact ⟨hE1, by intro st hst; simp at hst⟩
  | ok fn_name =>
    dsimp only
    rcases hc2 : s1.consume .LEFT_PAREN "Expect \x27(\x27 after function name." with ⟨s2, o2⟩
    have hE2c : ErrExt s1 s2 := by
      have h := consume_ext s1 .LEFT_PAREN "Expect \x27(\x27 after function name."
      rw [hc2] at h
      exact h
    have hEs2 : ErrExt s s2 := ext_trans hE1 hE2c
    cases o2 with
    | perr => exact ⟨hEs2, by intro st hst; simp at hst⟩
    | fuelOut => exact ⟨hEs2, by intro st hst; simp at hst⟩
    | ok lp =>
      dsimp only
      by_cases hrp : (!s2.check .RIGHT_PAREN) = true
      · rw [if_pos hrp]
        rcases hc3 : s2.consume .IDENTIFIER "Expect parameter name." with ⟨s3, o3⟩
        have hE3 : ErrExt s2 s3 := by
          have h := consume_ext s2 .IDENTIFIER "Expect parameter name."
          rw [hc3] at h
          exact h
        cases o3 with
        | perr => exact ⟨ext_trans hEs2 hE3, by intro st hst; simp at hst⟩
        | fuelOut => exact ⟨ext_trans hEs2 hE3, by intro st hst; simp at hst⟩
        | ok param =>
          dsimp only
          rcases hpl : params_loop fuel s3 [{ text := param.lexeme, span := param.span }] with ⟨s4, o4⟩
          have hE4 : ErrExt s3 s4 := by
            have h := ihParams s3 [{ text := param.lexeme, span := param.span }]
            rw [hpl] at h
            exact h
          have hEs4 : ErrExt s s4 := ext_trans (ext_trans hEs2 hE3) hE4
          cases o4 with
          | perr => exact ⟨hEs4, by intro st hst; simp at hst⟩
          | fuelOut => exact ⟨hEs4, by intro st hst; simp at hst⟩
          | ok params =>
            dsimp only
            rcases hc5 : s4.consume .RIGHT_PAREN "Expect \x27)\x27 after parameters." with ⟨s5, o5⟩
            have hE5 : ErrExt s4 s5 := by
              have h := consume_ext s4 .RIGHT_PAREN "Expect \x27)\x27 after parameters."
              rw [hc5] at h
              exact h
            have hEa : ErrExt s s5 := ext_trans hEs4 hE5
            cases o5 with
            | perr => exact ⟨hEa, by intro st hst; simp at hst⟩
            | fuelOut => exact ⟨hEa, by intro st hst; simp at hst⟩
            | ok rp =>
              dsimp only
              rcases hc6 : s5.consume .LEFT_BRACE "Expect \x27\x7b\x27 before function body." with ⟨s6, o6⟩
              have hE6 : ErrExt s5 s6 := by
                have h := consume_ext s5 .LEFT_BRACE "Expect \x27\x7b\x27 before function body."
                rw [hc6] at h
                exact h
              have hEb : ErrExt s s6 := ext_trans hEa hE6
              cases o6 with
              | perr => exact ⟨hEb, by intro st hst; simp at hst⟩
              | fuelOut => exact ⟨hEb, by intro st hst; simp at hst⟩
              | ok lb2 =>
                dsimp only
                rcases hsl : stmt_list_loop fuel s6 [] with ⟨s7, o7⟩
                have hE7 : ErrExt s6 s7 := by
                  have h := ihSList s6 []
                  rw [hsl] at h
                  exact h
                have hEc : ErrExt s s7 := ext_trans hEb hE7
                cases o7 with
                | perr => exact ⟨hEc, by intro st hst; simp at hst⟩
                | fuelOut => exact ⟨hEc, by intro st hst; simp at hst⟩
                | ok body =>
                  dsimp only
                  rcases hc8 : s7.consume .RIGHT_BRACE "Expect \x27\x7d\x27 after function body." with ⟨s8, o8⟩
                  have hE8 : ErrExt s7 s8 := by
                    have h := consume_ext s7 .RIGHT_BRACE "Expect \x27\x7d\x27 after function body."
                    rw [hc8] at h
                    exact h
                  have hEd : ErrExt s s8 := ext_trans hEc hE8
                  cases o8 with
                  | perr => exact ⟨hEd, by intro st hst; simp at hst⟩
                  | fuelOut => exact ⟨hEd, by intro st hst; simp at hst⟩
                  | ok right_brace =>
                    obtain ⟨htk2, hty2, hs8, hend8⟩ := consume_ok hc8
                    dsimp only
                    refine ⟨hEd, ?_⟩
                    intro st hst
                    injection hst with hst
                    subst hst
                    refine ⟨⟨rfl, rfl⟩, ?_⟩
                    intro _
                    simp only [StmtStops, ends_fnStmt, Bool.false_eq_true, if_false]
                    rw [hs8, advance_previous hend8, ← htk2]
                    rfl
      · rw [if_neg hrp]
        dsimp only
        rcases hc5 : s2.consume .RIGHT_PAREN "Expect \x27)\x27 after parameters." with ⟨s5, o5⟩
        have hE5 : ErrExt s2 s5 := by
          have h := consume_ext s2 .RIGHT_PAREN "Expect \x27)\x27 after parameters."
          rw [hc5] at h
          exact h
        have hEa : ErrExt s s5 := ext_trans hEs2 hE5
        cases o5 with
        | perr => exact ⟨hEa, by intro st hst; simp at hst⟩
        | fuelOut => exact ⟨hEa, by intro st hst; simp at hst⟩
        | ok rp =>
          dsimp only
          rcases hc6 : s5.consume .LEFT_BRACE "Expect \x27\x7b\x27 before function body." with ⟨s6, o6⟩
          have hE6 : ErrExt s5 s6 := by
            have h := consume_ext s5 .LEFT_BRACE "Expect \x27\x7b\x27 before function body."
            rw [hc6] at h
            exact h
          have hEb : ErrExt s s6 := ext_trans hEa hE6
          cases o6 with
          | perr => exact ⟨hEb, by intro st hst; simp at hst⟩
          | fuelOut => exact ⟨hEb, by intro st hst; simp at hst⟩
          | ok lb2 =>
            dsimp only
            rcases hsl : stmt_list_loop fuel s6 [] with ⟨s7, o7⟩
            have hE7 : ErrExt s6 s7 := by
              have h := ihSList s6 []
              rw [hsl] at h
              exact h
            have hEc : ErrExt s s7 := ext_trans hEb hE7
            cases o7 with
            | perr => exact ⟨hEc, by intro st hst; simp at hst⟩
            | fuelOut => exact ⟨hEc, by intro st hst; simp at hst⟩
            | ok body =>
              dsimp only
              rcases hc8 : s7.consume .RIGHT_BRACE "Expect \x27\x7d\x27 after function body." with ⟨s8, o8⟩
              have hE8 : ErrExt s7 s8 := by
                have h := consume_ext s7 .RIGHT_BRACE "Expect \x27\x7d\x27 after function body."
                rw [hc8] at h
                exact h
              have hEd : ErrExt s s8 := ext_trans hEc hE8
              cases o8 with
              | perr => exact ⟨hEd, by intro st hst; simp at hst⟩
              | fuelOut => exact ⟨hEd, by intro st hst; simp at hst⟩
              | ok right_brace =>
                obtain ⟨htk2, hty2, hs8, hend8⟩ := consume_ok hc8
                dsimp only
                refine ⟨hEd, ?_⟩
                intro st hst
                injection hst with hst
                subst hst
                refine ⟨⟨rfl, rfl⟩, ?_⟩
                intro _
                simp only [StmtStops, ends_fnStmt, Bool.false_eq_true, if_false]
                rw [hs8, advance_previous hend8, ← htk2]
                rfl

theorem stmt_step (fuel : Nat)
    (ihIf : ∀ s, StmtProp s.previous s (if_statement fuel s))
    (ihWhile : ∀ s, StmtProp s.previous s (while_statement fuel s))
    (ihBreak : ∀ s, StmtProp s.previous s (break_statement fuel s))
    (ihCont : ∀ s, StmtProp s.previous s (continue_statement fuel s))
    (ihRet : ∀ s, StmtProp s.previous s (return_statement fuel s))
    (ihBlock : ∀ lb s, StmtProp lb s (block_statement fuel lb s))
    (ihExprSt : ∀ s, StmtProp s.peek s (expression_statement fuel s)) :
    ∀ s, StmtProp s.peek s (parse_statement (fuel + 1) s) := by
  intro s
  simp only [StmtProp, parse_statement]
  by_cases hm0 : (s.match_types [.IF]).1 = true
  · rw [if_pos hm0]
    obtain ⟨hadv, hend⟩ := match_true hm0
    rw [hadv]
    refine ⟨ext_trans (ext_of_eq (advance_errors s)) (ihIf s.advance).1, ?_⟩
    intro st hst
    have hOk := (ihIf s.advance).2 st hst
    rw [advance_previous hend] at hOk
    refine ⟨hOk.1, ?_⟩
    intro hg
    exact hOk.2 (by rw [hg, advance_errors])
  · rw [if_neg hm0]
    by_cases hm1 : (s.match_types [.WHILE]).1 = true
    · rw [if_pos hm1]
      obtain ⟨hadv, hend⟩ := match_true hm1
      rw [hadv]
      refine ⟨ext_trans (ext_of_eq (advance_errors s)) (ihWhile s.advance).1, ?_⟩
      intro st hst
      have hOk := (ihWhile s.advance).2 st hst
      rw [advance_previous hend] at hOk
      refine ⟨hOk.1, ?_⟩
      intro hg
      exact hOk.2 (by rw [hg, advance_errors])
    · rw [if_neg hm1]
      by_cases hm2 : (s.match_types [.BREAK]).1 = true
      · rw [if_pos hm2]
        obtain ⟨hadv, hend⟩ := match_true hm2
        rw [hadv]
        refine ⟨ext_trans (ext_of_eq (advance_errors s)) (ihBreak s.advance).1, ?_⟩
        intro st hst
        have hOk := (ihBreak s.advance).2 st hst
        rw [advance_previous hend] at hOk
        refine ⟨hOk.1, ?_⟩
        intro hg
        exact hOk.2 (by rw [hg, advance_errors])
      · rw [if_neg hm2]
        by_cases hm3 : (s.match_types [.CONTINUE]).1 = true
        · rw [if_pos hm3]
          obtain ⟨hadv, hend⟩ := match_true hm3
          rw [hadv]
          refine ⟨ext_trans (ext_of_eq (advance_errors s)) (ihCont s.advance).1, ?_⟩
          intro st hst
          have hOk := (ihCont s.advance).2 st hst
          rw [advance_previous hend] at hOk
          refine ⟨hOk.1, ?_⟩
          intro hg
          exact hOk.2 (by rw [hg, advance_errors])
        · rw [if_neg hm3]
          by_cases hm4 : (s.match_types [.RETURN]).1 = true
          · rw [if_pos hm4]
            obtain ⟨hadv, hend⟩ := match_true hm4
            rw [hadv]
            refine ⟨ext_trans (ext_of_eq (advance_errors s)) (ihRet s.advance).1, ?_⟩
            intro st hst
            have hOk := (ihRet s.advance).2 st hst
            rw [advance_previous hend] at hOk
            refine ⟨hOk.1, ?_⟩
            intro hg
            exact hOk.2 (by rw [hg, advance_errors])
          · rw [if_neg hm4]
            by_cases hm5 : (s.match_types [.LEFT_BRACE]).1 = true
            · rw [if_pos hm5]
              obtain ⟨hadv, hend⟩ := match_true hm5
              rw [hadv, advance_previous hend]
              refine ⟨ext_trans (ext_of_eq (advance_errors s)) (ihBlock s.peek s.advance).1, ?_⟩
              intro st hst
              have hOk := (ihBlock s.peek s.advance).2 st hst
              refine ⟨hOk.1, ?_⟩
              intro hg
              exact hOk.2 (by rw [hg, advance_errors])
            · rw [if_neg hm5]
              exact ihExprSt s

theorem decl_step (fuel : Nat)
    (ihFn : ∀ s, StmtProp s.previous s (fn_declaration fuel s))
    (ihLet : ∀ s, StmtProp s.previous s (let_declaration fuel s))
    (ihStmt : ∀ s, StmtProp s.peek s (parse_statement fuel s)) :
    ∀ s, DeclProp s (parse_declaration (fuel + 1) s) := by
  intro s
  simp only [DeclProp, parse_declaration]
  by_cases h1 : (s.match_types [.FN]).1 = true
  · rw [if_pos h1]
    obtain ⟨hadv, hend⟩ := match_true h1
    rw [hadv]
    rcases hf : fn_declaration fuel s.advance with ⟨s1, o1⟩
    have hBase := ihFn s.advance
    rw [hf, advance_previous hend] at hBase
    have hE : ErrExt s s1 := ext_trans (ext_of_eq (advance_errors s)) hBase.1
    cases o1 with
    | ok st0 =>
      dsimp only
      refine ⟨hE, ?_⟩
      intro st hst
      injection hst with hst
      injection hst with hst
      subst hst
      have hOk := hBase.2 st0 rfl
      refine ⟨hOk.1, ?_⟩
      intro hg
      exact hOk.2 (by rw [hg, advance_errors])
    | perr =>
      dsimp only
      refine ⟨ext_trans hE (ext_of_eq (synchronize_errors s1)), ?_⟩
      intro st hst
      injection hst with hst
      simp at hst
    | fuelOut =>
      dsimp only
      exact ⟨hE, by intro st hst; simp at hst⟩
  · rw [if_neg h1]
    by_cases h2 : (s.match_types [.LET]).1 = true
    · rw [if_pos h2]
      obtain ⟨hadv, hend⟩ := match_true h2
      rw [hadv]
      rcases hf : let_declaration fuel s.advance with ⟨s1, o1⟩
      have hBase := ihLet s.advance
      rw [hf, advance_previous hend] at hBase
      have hE : ErrExt s s1 := ext_trans (ext_of_eq (advance_errors s)) hBase.1
      cases o1 with
      | ok st0 =>
        dsimp only
        refine ⟨hE, ?_⟩
        intro st hst
        injection hst with hst
        injection hst with hst
        subst hst
        have hOk := hBase.2 st0 rfl
        refine ⟨hOk.1, ?_⟩
        intro hg
        exact hOk.2 (by rw [hg, advance_errors])
      | perr =>
        dsimp only
        refine ⟨ext_trans hE (ext_of_eq (synchronize_errors s1)), ?_⟩
        intro st hst
        injection hst with hst
        simp at hst
      | fuelOut =>
        dsimp only
        exact ⟨hE, by intro st hst; simp at hst⟩
    · rw [if_neg h2]
      rcases hp : parse_statement fuel s with ⟨s1, o1⟩
      have hBase := ihStmt s
      rw [hp] at hBase
      cases o1 with
      | ok st0 =>
        dsimp only
        refine ⟨hBase.1, ?_⟩
        intro st hst
        injection hst with hst
        injection hst with hst
        subst hst
        have hOk := hBase.2 st0 rfl
        exact ⟨hOk.1, fun hg => hOk.2 hg⟩
      | perr =>
        dsimp only
        refine ⟨ext_trans hBase.1 (ext_of_eq (synchronize_errors s1)), ?_⟩
        intro st hst
        injection hst with hst
        simp at hst
      | fuelOut =>
        dsimp only
        exact ⟨hBase.1, by intro st hst; simp at hst⟩

theorem parser_spans : ∀ fuel : Nat,
    (∀ s, DeclProp s (parse_declaration fuel s)) ∧
    (∀ s, StmtProp s.peek s (parse_statement fuel s)) ∧
    (∀ s, StmtProp s.previous s (let_declaration fuel s)) ∧
    (∀ s acc, ErrExt s (params_loop fuel s acc).1) ∧
    (∀ s acc, ErrExt s (stmt_list_loop fuel s acc).1) ∧
    (∀ s, StmtProp s.previous s (fn_declaration fuel s)) ∧
    (∀ s, StmtProp s.previous s (if_statement fuel s)) ∧
    (∀ s, StmtProp s.previous s (while_statement fuel s)) ∧
    (∀ s, StmtProp s.previous s (break_statement fuel s)) ∧
    (∀ s, StmtProp s.previous s (continue_statement fuel s)) ∧
    (∀ s, StmtProp s.previous s (return_statement fuel s)) ∧
    (∀ lb s, StmtProp lb s (block_statement fuel lb s)) ∧
    (∀ s, StmtProp s.peek s (expression_statement fuel s)) ∧
    (∀ s, ExprProp s (parse_expression fuel s)) ∧
    (∀ s, ExprProp s (parse_assignment fuel s)) ∧
    (∀ lvl s, ExprProp s (binary_level fuel lvl s)) ∧
    (∀ lvl expr s, GrowProp expr s (binary_loop fuel lvl expr s)) ∧
    (∀ s, ExprProp s (parse_unary fuel s)) ∧
    (∀ s, ExprProp s (parse_call fuel s)) ∧
    (∀ expr s, GrowProp expr s (call_loop fuel expr s)) ∧
    (∀ s acc, ErrExt s (args_loop fuel s acc).1) ∧
    (∀ callee s, CallProp callee s (finish_call fuel callee s)) ∧
    (∀ s, ExprProp s (parse_primary fuel s)) := by
  intro fuel
  induction fuel with
  | zero =>
    refine ⟨?_, ?_, ?_, ?_, ?_, ?_, ?_, ?_, ?_, ?_, ?_, ?_, ?_, ?_, ?_, ?_, ?_, ?_, ?_, ?_,
      ?_, ?_, ?_⟩ <;>
      intros <;>
      first
        | exact ⟨ext_rfl _, by intro x hx; exact absurd hx (by simp [parse_declaration,
            parse_statement, let_declaration, fn_declaration, if_statement, while_statement,
            break_statement, continue_statement, return_statement, block_statement,
            expression_statement, parse_expression, parse_assignment, binary_level,
            binary_loop, parse_unary, parse_call, call_loop, finish_call, parse_primary])⟩
        | exact ext_rfl _
  | succ fuel ih =>
    obtain ⟨ihDecl, ihStmt, ihLet, ihParams, ihSList, ihFn, ihIf, ihWhile, ihBreak, ihCont,
      ihRet, ihBlock, ihExprSt, ihExpr, ihAssign, ihBinLvl, ihBinLoop, ihUnary, ihCall,
      ihCallLoop, ihArgs, ihFinish, ihPrimary⟩ := ih
    exact ⟨decl_step fuel ihFn ihLet ihStmt,
      stmt_step fuel ihIf ihWhile ihBreak ihCont ihRet ihBlock ihExprSt,
      let_step fuel ihExpr,
      params_step fuel ihParams,
      slist_step fuel ihDecl ihSList,
      fn_step fuel ihParams ihSList,
      if_step fuel ihExpr ihStmt,
      while_step fuel ihExpr ihStmt,
      break_step fuel,
      continue_step fuel,
      return_step fuel ihExpr,
      block_step fuel ihSList,
      exprstmt_step fuel ihExpr,
      expr_step fuel ihAssign,
      assign_step fuel ihBinLvl ihExpr,
      binlvl_step fuel ihBinLvl ihBinLoop ihUnary,
      binloop_step fuel ihBinLvl ihBinLoop,
      unary_step fuel ihUnary ihCall,
      call_step fuel ihPrimary ihCallLoop,
      callloop_step fuel ihFinish ihCallLoop,
      args_step fuel ihExpr ihArgs,
      finish_step fuel ihExpr ihArgs,
      primary_step fuel ihExpr⟩

end Parsing

/-- C9 (amended): every node any parser function constructs starts exactly
at its first constituent token — the span's start offset and source
position equal that token's (the keyword for keyword statements, the token
under the cursor at entry otherwise); and, when the parse recorded no
error, the span's end offset equals the end of the node's last consumed
token, EXCEPT that a `return` statement with a value — and any
`if`/`while` whose trailing branch chain ends in one — stops at the end of
the return value's last token, excluding the terminating `;` (which is
nevertheless consumed).  The binary/call folds preserve their left
operand's start, and parsing only ever appends to the error list. -/
theorem claim_C9_amended : ∀ fuel : Nat,
    (∀ s, Parsing.DeclProp s (Parsing.parse_declaration fuel s)) ∧
    (∀ s, Parsing.StmtProp s.peek s (Parsing.parse_statement fuel s)) ∧
    (∀ s, Parsing.StmtProp s.previous s (Parsing.let_declaration fuel s)) ∧
    (∀ s acc, Parsing.ErrExt s (Parsing.params_loop fuel s acc).1) ∧
    (∀ s acc, Parsing.ErrExt s (Parsing.stmt_list_loop fuel s acc).1) ∧
    (∀ s, Parsing.StmtProp s.previous s (Parsing.fn_declaration fuel s)) ∧
    (∀ s, Parsing.StmtProp s.previous s (Parsing.if_statement fuel s)) ∧
    (∀ s, Parsing.StmtProp s.previous s (Parsing.while_statement fuel s)) ∧
    (∀ s, Parsing.StmtProp s.previous s (Parsing.break_statement fuel s)) ∧
    (∀ s, Parsing.StmtProp s.previous s (Parsing.continue_statement fuel s)) ∧
    (∀ s, Parsing.StmtProp s.previous s (Parsing.return_statement fuel s)) ∧
    (∀ lb s, Parsing.StmtProp lb s (Parsing.block_statement fuel lb s)) ∧
    (∀ s, Parsing.StmtProp s.peek s (Parsing.expression_statement fuel s)) ∧
    (∀ s, Parsing.ExprProp s (Parsing.parse_expression fuel s)) ∧
    (∀ s, Parsing.ExprProp s (Parsing.parse_assignment fuel s)) ∧
    (∀ lvl s, Parsing.ExprProp s (Parsing.binary_level fuel lvl s)) ∧
    (∀ lvl expr s, Parsing.GrowProp expr s (Parsing.binary_loop fuel lvl expr s)) ∧
    (∀ s, Parsing.ExprProp s (Parsing.parse_unary fuel s)) ∧
    (∀ s, Parsing.ExprProp s (Parsing.parse_call fuel s)) ∧
    (∀ expr s, Parsing.GrowProp expr s (Parsing.call_loop fuel expr s)) ∧
    (∀ s acc, Parsing.ErrExt s (Parsing.args_loop fuel s acc).1) ∧
    (∀ callee s, Parsing.CallProp callee s (Parsing.finish_call fuel callee s)) ∧
    (∀ s, Parsing.ExprProp s (Parsing.parse_primary fuel s)) :=
  Parsing.parser_spans

/-- C9 counterexample: lexing and parsing `return 5;` produces one
statement whose span stops at offset 8 — the end of the value token `5` —
while its last constituent token, the `;`, ends at offset 9: the span
excludes the terminating semicolon, so the node's end offset does not
equal the end of its last token as the claim requires. -/
theorem claim_C9_counterexample :
    (Parsing.parse 20 c9_tokens).2 = [] ∧
    (Parsing.parse 20 c9_tokens).1.map (fun st => st.span.stop) = [8] ∧
    (c9_tokens.getD 2 Parsing.eof_token).type = .SEMICOLON ∧
    (c9_tokens.getD 2 Parsing.eof_token).span.stop = 9 :=
  ⟨rfl, rfl, rfl, rfl⟩

/-- Witness: the amended C9 theorem applied to the concrete parse of
`return 5;` from the state just after the `return` keyword. -/
theorem claim_C9_amended_witness :
    Parsing.StartsTok c9_stmt.span c9_state.previous ∧
    Parsing.StmtStops c9_stmt (Parsing.return_statement 20 c9_state).1 := by
  have h := ((claim_C9_amended 20).2.2.2.2.2.2.2.2.2.2.1) c9_state
  have h2 := h.2 c9_stmt (by rfl)
  exact ⟨h2.1, h2.2 (by rfl)⟩

end RDAI
